import Mathlib

/-! AQUAgpusph: the simulation definition, the variable registry and the kernel tool.

A shallow embedding of
* the definition reader `State::parse`, `State::parseSettings`, `State::parseTools` and
  the writer `State::writeSettings` (src/src/InputOutput/State.cpp);
* the variables manager `Variables` (src/src/Variable.cpp);
* the tools `CalcServer::Tool` and `CalcServer::Kernel` (src/src/CalcServer/Tool.cpp,
  src/src/CalcServer/Kernel.cpp);

with the properties stated about them.

Conventions of the embedding:

* a C++ routine that returns `true` on error and mutates its arguments becomes a function
  into `Res σ`, where `σ` is the mutated state; a `void` routine that may throw becomes a
  function into `Thrown σ`;
* heap objects handled through pointers (`sphTool*`, `Variable*`) are identified by an
  allocation number, which is never reused;
* library routines which are not part of the sources (`fnmatch`, `std::stoi`, the
  expression tokenizer, the OpenCL runtime, the XML reader) are parameters;
* unsigned 32 bit arithmetic is arithmetic of `Nat` modulo `2 ^ 32`.
-/

namespace Aqua

/-- Outcome of a routine returning an error flag: `ok` when it returned `false`, `err`
when it returned `true`, `undef` when it ran into undefined behaviour or threw. -/
inductive Res (σ : Type) where
  | ok (s : σ)
  | err (s : σ)
  | undef
  deriving Repr, DecidableEq

/-- The state left by a routine, whatever flag it returned. -/
def Res.state? {σ : Type} : Res σ → Option σ
  | Res.ok s => some s
  | Res.err s => some s
  | Res.undef => none

/-- Control flow after the placement part of the body of the tools loop: `next` falls
through to the configuration of the tool, `cont` is `continue`, `ret` is `return true`. -/
inductive Flow (σ : Type) where
  | next (s : σ)
  | cont (s : σ)
  | ret (s : σ)
  | undef
  deriving Repr, DecidableEq

/-- The state carried by a control flow. -/
def Flow.state? {σ : Type} : Flow σ → Option σ
  | Flow.next s => some s
  | Flow.cont s => some s
  | Flow.ret s => some s
  | Flow.undef => none

/-! ## Sequence helpers (`std::deque` operations) -/

/-- The call `d.insert(d.begin() + p, x)`, for `p ≤ d.size()`. -/
def dequeInsert {α : Type} : List α → Nat → α → List α
  | l, 0, x => x :: l
  | l, p + 1, x =>
    match l with
    | [] => []
    | a :: l1 => a :: dequeInsert l1 p x

/-- The call `d.erase(d.begin() + p)`, for `p < d.size()`. -/
def dequeErase {α : Type} : List α → Nat → List α
  | [], _ => []
  | _ :: l, 0 => l
  | a :: l, p + 1 => a :: dequeErase l p

/-- The assignment `d.at(p) = x`, for `p < d.size()`. -/
def dequeSet {α : Type} : List α → Nat → α → List α
  | [], _, _ => []
  | _ :: l, 0, x => x :: l
  | a :: l, p + 1, x => a :: dequeSet l p x

/-- The result of `std::min_element`, `none` on an empty range. -/
def min_element : List Nat → Option Nat
  | [] => none
  | a :: l =>
    match min_element l with
    | none => some a
    | some m => some (if m < a then m else a)

/-- The result of `std::max_element`, `none` on an empty range. -/
def max_element : List Nat → Option Nat
  | [] => none
  | a :: l =>
    match max_element l with
    | none => some a
    | some m => some (if a < m then m else a)

/-- The tokens handed out by successive `strtok(..., delim)` calls on a text: the maximal
non-empty runs of characters other than the delimiter. `cur` is the run being read,
reversed. -/
def strtokAux (delim : Char) : List Char → List Char → List String
  | [], cur => if cur.isEmpty then [] else [String.mk cur.reverse]
  | c :: cs, cur =>
    if c = delim then
      (if cur.isEmpty then strtokAux delim cs [] else String.mk cur.reverse :: strtokAux delim cs [])
    else strtokAux delim cs (c :: cur)

/-- All the tokens of `strtok(text, delim)`, in order. -/
def strtok (text : String) (delim : Char) : List String :=
  strtokAux delim text.toList []

namespace InputOutput

/-! ## XML elements -/

/-- An element of the document: its attributes and its text content. -/
structure DOMElement where
  attributes : List (String × String)
  textContent : String
  deriving Repr, DecidableEq

/-- The test `xmlHasAttribute(elem, att)`. -/
def xmlHasAttribute (elem : DOMElement) (att : String) : Bool :=
  elem.attributes.any (fun kv => kv.1 == att)

/-- The text `xmlAttribute(elem, att)`; the empty string when the attribute is missing. -/
def xmlAttribute (elem : DOMElement) (att : String) : String :=
  match elem.attributes.find? (fun kv => kv.1 == att) with
  | some kv => kv.2
  | none => ""

/-! ## Problem setup -/

/-- Modelled from the spec: `ProblemSetup::sphTool` (not part of the sources) is the tool
descriptor, a "name/type/attribute bag" written with `set` and read with `get`. -/
structure sphTool where
  data : List (String × String)
  deriving Repr, DecidableEq

/-- Modelled from the spec: `sphTool::set(name, value)` binds an attribute of the bag,
replacing a previous binding of the same attribute. -/
def sphTool.set (t : sphTool) (name value : String) : sphTool :=
  ⟨(name, value) :: t.data.filter (fun kv => kv.1 != name)⟩

/-- Modelled from the spec: `sphTool::get(name)` reads an attribute of the bag. -/
def sphTool.get (t : sphTool) (name : String) : Option String :=
  (t.data.find? (fun kv => kv.1 == name)).map (fun kv => kv.2)

/-- The part of `ProblemSetup` used by the tools parser. A `sphTool*` is the allocation
number of the descriptor: `heap` holds every descriptor ever created with `new`,
`deleted` records the pointers handed to `delete` (latest last), `tools` is the
`std::deque<sphTool*>` pipeline and `definitions` the defined names. -/
structure ProblemSetup where
  heap : List sphTool
  deleted : List Nat
  tools : List Nat
  definitions : List String
  deriving Repr, DecidableEq

namespace ProblemSetup

/-- The expression `new ProblemSetup::sphTool()`: the new pointer and the new state. -/
def newTool (sim : ProblemSetup) : Nat × ProblemSetup :=
  (sim.heap.length, { sim with heap := sim.heap ++ [⟨[]⟩] })

/-- The statement `delete tool`. -/
def delete (sim : ProblemSetup) (tool : Nat) : ProblemSetup :=
  { sim with deleted := sim.deleted ++ [tool] }

/-- The call `tool->set(name, value)`. -/
def toolSet (sim : ProblemSetup) (tool : Nat) (name value : String) : ProblemSetup :=
  { sim with heap := sim.heap.modify (fun t => t.set name value) tool }

/-- The call `tool->get(name)`, read as the empty string where the attribute (or the
descriptor) does not exist. -/
def toolGet (sim : ProblemSetup) (tool : Nat) (name : String) : String :=
  match sim.heap[tool]? with
  | some t => (t.get name).getD ""
  | none => ""

/-- Modelled from the spec: `ProblemSetup::toolInstances(tool)` (not part of the sources)
is the "per-tool reference count (how many pipeline slots currently point at the same
shared descriptor)". -/
def toolInstances (sim : ProblemSetup) (tool : Nat) : Nat :=
  sim.tools.count tool

/-- Modelled from the spec: `definitions.isDefined(name)` (not part of the sources) is
the existence check of a named definition. -/
def isDefined (sim : ProblemSetup) (name : String) : Bool :=
  sim.definitions.contains name

end ProblemSetup

/-- Library routines used by the tools parser. `fnmatch pattern text` is true when the C
call `fnmatch(pattern, text, 0)` returns 0; `stoi` is `std::stoi`, `none` when it throws. -/
structure Env where
  fnmatch : String → String → Bool
  stoi : String → Option Int

/-- The scan `for(place = 0; place < tools.size(); place++)` of `_toolsList` and
`_toolsName`, started at `place` on the remaining slots: the places whose tool name
satisfies `test`. -/
def scanPlaces (sim : ProblemSetup) (test : String → Bool) : List Nat → Nat → List Nat
  | [], _ => []
  | t :: ts, place =>
    if test (sim.toolGet t "name") then place :: scanPlaces sim test ts (place + 1)
    else scanPlaces sim test ts (place + 1)

/-- The places collected by `_toolsList` for the given tokens. -/
def toolsListTokens (sim : ProblemSetup) (pfx : String) : List String → List Nat
  | [] => []
  | token :: rest =>
    scanPlaces sim (fun n => n == pfx ++ token) sim.tools 0 ++ toolsListTokens sim pfx rest

/-- Helper function to get a list of tool placements from a list of names. -/
def _toolsList (list : String) (sim_data : ProblemSetup) (pfx : String) : List Nat :=
  toolsListTokens sim_data pfx (strtok list ',')

/-- Helper function to get a list of tool placements from a wildcard. -/
def _toolsName (env : Env) (name : String) (sim_data : ProblemSetup) (pfx : String) :
    List Nat :=
  scanPlaces sim_data (fun n => env.fnmatch (pfx ++ name) n) sim_data.tools 0

/-! ## The tools parser -/

/-- The resolution of the places of an `insert` from one of the attributes `before`,
`after`, `before_prefix`, `after_prefix` (four copies of the same block in the source,
which differ in the prefix handed to the helpers, in the choice of the first or of the
last place of a list of names, and in the shift of one place of the `after` forms).
`none` when no tool is found. -/
def insertPlaces (env : Env) (sim_data : ProblemSetup) (att_str : String) (pfx : String)
    (after : Bool) : Option (List Nat) :=
  if att_str.toList.contains ',' then
    let all_places := _toolsList att_str sim_data pfx
    if all_places.isEmpty then none
    else if after then (max_element all_places).map (fun it => [it + 1])
    else (min_element all_places).map (fun it => [it])
  else
    let all_places := _toolsName env att_str sim_data pfx
    if all_places.isEmpty then none
    else if after then some (all_places.map (fun it => it + 1))
    else some all_places

/-- The loop `for(place = places.size(); place > 0; place--) tools.insert(tools.begin() +
places.at(place - 1), tool)`. -/
def insertAll (tools : List Nat) (places : List Nat) (tool : Nat) : List Nat :=
  places.foldr (fun place ts => dequeInsert ts place tool) tools

/-- The outcome shared by the not-found branches: the new tool is deleted, then the
`try_` forms warn and `continue`, the other forms report the error. -/
def notFound (sim_data : ProblemSetup) (tool : Nat) (try_action : Bool) :
    Flow ProblemSetup :=
  if try_action then Flow.cont (sim_data.delete tool) else Flow.ret (sim_data.delete tool)

/-- The end of the resolution of the places of an `insert`: without any place the tool is
not found, otherwise it is inserted at every place. -/
def insertFound (sim_data : ProblemSetup) (tool : Nat) (try_insert : Bool) :
    Option (List Nat) → Flow ProblemSetup
  | none => notFound sim_data tool try_insert
  | some places => Flow.next { sim_data with tools := insertAll sim_data.tools places tool }

/-- The branch of the actions `insert` and `try_insert`. -/
def placeInsert (env : Env) (pfx : String) (sim_data : ProblemSetup) (s_elem : DOMElement)
    (tool : Nat) : Flow ProblemSetup :=
  if xmlHasAttribute s_elem "at" then
    match env.stoi (xmlAttribute s_elem "at") with
    | none => Flow.undef
    | some z =>
      if 0 ≤ z ∧ z.toNat ≤ sim_data.tools.length then
        Flow.next { sim_data with tools := insertAll sim_data.tools [z.toNat] tool }
      else Flow.undef
  else if xmlHasAttribute s_elem "before" then
    insertFound sim_data tool (xmlAttribute s_elem "action" == "try_insert")
      (insertPlaces env sim_data (xmlAttribute s_elem "before") "" false)
  else if xmlHasAttribute s_elem "after" then
    insertFound sim_data tool (xmlAttribute s_elem "action" == "try_insert")
      (insertPlaces env sim_data (xmlAttribute s_elem "after") "" true)
  else if xmlHasAttribute s_elem "before_prefix" then
    insertFound sim_data tool (xmlAttribute s_elem "action" == "try_insert")
      (insertPlaces env sim_data (xmlAttribute s_elem "before_prefix") pfx false)
  else if xmlHasAttribute s_elem "after_prefix" then
    insertFound sim_data tool (xmlAttribute s_elem "action" == "try_insert")
      (insertPlaces env sim_data (xmlAttribute s_elem "after_prefix") pfx true)
  else Flow.ret sim_data

/-- The body of the loop of `remove` at one place: the descriptor of the slot is deleted
when this slot is its last instance, then the slot is dropped from the list. -/
def removeSlot (sim_data : ProblemSetup) (place : Nat) : ProblemSetup :=
  match sim_data.tools[place]? with
  | none => sim_data
  | some t =>
    let sim1 := if sim_data.toolInstances t = 1 then sim_data.delete t else sim_data
    { sim1 with tools := dequeErase sim1.tools place }

/-- The loop of `remove`, over the places in backward order. -/
def removeAll (sim_data : ProblemSetup) (places : List Nat) : ProblemSetup :=
  places.foldr (fun place sim => removeSlot sim place) sim_data

/-- The branch of the actions `remove` and `try_remove`. -/
def placeRemove (env : Env) (pfx : String) (sim_data : ProblemSetup) (s_elem : DOMElement)
    (tool : Nat) : Flow ProblemSetup :=
  let try_remove := xmlAttribute s_elem "action" == "try_remove"
  let places := _toolsName env (sim_data.toolGet tool "name") sim_data pfx
  if places.isEmpty then notFound sim_data tool try_remove
  else Flow.cont (removeAll (sim_data.delete tool) places)

/-- The body of the loop of `replace` at one place: the descriptor of the slot is deleted
when this slot is its last instance, then the slot is set to the new tool. -/
def replaceSlot (tool : Nat) (sim_data : ProblemSetup) (place : Nat) : ProblemSetup :=
  match sim_data.tools[place]? with
  | none => sim_data
  | some t =>
    let sim1 := if sim_data.toolInstances t = 1 then sim_data.delete t else sim_data
    { sim1 with tools := dequeSet sim1.tools place tool }

/-- The loop of `replace`, over the places in forward order. -/
def replaceAll (sim_data : ProblemSetup) (places : List Nat) (tool : Nat) : ProblemSetup :=
  places.foldl (replaceSlot tool) sim_data

/-- The branch of the actions `replace` and `try_replace`. -/
def placeReplace (env : Env) (pfx : String) (sim_data : ProblemSetup) (s_elem : DOMElement)
    (tool : Nat) : Flow ProblemSetup :=
  let try_replace := xmlAttribute s_elem "action" == "try_replace"
  let places := _toolsName env (sim_data.toolGet tool "name") sim_data pfx
  if places.isEmpty then notFound sim_data tool try_replace
  else Flow.next (replaceAll sim_data places tool)

/-- The part "Place the tool" of the body of the tools loop. -/
def placeTool (env : Env) (pfx : String) (sim_data : ProblemSetup) (s_elem : DOMElement)
    (tool : Nat) : Flow ProblemSetup :=
  if !xmlHasAttribute s_elem "action" || xmlAttribute s_elem "action" == "add" then
    Flow.next { sim_data with tools := sim_data.tools ++ [tool] }
  else if xmlAttribute s_elem "action" == "insert" ||
      xmlAttribute s_elem "action" == "try_insert" then
    placeInsert env pfx sim_data s_elem tool
  else if xmlAttribute s_elem "action" == "remove" ||
      xmlAttribute s_elem "action" == "try_remove" then
    placeRemove env pfx sim_data s_elem tool
  else if xmlAttribute s_elem "action" == "replace" ||
      xmlAttribute s_elem "action" == "try_replace" then
    placeReplace env pfx sim_data s_elem tool
  else Flow.ret sim_data

/-- The loop `for(k = 0; k < len; k++)` over the required attributes `atts` of a tool
type: a missing attribute is an error, the other ones are copied to the tool. -/
def setRequired (s_elem : DOMElement) (tool : Nat) :
    ProblemSetup → List String → Res ProblemSetup
  | sim_data, [] => Res.ok sim_data
  | sim_data, att :: atts =>
    if !xmlHasAttribute s_elem att then Res.err sim_data
    else setRequired s_elem tool (sim_data.toolSet tool att (xmlAttribute s_elem att)) atts

/-- The statement `tool->set(att, xmlAttribute(s_elem, att))`, with the value `dflt`
when the element has no such attribute. -/
def setOrDefault (s_elem : DOMElement) (tool : Nat) (att dflt : String)
    (sim_data : ProblemSetup) : ProblemSetup :=
  if !xmlHasAttribute s_elem att then sim_data.toolSet tool att dflt
  else sim_data.toolSet tool att (xmlAttribute s_elem att)

/-- The configuration of a tool of type `kernel`. -/
def configureKernel (sim_data : ProblemSetup) (s_elem : DOMElement) (tool : Nat) :
    Res ProblemSetup :=
  if !xmlHasAttribute s_elem "path" then Res.err sim_data
  else
    Res.ok (setOrDefault s_elem tool "n" "N"
      (setOrDefault s_elem tool "entry_point" "entry"
        (sim_data.toolSet tool "path" (xmlAttribute s_elem "path"))))

/-- The configuration of a tool of type `reduction`. -/
def configureReduction (sim_data : ProblemSetup) (s_elem : DOMElement) (tool : Nat) :
    Res ProblemSetup :=
  match setRequired s_elem tool sim_data ["in", "out", "null"] with
  | Res.ok sim1 =>
    if s_elem.textContent == "" then Res.err sim1
    else Res.ok (sim1.toolSet tool "operation" s_elem.textContent)
  | r => r

/-- The part "Configure the tool" of the body of the tools loop. -/
def configureTool (sim_data : ProblemSetup) (s_elem : DOMElement) (tool : Nat) :
    Res ProblemSetup :=
  if xmlAttribute s_elem "type" == "kernel" then configureKernel sim_data s_elem tool
  else if xmlAttribute s_elem "type" == "copy" then
    setRequired s_elem tool sim_data ["in", "out"]
  else if xmlAttribute s_elem "type" == "python" then
    if !xmlHasAttribute s_elem "path" then Res.err sim_data
    else Res.ok (sim_data.toolSet tool "path" (xmlAttribute s_elem "path"))
  else if xmlAttribute s_elem "type" == "set" then
    setRequired s_elem tool sim_data ["in", "value"]
  else if xmlAttribute s_elem "type" == "set_scalar" then
    setRequired s_elem tool sim_data ["in", "value"]
  else if xmlAttribute s_elem "type" == "reduction" then
    configureReduction sim_data s_elem tool
  else if xmlAttribute s_elem "type" == "link-list" then
    Res.ok (setOrDefault s_elem tool "in" "r" sim_data)
  else if xmlAttribute s_elem "type" == "radix-sort" then
    setRequired s_elem tool sim_data ["in", "perm", "inv_perm"]
  else if xmlAttribute s_elem "type" == "assert" then
    if !xmlHasAttribute s_elem "condition" then Res.err sim_data
    else Res.ok (sim_data.toolSet tool "condition" (xmlAttribute s_elem "condition"))
  else if xmlAttribute s_elem "type" == "dummy" then Res.ok sim_data
  else Res.err sim_data

/-- The creation of the tool of an element: `new sphTool()`, then the name (with the
prefix) and the type are set. The pointer of the new tool is `sim_data.newTool.1`. -/
def namedTool (pfx : String) (sim_data : ProblemSetup) (s_elem : DOMElement) :
    ProblemSetup :=
  (sim_data.newTool.2.toolSet sim_data.newTool.1 "name"
    (pfx ++ xmlAttribute s_elem "name")).toolSet sim_data.newTool.1 "type"
    (xmlAttribute s_elem "type")

/-- The check of the conditions to add the tool: true when the tool is ignored because of
its `ifdef` or of its `ifndef` attribute. -/
def skipTool (sim_data : ProblemSetup) (s_elem : DOMElement) : Bool :=
  if xmlHasAttribute s_elem "ifdef" then !sim_data.isDefined (xmlAttribute s_elem "ifdef")
  else if xmlHasAttribute s_elem "ifndef" then sim_data.isDefined (xmlAttribute s_elem "ifndef")
  else false

/-- The body of the loop over the `Tool` elements: `ok` when the loop goes on with the
next element, `err` when `parseTools` returns `true`. -/
def parseTool (env : Env) (pfx : String) (sim_data : ProblemSetup) (s_elem : DOMElement) :
    Res ProblemSetup :=
  if !xmlHasAttribute s_elem "name" then Res.err sim_data
  else if !xmlHasAttribute s_elem "type" then Res.err sim_data
  else
    let tool := sim_data.newTool.1
    let sim1 := namedTool pfx sim_data s_elem
    if skipTool sim1 s_elem then Res.ok (sim1.delete tool)
    else
      match placeTool env pfx sim1 s_elem tool with
      | Flow.next sim2 => configureTool sim2 s_elem tool
      | Flow.cont sim2 => Res.ok sim2
      | Flow.ret sim2 => Res.err sim2
      | Flow.undef => Res.undef

/-- The loop over the `Tool` elements of one `Tools` section. -/
def parseToolElems (env : Env) (pfx : String) :
    ProblemSetup → List DOMElement → Res ProblemSetup
  | sim_data, [] => Res.ok sim_data
  | sim_data, s_elem :: s_nodes =>
    match parseTool env pfx sim_data s_elem with
    | Res.ok sim1 => parseToolElems env pfx sim1 s_nodes
    | r => r

/-- The loop over the `Tools` sections of the document. -/
def parseToolSections (env : Env) (pfx : String) :
    ProblemSetup → List (List DOMElement) → Res ProblemSetup
  | sim_data, [] => Res.ok sim_data
  | sim_data, s_nodes :: nodes =>
    match parseToolElems env pfx sim_data s_nodes with
    | Res.ok sim1 => parseToolSections env pfx sim1 nodes
    | r => r

/-- The method `State::parseTools(root, sim_data, prefix)`. The document `root` is given
by its `Tools` sections, each one by the list of its `Tool` elements. -/
def parseTools (env : Env) (root : List (List DOMElement)) (sim_data : ProblemSetup)
    (pfx : String) : Res ProblemSetup :=
  parseToolSections env pfx sim_data root

end InputOutput

end Aqua

namespace Aqua

/-! ## C strings -/

/-- The test `strstr(text, sub) != NULL`: `sub` occurs in `text`. -/
def strstr (text sub : String) : Bool :=
  text.toList.tails.any (fun t => sub.toList.isPrefixOf t)

/-- The text left of `text` by `strcpy(strchr(text, c), "")`: the characters before the
first `c`. -/
def truncateAt (c : Char) (text : List Char) : List Char :=
  text.takeWhile (fun x => x != c)

/-- The text pointed to by `strchr(text, c) + 1`: the characters after the first `c`. -/
def afterFirst (c : Char) (text : List Char) : List Char :=
  (text.dropWhile (fun x => x != c)).tail

namespace InputOutput

/-! ## The variables manager -/

/-- The expression evaluator `tok` of the variables manager (class `Tokenizer`, which is
not part of the sources), over its states `T` and the values `V` of the C type `float`:
`solve tok expr` is the value returned by `tok.solve(expr, &error)` with the error flag,
and `registerVariable tok name value` the state after `tok.registerVariable(name, value)`. -/
structure Tokenizer (T V : Type) where
  solve : T → String → V × Bool
  registerVariable : T → String → V → T

/-- The conversions of C between `float` and the integer types: `toInt x` is
`(int)round(x)`, `toUInt x` is `(unsigned int)round(x)`, `ofInt` and `ofUInt` are the
casts `(float)val`, and `zero` is `0.f`. -/
structure FloatOps (V : Type) where
  toInt : V → Int
  toUInt : V → Nat
  ofInt : Int → V
  ofUInt : Nat → V
  zero : V

/-- What the build fixes: the flag `HAVE_3D`, the `sizeof` of the vector and matrix types
(`vec`, `vec2`, ..., `matrix`, declared out of the sources) by type name, and the type
name given to a variable by the classes `VecVariable`, `IVecVariable` and `UIVecVariable`
(declared out of the sources), by the type name `vec`, `ivec` or `uivec`. -/
structure Build where
  HAVE_3D : Bool
  sizeofType : String → Nat
  classType : String → String

/-- The value held by a variable: a scalar or vector of one of the three base types, or
the `cl_mem` of an array (`none` for `NULL`). -/
inductive Value (V : Type) where
  | int (x : Int)
  | uint (x : Nat)
  | float (x : V)
  | vec (xs : List V)
  | ivec (xs : List Int)
  | uivec (xs : List Nat)
  | mem (m : Option Nat)
  deriving Repr, DecidableEq

/-- A `Variable` object: `id` is its allocation number. -/
structure Variable (V : Type) where
  id : Nat
  name : String
  type : String
  value : Value V
  deriving Repr, DecidableEq

/-- The variables manager: the registry `_vars`, the state of the evaluator `tok` and
the number of `Variable` objects created so far. -/
structure Variables (T V : Type) where
  _vars : List (Variable V)
  tok : T
  created : Nat
  deriving Repr, DecidableEq

/-- The method `Variables::typeToN`. -/
def typeToN (b : Build) (type : String) : Nat :=
  if strstr type "vec2" then 2
  else if strstr type "vec3" then 3
  else if strstr type "vec4" then 4
  else if strstr type "vec" then (if b.HAVE_3D then 4 else 2)
  else if strstr type "matrix" then (if b.HAVE_3D then 16 else 4)
  else 1

/-- The method `Variables::typeToBytes`; the three base types take 4 bytes, and 0 is
returned for an invalid type. -/
def typeToBytes (b : Build) (type : String) : Nat :=
  if strstr type "unsigned int" || strstr type "uivec" then typeToN b type * 4
  else if strstr type "int" || strstr type "ivec" then typeToN b type * 4
  else if strstr type "float" || strstr type "vec" || strstr type "matrix" then
    typeToN b type * 4
  else 0

/-- The separator pass of `readComponents` on the remaining characters, with the current
value of `parenthesis_counter`: the commas met while the counter is not positive become
semicolons. -/
def separatorLoop : List Char → Int → List Char
  | [], _ => []
  | c :: cs, parenthesis_counter =>
    if c = '(' then c :: separatorLoop cs (parenthesis_counter + 1)
    else if c = ')' then c :: separatorLoop cs (parenthesis_counter - 1)
    else if c = ',' then
      (if parenthesis_counter > 0 then c :: separatorLoop cs parenthesis_counter
       else ';' :: separatorLoop cs parenthesis_counter)
    else c :: separatorLoop cs parenthesis_counter

/-- The separator pass of `readComponents`: the text `remain` after the first loop. -/
def separatorPass (value : String) : List Char :=
  separatorLoop value.toList 0

/-- The table `extensions` of `readComponents`. -/
def extensions : List String := ["_x", "_y", "_z", "_w"]

/-- The loop `for(i = 0; i < n - 1; i++)` of `readComponents`, with `k` iterations left
to run from the index `i`; `v` holds the components stored so far. The loop hands over
the evaluator, the remaining text and the components. A read of `extensions[i]` beyond
the table is undefined. -/
def readLoop {T V : Type} (tk : Tokenizer T V) (name : String) :
    Nat → Nat → T → List Char → List V → Res (T × List Char × List V)
  | 0, _, tok, remain, v => Res.ok (tok, remain, v)
  | k + 1, i, tok, remain, v =>
    if !remain.contains ';' then Res.err (tok, remain, v)
    else
      match tk.solve tok (String.mk (truncateAt ';' remain)) with
      | (_, true) => Res.err (tok, afterFirst ';' remain, v)
      | (val, false) =>
        match extensions[i]? with
        | none => Res.undef
        | some ext =>
          readLoop tk name k (i + 1) (tk.registerVariable tok (name ++ ext) val)
            (afterFirst ';' remain) (v ++ [val])

/-- The end of `readComponents`, after the loop: the last component is read from the
remaining text, up to a further semicolon if any. -/
def readLast {T V : Type} (tk : Tokenizer T V) (name : String) (n : Nat) :
    Res (T × List Char × List V) → Res (T × List V)
  | Res.undef => Res.undef
  | Res.err (tok1, _, v) => Res.err (tok1, v)
  | Res.ok (tok1, remain, v) =>
    match tk.solve tok1 (String.mk (truncateAt ';' remain)) with
    | (_, true) => Res.err (tok1, v)
    | (val, false) =>
      if n ≠ 1 then
        match extensions[(n + 2 ^ 32 - 1) % 2 ^ 32]? with
        | none => Res.undef
        | some ext => Res.ok (tk.registerVariable tok1 (name ++ ext) val, v ++ [val])
      else Res.ok (tk.registerVariable tok1 name val, v ++ [val])

/-- The method `Variables::readComponents(name, value, n, v)` run on the evaluator `tok`:
the evaluator after the call and the components stored in `v`, in order. The bound
`n - 1` of the loop is computed on `unsigned int`. -/
def readComponents {T V : Type} (tk : Tokenizer T V) (name value : String) (n : Nat)
    (tok : T) : Res (T × List V) :=
  readLast tk name n
    (readLoop tk name ((n + 2 ^ 32 - 1) % 2 ^ 32) 0 tok (separatorPass value) [])

/-- The tail of a branch of `Variables::solve`: when `readComponents` failed the method
returns the error and stores nothing, otherwise the components read into `auxval` are
converted by `conv` and copied into `data`. -/
def storeValue {T V : Type} (conv : List V → Value V) :
    Res (T × List V) → Res (T × Option (Value V))
  | Res.ok p => Res.ok (p.1, some (conv p.2))
  | Res.err p => Res.err (p.1, none)
  | Res.undef => Res.undef

/-- The value stored by `Variables::solve` for a type whose components are read by
`readComponents(name, value, n, auxval)` and converted by `conv`. -/
def solveComponents {T V : Type} (tk : Tokenizer T V) (name value : String) (n : Nat)
    (conv : List V → Value V) (tok : T) : Res (T × Option (Value V)) :=
  storeValue conv (readComponents tk name value n tok)

/-- The method `Variables::solve(type_name, value, data, name)` run on the evaluator
`tok`: the evaluator after the call and the value stored in `data`, if any. -/
def solve {T V : Type} (b : Build) (tk : Tokenizer T V) (fl : FloatOps V)
    (type_name value name : String) (tok : T) : Res (T × Option (Value V)) :=
  if typeToBytes b type_name = 0 then Res.err (tok, none)
  else if value == "" then Res.err (tok, none)
  else if String.mk (truncateAt '*' type_name.toList) == "int" then
    solveComponents tk name value 1 (fun v => Value.int (fl.toInt (v.headD fl.zero))) tok
  else if String.mk (truncateAt '*' type_name.toList) == "unsigned int" then
    solveComponents tk name value 1 (fun v => Value.uint (fl.toUInt (v.headD fl.zero))) tok
  else if String.mk (truncateAt '*' type_name.toList) == "float" then
    solveComponents tk name value 1 (fun v => Value.float (v.headD fl.zero)) tok
  else if String.mk (truncateAt '*' type_name.toList) == "vec" then
    solveComponents tk name value (if b.HAVE_3D then 4 else 2) Value.vec tok
  else if String.mk (truncateAt '*' type_name.toList) == "vec2" then
    solveComponents tk name value 2 Value.vec tok
  else if String.mk (truncateAt '*' type_name.toList) == "vec3" then
    solveComponents tk name value 3 Value.vec tok
  else if String.mk (truncateAt '*' type_name.toList) == "vec4" then
    solveComponents tk name value 4 Value.vec tok
  else if String.mk (truncateAt '*' type_name.toList) == "ivec" then
    solveComponents tk name value (if b.HAVE_3D then 4 else 2)
      (fun v => Value.ivec (v.map fl.toInt)) tok
  else if String.mk (truncateAt '*' type_name.toList) == "ivec2" then
    solveComponents tk name value 2 (fun v => Value.ivec (v.map fl.toInt)) tok
  else if String.mk (truncateAt '*' type_name.toList) == "ivec3" then
    solveComponents tk name value 3 (fun v => Value.ivec (v.map fl.toInt)) tok
  else if String.mk (truncateAt '*' type_name.toList) == "ivec4" then
    solveComponents tk name value 4 (fun v => Value.ivec (v.map fl.toInt)) tok
  else if String.mk (truncateAt '*' type_name.toList) == "uivec" then
    solveComponents tk name value (if b.HAVE_3D then 4 else 2)
      (fun v => Value.uivec (v.map fl.toUInt)) tok
  else if String.mk (truncateAt '*' type_name.toList) == "uivec2" then
    solveComponents tk name value 2 (fun v => Value.uivec (v.map fl.toUInt)) tok
  else if String.mk (truncateAt '*' type_name.toList) == "uivec3" then
    solveComponents tk name value 3 (fun v => Value.uivec (v.map fl.toUInt)) tok
  else if String.mk (truncateAt '*' type_name.toList) == "uivec4" then
    solveComponents tk name value 4 (fun v => Value.uivec (v.map fl.toUInt)) tok
  else Res.err (tok, none)

namespace Variables

/-- The statement `_vars.push_back(var)` for a variable created by `new`, with the
evaluator left in the state `tok`. -/
def push {T V : Type} (vars : Variables T V) (tok : T) (name type : String)
    (value : Value V) : Variables T V :=
  { _vars := vars._vars ++ [⟨vars.created, name, type, value⟩], tok := tok,
    created := vars.created + 1 }

/-- The state when a variable created by `new` is dropped by an early `return true`. -/
def drop {T V : Type} (vars : Variables T V) (tok : T) : Variables T V :=
  { vars with tok := tok, created := vars.created + 1 }

/-- The branch of `registerScalar` for a vector type of class type `type` with `n`
components converted by `mk`, whose constructor sets the value `dflt`. -/
def registerVector {T V : Type} (tk : Tokenizer T V) (vars : Variables T V)
    (name type value : String) (n : Nat) (mk : List V → Value V) (dflt : Value V) :
    Res (Variables T V) :=
  if value != "" then
    match readComponents tk name value n vars.tok with
    | Res.ok (tok1, v) => Res.ok (vars.push tok1 name type (mk v))
    | Res.err (tok1, _) => Res.err (vars.drop tok1)
    | Res.undef => Res.undef
  else Res.ok (vars.push vars.tok name type dflt)

/-- The method `Variables::registerScalar`. -/
def registerScalar {T V : Type} (b : Build) (tk : Tokenizer T V) (fl : FloatOps V)
    (vars : Variables T V) (name type value : String) : Res (Variables T V) :=
  if type == "int" then
    if value != "" then
      Res.ok (vars.push
        (tk.registerVariable vars.tok name (fl.ofInt (fl.toInt (tk.solve vars.tok value).1)))
        name "int" (Value.int (fl.toInt (tk.solve vars.tok value).1)))
    else Res.ok (vars.push vars.tok name "int" (Value.int 0))
  else if type == "unsigned int" then
    if value != "" then
      Res.ok (vars.push
        (tk.registerVariable vars.tok name (fl.ofUInt (fl.toUInt (tk.solve vars.tok value).1)))
        name "unsigned int" (Value.uint (fl.toUInt (tk.solve vars.tok value).1)))
    else Res.ok (vars.push vars.tok name "unsigned int" (Value.uint 0))
  else if type == "float" then
    if value != "" then
      Res.ok (vars.push (tk.registerVariable vars.tok name (tk.solve vars.tok value).1)
        name "float" (Value.float (tk.solve vars.tok value).1))
    else Res.ok (vars.push vars.tok name "float" (Value.float fl.zero))
  else if type == "vec" then
    registerVector tk vars name (b.classType "vec") value (if b.HAVE_3D then 4 else 2)
      Value.vec (Value.vec (List.replicate (if b.HAVE_3D then 4 else 2) fl.zero))
  else if type == "vec2" then
    registerVector tk vars name "vec2" value 2 Value.vec
      (Value.vec (List.replicate 2 fl.zero))
  else if type == "vec3" then
    registerVector tk vars name "vec3" value 3 Value.vec
      (Value.vec (List.replicate 3 fl.zero))
  else if type == "vec4" then
    registerVector tk vars name "vec4" value 4 Value.vec
      (Value.vec (List.replicate 4 fl.zero))
  else if type == "ivec" then
    registerVector tk vars name (b.classType "ivec") value (if b.HAVE_3D then 4 else 2)
      (fun v => Value.ivec (v.map fl.toInt))
      (Value.ivec (List.replicate (if b.HAVE_3D then 4 else 2) 0))
  else if type == "ivec2" then
    registerVector tk vars name "ivec2" value 2 (fun v => Value.ivec (v.map fl.toInt))
      (Value.ivec (List.replicate 2 0))
  else if type == "ivec3" then
    registerVector tk vars name "ivec3" value 3 (fun v => Value.ivec (v.map fl.toInt))
      (Value.ivec (List.replicate 3 0))
  else if type == "ivec4" then
    registerVector tk vars name "ivec4" value 4 (fun v => Value.ivec (v.map fl.toInt))
      (Value.ivec (List.replicate 4 0))
  else if type == "uivec" then
    registerVector tk vars name (b.classType "uivec") value (if b.HAVE_3D then 4 else 2)
      (fun v => Value.uivec (v.map fl.toUInt))
      (Value.uivec (List.replicate (if b.HAVE_3D then 4 else 2) 0))
  else if type == "uivec2" then
    registerVector tk vars name "uivec2" value 2 (fun v => Value.uivec (v.map fl.toUInt))
      (Value.uivec (List.replicate 2 0))
  else if type == "uivec3" then
    registerVector tk vars name "uivec3" value 3 (fun v => Value.uivec (v.map fl.toUInt))
      (Value.uivec (List.replicate 3 0))
  else if type == "uivec4" then
    registerVector tk vars name "uivec4" value 4 (fun v => Value.uivec (v.map fl.toUInt))
      (Value.uivec (List.replicate 4 0))
  else Res.err vars

/-- The size of an element computed at the head of `registerClMem` from the type without
its array mark, `none` for an invalid array type. -/
def elementSize (b : Build) (auxtype : String) : Option Nat :=
  if auxtype == "int" then some 4
  else if auxtype == "unsigned int" then some 4
  else if auxtype == "float" then some 4
  else if ["vec", "vec2", "vec3", "vec4", "ivec", "ivec2", "ivec3", "ivec4",
      "uivec", "uivec2", "uivec3", "uivec4", "matrix"].contains auxtype then
    some (b.sizeofType auxtype)
  else none

/-- The method `Variables::registerClMem`; `clCreateBuffer size` is the buffer given by
the device for this call, `none` when the allocation fails. -/
def registerClMem {T V : Type} (b : Build) (tk : Tokenizer T V) (fl : FloatOps V)
    (clCreateBuffer : Nat → Option Nat) (vars : Variables T V) (name type length : String) :
    Res (Variables T V) :=
  match elementSize b (String.mk (truncateAt '*' type.toList)) with
  | none => Res.err vars
  | some typesize =>
    if (if length != "" then fl.toUInt (tk.solve vars.tok length).1 % 2 ^ 32 else 0) ≠ 0 then
      match clCreateBuffer
        ((if length != "" then fl.toUInt (tk.solve vars.tok length).1 % 2 ^ 32 else 0)
          * typesize) with
      | none => Res.err (vars.drop vars.tok)
      | some mem => Res.ok (vars.push vars.tok name type (Value.mem (some mem)))
    else Res.ok (vars.push vars.tok name type (Value.mem none))

/-- The loop of `registerVariable` which looks for the variables already registered with
the name: `fuel` bounds the iterations left, `i` is the index. The index moves on after
an `erase`, as in the source. -/
def eraseNamed {V : Type} (name : String) : Nat → Nat → List (Variable V) → List (Variable V)
  | 0, _, _vars => _vars
  | fuel + 1, i, _vars =>
    match _vars[i]? with
    | none => _vars
    | some var =>
      if var.name == name then eraseNamed name fuel (i + 1) (dequeErase _vars i)
      else eraseNamed name fuel (i + 1) _vars

/-- The method `Variables::registerVariable(name, type, length, value)`. -/
def registerVariable {T V : Type} (b : Build) (tk : Tokenizer T V) (fl : FloatOps V)
    (clCreateBuffer : Nat → Option Nat) (vars : Variables T V)
    (name type length value : String) : Res (Variables T V) :=
  if strstr type "*" then
    registerClMem b tk fl clCreateBuffer
      { vars with _vars := eraseNamed name vars._vars.length 0 vars._vars } name type length
  else
    registerScalar b tk fl
      { vars with _vars := eraseNamed name vars._vars.length 0 vars._vars } name type value

/-- The method `Variables::get(const char* name)`, `none` for `NULL`. -/
def get {T V : Type} (vars : Variables T V) (name : String) : Option (Variable V) :=
  vars._vars.find? (fun var => name == var.name)

end Variables

end InputOutput

end Aqua

namespace Aqua

namespace InputOutput

/-! ## Reference lists for the edits of the pipeline -/

/-- The list `tools` with `x` placed immediately before every slot whose tool satisfies
`m`: the other slots are kept, in their order. -/
def placedBefore (m : Nat → Bool) (x : Nat) : List Nat → List Nat
  | [] => []
  | t :: ts => if m t then x :: t :: placedBefore m x ts else t :: placedBefore m x ts

/-- The list `tools` with `x` placed immediately after every slot whose tool satisfies
`m`: the other slots are kept, in their order. -/
def placedAfter (m : Nat → Bool) (x : Nat) : List Nat → List Nat
  | [] => []
  | t :: ts => if m t then t :: x :: placedAfter m x ts else t :: placedAfter m x ts

/-- The attribute which gives the place of an `insert` without `at`, together with the
prefix applied to its names: the first one present among `before`, `after`,
`before_prefix` and `after_prefix`. -/
def insertTarget (pfx : String) (e : DOMElement) : Option (String × String) :=
  if xmlHasAttribute e "before" then some (xmlAttribute e "before", "")
  else if xmlHasAttribute e "after" then some (xmlAttribute e "after", "")
  else if xmlHasAttribute e "before_prefix" then some (xmlAttribute e "before_prefix", pfx)
  else if xmlHasAttribute e "after_prefix" then some (xmlAttribute e "after_prefix", pfx)
  else none

/-- The tool `t` is a target of the text `att` read with the prefix `p`: the text is a
list of names (it has a comma) and the tool bears one of these names, or the text is
a wildcard which the name of the tool matches. -/
def isTarget (env : Env) (sim : ProblemSetup) (att p : String) (t : Nat) : Bool :=
  if att.toList.contains ',' then
    (strtok att ',').any (fun token => sim.toolGet t "name" == p ++ token)
  else env.fnmatch (p ++ att) (sim.toolGet t "name")

/-- The state left when the tool of an element has been created, named, and deleted
again: the pipeline is the former one. -/
def discarded (pfx : String) (sim : ProblemSetup) (e : DOMElement) : ProblemSetup :=
  (namedTool pfx sim e).delete sim.heap.length

/-- Soundness of the pointers of a problem setup: no descriptor has been destroyed
twice, no slot of the pipeline holds a destroyed descriptor, and only created descriptors
are held or destroyed. -/
def Sound (sim : ProblemSetup) : Prop :=
  sim.deleted.Nodup ∧ (∀ t ∈ sim.tools, t ∉ sim.deleted) ∧
    (∀ t ∈ sim.tools, t < sim.heap.length) ∧ (∀ t ∈ sim.deleted, t < sim.heap.length)

/-- The setup `sim1` follows `sim` soundly: it is sound, nothing created or destroyed is
forgotten, and a descriptor of the former pipeline which is held by no slot any more has
been destroyed. -/
def Follows (sim sim1 : ProblemSetup) : Prop :=
  Sound sim1 ∧ sim.heap.length ≤ sim1.heap.length ∧
    (∀ t ∈ sim.deleted, t ∈ sim1.deleted) ∧
    (∀ t ∈ sim.tools, t ∉ sim1.tools → t ∈ sim1.deleted)

/-- A matcher for the examples: `fnmatch(pattern, text, 0)` on the patterns made of
ordinary characters, `?` and `*` (no bracket expression, no backslash). -/
def globMatch : List Char → List Char → Bool
  | [], cs => cs.isEmpty
  | p :: ps, cs =>
    if p = '*' then cs.tails.any (fun t => globMatch ps t)
    else
      match cs with
      | [] => false
      | c :: cs1 => (p = '?' || p = c) && globMatch ps cs1

/-- The library routines used in the examples. -/
def exampleEnv : Env :=
  ⟨fun pattern text => globMatch pattern.toList text.toList, String.toInt?⟩

/-- A `Tool` element of type `dummy` with the given name and further attributes. -/
def dummyTool (name : String) (atts : List (String × String)) : DOMElement :=
  ⟨[("name", name), ("type", "dummy")] ++ atts, ""⟩

/-- The problem setup before any tool is parsed. -/
def emptySetup : ProblemSetup := ⟨[], [], [], []⟩

/-- The names of the tools of the pipeline, in order. -/
def toolNames (sim : ProblemSetup) : List String :=
  sim.tools.map (fun t => sim.toolGet t "name")

/-- The pipeline `[A, B, C]`, built by three `add` actions. -/
def setupABC : ProblemSetup :=
  match parseTools exampleEnv
    [[dummyTool "A" [], dummyTool "B" [], dummyTool "C" []]] emptySetup "" with
  | Res.ok sim => sim
  | _ => emptySetup

/-- The pipeline `[A, B, D, C]`: `D` is inserted before `C` in `[A, B, C]`. -/
def setupABDC : ProblemSetup :=
  match parseTool exampleEnv "" setupABC
    (dummyTool "D" [("action", "insert"), ("before", "C")]) with
  | Res.ok sim => sim
  | _ => emptySetup

/-- The pipeline `[A, D, C]`: `B` is removed from `[A, B, D, C]`. -/
def setupADC : ProblemSetup :=
  match parseTool exampleEnv "" setupABDC (dummyTool "B" [("action", "remove")]) with
  | Res.ok sim => sim
  | _ => emptySetup

/-- A document which places one descriptor `D` before every tool, removes `D`, then
replaces `B`. -/
def sharedEdits : List (List DOMElement) :=
  [[dummyTool "D" [("action", "insert"), ("before", "*")],
    dummyTool "D" [("action", "remove")],
    dummyTool "B" [("action", "replace")]]]

/-- The setup left by `sharedEdits` on the pipeline `[A, B, C]`. -/
def setupShared : ProblemSetup :=
  match parseTools exampleEnv sharedEdits setupABC "" with
  | Res.ok sim => sim
  | _ => emptySetup

/-! ## Reference notions for the values of the variables -/

/-- The depth of parentheses at the place `i` of a text: the number of `(` minus the
number of `)` among the `i` first characters. -/
def depthAt (text : List Char) (i : Nat) : Int :=
  ((text.take i).count '(' : Int) - ((text.take i).count ')' : Int)

/-- The character `c` put at the head of the first segment. -/
def consHead (c : Char) : List (List Char) → List (List Char)
  | [] => [[c]]
  | s :: ss => (c :: s) :: ss

/-- The segments of a text between its commas out of parentheses, the text being read
at the depth `d`. -/
def splitTop : List Char → Int → List (List Char)
  | [], _ => [[]]
  | c :: cs, d =>
    if c = '(' then consHead c (splitTop cs (d + 1))
    else if c = ')' then consHead c (splitTop cs (d - 1))
    else if c = ',' ∧ d ≤ 0 then [] :: splitTop cs d
    else consHead c (splitTop cs d)

/-- The segments of a text between its semicolons. -/
def splitSemi : List Char → List (List Char)
  | [] => [[]]
  | c :: cs => if c = ';' then [] :: splitSemi cs else consHead c (splitSemi cs)

/-- The top-level comma-separated segments of a value text. -/
def topLevelSegments (value : String) : List String :=
  (splitTop value.toList 0).map String.mk

/-- The name under which `readComponents(name, value, n, v)` publishes the component `i`:
the name itself for one component, otherwise the name with the extension of the
component. -/
def compName (name : String) (n i : Nat) : String :=
  if n = 1 then name else name ++ extensions.getD i ""

/-- The evaluation of the segments in order, from the component `i` on: each value is
published under its component name before the next segment is evaluated. `none` when
the evaluator reports an error for a segment. -/
def evalSegments {T V : Type} (tk : Tokenizer T V) (name : String) (n : Nat) :
    List String → Nat → T → Option (T × List V)
  | [], _, tok => some (tok, [])
  | s :: ss, i, tok =>
    match tk.solve tok s with
    | (_, true) => none
    | (val, false) =>
      match evalSegments tk name n ss (i + 1)
        (tk.registerVariable tok (compName name n i) val) with
      | none => none
      | some (tok1, vs) => some (tok1, val :: vs)

/-- An evaluator which gives back the text of the expression as its value. -/
def echoTokenizer : Tokenizer Unit String :=
  ⟨fun _ expr => (expr, false), fun _ _ _ => ()⟩

/-- The number written by a text of decimal digits. -/
def digitsValue (cs : List Char) : Int :=
  cs.foldl (fun n c => 10 * n + ((c.toNat : Int) - 48)) 0

/-- The number of halvings which bring `m` below 2^24, the 24 bits of the significand of
a `float`; `fuel` bounds the halvings, and `m` itself is enough. -/
def excessBits : Nat → Nat → Nat
  | 0, _ => 0
  | fuel + 1, m => if m < 2 ^ 24 then 0 else excessBits fuel (m / 2) + 1

/-- The `float` nearest to the integer `z`, which is an integer too: `z` itself up to
2^24 in absolute value, and beyond it the nearest integer with a significand of 24 bits,
the even one of two which are as near. The overflow of `float`, from 2^128 on, is left
out. -/
def floatOfInt (z : Int) : Int :=
  let m := z.natAbs
  let e := excessBits m m
  let q := m / 2 ^ e
  let r := m % 2 ^ e
  let q1 := if 2 ^ e < 2 * r ∨ (2 * r = 2 ^ e ∧ q % 2 = 1) then q + 1 else q
  if z < 0 then -((q1 * 2 ^ e : Nat) : Int) else ((q1 * 2 ^ e : Nat) : Int)

/-- The `int` given by `round` for a `float` whose value is the integer `z`: `z` itself
in the range of `int`. Out of this range the conversion is not defined by C; the value
taken is the one given by the conversion of x86, which is -2^31. -/
def intOfFloat (z : Int) : Int :=
  if -2 ^ 31 ≤ z ∧ z < 2 ^ 31 then z else -2 ^ 31

/-- An evaluator for the examples, over the values of `float` which are integers: a text
of decimal digits, after a minus sign or not, is a number, whose value is the nearest
`float`; a text of letters, digits and underscores is the name of a variable, found if it
has been registered; and any other text is an error. -/
def litTokenizer : Tokenizer (List (String × Int)) Int :=
  ⟨fun tok expr =>
      if expr.toList ≠ [] ∧ expr.toList.all Char.isDigit then
        (floatOfInt (digitsValue expr.toList), false)
      else if expr.toList.head? = some '-' ∧ expr.toList.tail ≠ [] ∧
          expr.toList.tail.all Char.isDigit then
        (floatOfInt (-digitsValue expr.toList.tail), false)
      else if expr.toList.all (fun c => c.isAlphanum || c = '_') then
        match tok.find? (fun kv => kv.1 == expr) with
        | some kv => (kv.2, false)
        | none => (0, true)
      else (0, true),
    fun tok name value => (name, value) :: tok⟩

/-- The conversions on the values of the examples, the values of `float` which are
integers: `(int)round(x)` is `intOfFloat`, `(unsigned int)round(x)` is the conversion to
`unsigned int`, modulo 2^32, of the `int` returned by `round`, and the casts to `float`
give the nearest `float`. -/
def litFloatOps : FloatOps Int :=
  ⟨intOfFloat, fun z => (intOfFloat z % 2 ^ 32).toNat, floatOfInt,
    fun n => floatOfInt (Int.ofNat n), 0⟩

/-- A two-dimensional build for the examples, with the sizes of the OpenCL vector types:
8 bytes for two components, 16 bytes for three or four components and for the matrix. -/
def exampleBuild : Build :=
  ⟨false,
    fun t => if ["vec", "vec2", "ivec", "ivec2", "uivec", "uivec2"].contains t then 8 else 16,
    fun t => t⟩

/-- The variables manager before any variable is registered. -/
def emptyVariables : Variables (List (String × Int)) Int := ⟨[], [], 0⟩

/-- The type names of the scalar variables. -/
def scalarTypes : List String :=
  ["int", "unsigned int", "float", "vec", "vec2", "vec3", "vec4", "ivec", "ivec2", "ivec3",
    "ivec4", "uivec", "uivec2", "uivec3", "uivec4"]

/-- The type names read by `Variables::solve`: the scalar types, with or without the
array mark. -/
def solvedTypes : List String :=
  ["int", "unsigned int", "float", "vec", "vec2", "vec3", "vec4", "ivec", "ivec2", "ivec3",
    "ivec4", "uivec", "uivec2", "uivec3", "uivec4",
    "int*", "unsigned int*", "float*", "vec*", "vec2*", "vec3*", "vec4*", "ivec*", "ivec2*",
    "ivec3*", "ivec4*", "uivec*", "uivec2*", "uivec3*", "uivec4*"]

/-- The count of components which `Variables::solve` asks `readComponents` for a type
without array mark; 0 for a type which it does not read. -/
def solveCount (b : Build) (type : String) : Nat :=
  if type == "int" then 1
  else if type == "unsigned int" then 1
  else if type == "float" then 1
  else if type == "vec" then (if b.HAVE_3D then 4 else 2)
  else if type == "vec2" then 2
  else if type == "vec3" then 3
  else if type == "vec4" then 4
  else if type == "ivec" then (if b.HAVE_3D then 4 else 2)
  else if type == "ivec2" then 2
  else if type == "ivec3" then 3
  else if type == "ivec4" then 4
  else if type == "uivec" then (if b.HAVE_3D then 4 else 2)
  else if type == "uivec2" then 2
  else if type == "uivec3" then 3
  else if type == "uivec4" then 4
  else 0

/-- The build with the given flag `HAVE_3D`, and no further data. -/
def flagBuild (have3D : Bool) : Build := ⟨have3D, fun _ => 0, fun t => t⟩

/-! ## Reference notions for the registry -/

/-- A call `registerVariable(name, type, length, value)`, with the answer of the device
to the allocation of the call, if one is asked. -/
structure Call where
  name : String
  type : String
  length : String
  value : String
  clCreateBuffer : Nat → Option Nat

/-- The variables manager after a sequence of calls of `registerVariable`, each one
successful or failed. -/
def registerAll {T V : Type} (b : Build) (tk : Tokenizer T V) (fl : FloatOps V) :
    Variables T V → List Call → Variables T V
  | vars, [] => vars
  | vars, c :: cs =>
    match (Variables.registerVariable b tk fl c.clCreateBuffer vars c.name c.type c.length
      c.value).state? with
    | some vars1 => registerAll b tk fl vars1 cs
    | none => registerAll b tk fl vars cs

/-- No two variables of the registry have the same name, and every variable of the
registry has been created before. -/
def UniqueNames {T V : Type} (vars : Variables T V) : Prop :=
  (vars._vars.map (fun var => var.name)).Nodup ∧ ∀ var ∈ vars._vars, var.id < vars.created

/-- The outcomes of the registration of `name` on the registry `vars`: an error which
leaves the registry as it is, or a new variable of this name pushed at the end of the
registry, or an undefined behaviour. -/
def Registers {T V : Type} (vars : Variables T V) (name : String)
    (r : Res (Variables T V)) : Prop :=
  (∃ s, r = Res.err s ∧ s._vars = vars._vars ∧ vars.created ≤ s.created) ∨
    (∃ tok type value, r = Res.ok (vars.push tok name type value)) ∨ r = Res.undef

/-- Calls for the examples: `a` and `b` are registered, then a registration of `a` as a
`vec3` fails on a value of two components. -/
def exampleCalls : List Call :=
  [⟨"a", "int", "", "1", fun _ => none⟩, ⟨"b", "vec2", "", "1,2", fun _ => none⟩,
    ⟨"a", "vec3", "", "1,2", fun _ => none⟩]

/-- A further call for the examples, which registers `b` as an array of 7 elements. -/
def exampleCall : Call := ⟨"b", "float*", "7", "", fun size => some size⟩

/-- The variables manager after `exampleCalls`, then `exampleCall`. -/
def exampleVariables : Variables (List (String × Int)) Int :=
  match Variables.registerVariable exampleBuild litTokenizer litFloatOps
    exampleCall.clCreateBuffer
    (registerAll exampleBuild litTokenizer litFloatOps emptyVariables exampleCalls)
    exampleCall.name exampleCall.type exampleCall.length exampleCall.value with
  | Res.ok vars => vars
  | _ => emptyVariables

end InputOutput

end Aqua

namespace Aqua

/-- The routine has returned the error flag `true`. -/
def Res.failed {σ : Type} : Res σ → Bool
  | Res.err _ => true
  | _ => false

namespace InputOutput

/-! ## Examples of documents parsed with a prefix -/

/-- The setup for the examples after a document which adds the tool `A`, parsed with the
prefix `p_`. -/
def setupPrefixed : ProblemSetup :=
  match parseTools exampleEnv [[dummyTool "A" []]] emptySetup "p_" with
  | Res.ok sim => sim
  | _ => emptySetup

/-- What the configuration of a tool leaves untouched: the pipeline and the record of the
deleted descriptors. -/
def SameSlots (sim sim1 : ProblemSetup) : Prop :=
  sim1.tools = sim.tools ∧ sim1.deleted = sim.deleted ∧ sim1.heap.length = sim.heap.length

end InputOutput

end Aqua

namespace Aqua

namespace InputOutput

/-! ## The comparison of type names -/

/-- The character `type[len - 1]` read by `isSameType`; `none` when the index is out of
the text, where the behaviour of the source is undefined. -/
def charBefore (type : List Char) (len : Nat) : Option Char :=
  if len = 0 then none else type[len - 1]?

/-- The length `len_a` computed by `isSameType` for a type name: its `strlen`, less one
for an ending `*`, then less one for an ending `2`, `3` or `4`. -/
def baseLength (type : String) : Option Nat :=
  match charBefore type.toList type.length with
  | none => none
  | some c =>
    match charBefore type.toList (if c = '*' then type.length - 1 else type.length) with
    | none => none
    | some d =>
      if d = '2' ∨ d = '3' ∨ d = '4' then
        some ((if c = '*' then type.length - 1 else type.length) - 1)
      else some (if c = '*' then type.length - 1 else type.length)

/-- The end of `isSameType`, from the lengths `len_a` and `len_b`: the comparison of the
lengths, then `strncmp(type_a, type_b, len_a)`. -/
def sameBase (type_a type_b : String) : Option Nat → Option Nat → Option Bool
  | some len_a, some len_b =>
    if len_a ≠ len_b then some false
    else if type_a.toList.take len_a ≠ type_b.toList.take len_a then some false
    else some true
  | _, _ => none

/-- The method `Variables::isSameType(type_a, type_b, ignore_asterisk)`; `none` when the
source reads a character out of a type name. -/
def isSameType (b : Build) (type_a type_b : String) (ignore_asterisk : Bool) : Option Bool :=
  if typeToN b type_a ≠ typeToN b type_b then some false
  else if !ignore_asterisk && (type_a.toList.contains '*' && !type_b.toList.contains '*') then
    some false
  else if !ignore_asterisk && (!type_a.toList.contains '*' && type_b.toList.contains '*') then
    some false
  else sameBase type_a type_b (baseLength type_a) (baseLength type_b)

/-- The type names without array mark: the base types, the vector types and `matrix`. -/
def plainTypes : List String :=
  ["int", "unsigned int", "float", "vec", "vec2", "vec3", "vec4", "ivec", "ivec2", "ivec3",
    "ivec4", "uivec", "uivec2", "uivec3", "uivec4", "matrix"]

/-- The supported type names: the names of `plainTypes`, with or without the array
mark. -/
def supportedTypes : List String :=
  ["int", "unsigned int", "float", "vec", "vec2", "vec3", "vec4", "ivec", "ivec2", "ivec3",
    "ivec4", "uivec", "uivec2", "uivec3", "uivec4", "matrix",
    "int*", "unsigned int*", "float*", "vec*", "vec2*", "vec3*", "vec4*", "ivec*", "ivec2*",
    "ivec3*", "ivec4*", "uivec*", "uivec2*", "uivec3*", "uivec4*", "matrix*"]

end InputOutput

end Aqua

namespace Aqua

namespace InputOutput

/-! ## Examples of registries -/

/-- The registry for the examples after the registration of `a` as an `int` and of `b`
as a `vec2`. -/
def exampleRegistry : Variables (List (String × Int)) Int :=
  registerAll exampleBuild litTokenizer litFloatOps emptyVariables
    [⟨"a", "int", "", "1", fun _ => none⟩, ⟨"b", "vec2", "", "1,2", fun _ => none⟩]

end InputOutput

end Aqua

namespace Aqua

namespace InputOutput

/-! ## Reference notions for the publication of the components -/

/-- The evaluator after the publication of the values `vs`, in order, as the components
`i`, `i + 1`, ... of the variable `name` of `n` components. -/
def publish {T V : Type} (tk : Tokenizer T V) (name : String) (n : Nat) :
    Nat → List V → T → T
  | _, [], tok => tok
  | i, x :: xs, tok =>
    publish tk name n (i + 1) xs (tk.registerVariable tok (compName name n i) x)

end InputOutput

end Aqua

namespace Aqua

/-! ## Helper routines -/

/-- Modelled from the spec: `roundUp(x, divisor)` is declared in AuxiliarMethods.h as the
"rounded up value which is divisible by `divisor`", "greater or equal than `x`", and its
body is not part of the sources; the spec has it "round `N` up to the next multiple of
the working-group size". The result is an `unsigned int`, so it is kept on 32 bits. -/
def roundUp (x divisor : Nat) : Nat :=
  ((x + divisor - 1) / divisor * divisor) % 2 ^ 32

namespace CalcServer

open InputOutput

/-! ## The kernel tool -/

/-- The routines of the device and of the C library called by the kernel tool:
`clSetKernelArg i value` and `clEnqueueNDRangeKernel global local` are true when the call
returns `CL_SUCCESS`, `malloc size` is what a buffer just allocated happens to hold, and
`compile path entry_point` is the work group size found by `Kernel::compile`, `none` when
the compilation fails. -/
structure Device where
  clSetKernelArg : Nat → List Nat → Bool
  clEnqueueNDRangeKernel : Nat → Nat → Bool
  malloc : Nat → List Nat
  compile : String → String → Option Nat

/-- The buffer returned by `malloc(size)`: `size` bytes, not initialised. -/
def Device.buffer (dev : Device) (size : Nat) : List Nat :=
  (dev.malloc size ++ List.replicate size 0).take size

/-- The members of a `Kernel` used below, with the record of the calls made to the
device: `_var_values` holds the snapshot of each argument (`none` for `NULL`), `args` the
calls of `clSetKernelArg` (index and value, latest last) and `launches` the calls of
`clEnqueueNDRangeKernel` (global and local size, latest last). -/
structure Kernel where
  _path : String
  _entry_point : String
  _n : String
  _work_group_size : Nat
  _global_work_size : Nat
  _var_names : List String
  _var_values : List (Option (List Nat))
  args : List (Nat × List Nat)
  launches : List (Nat × Nat)
  deriving Repr, DecidableEq

/-- The constructor `Kernel(tool_name, kernel_path, entry_point, n)`. -/
def Kernel.new (kernel_path entry_point n : String) : Kernel :=
  ⟨kernel_path, entry_point, n, 0, 0, [], [], [], []⟩

/-- The end of the body of the loop of `setVariables`, "Update the variable":
`clSetKernelArg` is called with the bytes `value` of the variable, which are then copied
into the snapshot `buffer`. -/
def updateArg (dev : Device) (k : Kernel) (i : Nat) (value buffer : List Nat) : Res Kernel :=
  if dev.clSetKernelArg i value then
    Res.ok { k with
      _var_values := k._var_values.set i (some (value ++ buffer.drop value.length)),
      args := k.args ++ [(i, value)] }
  else
    Res.err { k with
      _var_values := k._var_values.set i (some buffer),
      args := k.args ++ [(i, value)] }

/-- The body of the loop of `setVariables` for the argument `i`, of name `name`: `ok` when
the loop goes on, `err` when the method returns `true`. The bytes of a variable,
`var->typesize()` bytes at `var->get()`, are given by `bytes`. A snapshot out of the range
of `_var_values`, or shorter than the bytes compared by `memcmp`, is undefined. -/
def bindVariable {T V : Type} (dev : Device) (bytes : Variable V → List Nat)
    (vars : Variables T V) (k : Kernel) (i : Nat) (name : String) : Res Kernel :=
  match vars.get name with
  | none => Res.err k
  | some var =>
    match k._var_values[i]? with
    | none => Res.undef
    | some none => updateArg dev k i (bytes var) (dev.buffer (bytes var).length)
    | some (some snapshot) =>
      if snapshot.length < (bytes var).length then Res.undef
      else if snapshot.take (bytes var).length = bytes var then Res.ok k
      else updateArg dev k i (bytes var) snapshot

/-- The loop of `setVariables`, from the argument `i` on. -/
def setVariablesLoop {T V : Type} (dev : Device) (bytes : Variable V → List Nat)
    (vars : Variables T V) : Kernel → Nat → List String → Res Kernel
  | k, _, [] => Res.ok k
  | k, i, name :: names =>
    match bindVariable dev bytes vars k i name with
    | Res.ok k1 => setVariablesLoop dev bytes vars k1 (i + 1) names
    | r => r

/-- The method `Kernel::setVariables`. -/
def setVariables {T V : Type} (dev : Device) (bytes : Variable V → List Nat)
    (vars : Variables T V) (k : Kernel) : Res Kernel :=
  setVariablesLoop dev bytes vars k 0 k._var_names

/-- The method `Kernel::computeGlobalWorkSize`. The value returned by `Variables::solve`
is dropped by the source: when `solve` fails, `N` is left as it was declared, holding
whatever `junk` was there. `name` is the default value of the last argument of `solve`,
declared out of the sources. The division by a work group size which is 0 once cast to
`unsigned int` is undefined. -/
def computeGlobalWorkSize {T V : Type} (b : Build) (tk : Tokenizer T V) (fl : FloatOps V)
    (name : String) (junk : Nat) (vars : Variables T V) (k : Kernel) :
    Res (Variables T V × Kernel) :=
  if k._work_group_size = 0 then Res.err (vars, k)
  else if k._work_group_size % 2 ^ 32 = 0 then Res.undef
  else
    match solve b tk fl "unsigned int" k._n name vars.tok with
    | Res.ok (tok1, some (Value.uint N)) =>
      Res.ok ({ vars with tok := tok1 },
        { k with _global_work_size := roundUp (N % 2 ^ 32) (k._work_group_size % 2 ^ 32) })
    | Res.ok (_, _) => Res.undef
    | Res.err (tok1, _) =>
      Res.ok ({ vars with tok := tok1 },
        { k with _global_work_size := roundUp (junk % 2 ^ 32) (k._work_group_size % 2 ^ 32) })
    | Res.undef => Res.undef

/-- The method `Kernel::_execute`. -/
def _execute {T V : Type} (dev : Device) (bytes : Variable V → List Nat)
    (vars : Variables T V) (k : Kernel) : Res Kernel :=
  match setVariables dev bytes vars k with
  | Res.ok k1 =>
    if dev.clEnqueueNDRangeKernel k1._global_work_size k1._work_group_size then
      Res.ok { k1 with launches := k1.launches ++ [(k1._global_work_size, k1._work_group_size)] }
    else
      Res.err { k1 with launches := k1.launches ++ [(k1._global_work_size, k1._work_group_size)] }
  | r => r

/-! ## The arguments of the entry point -/

/-- The kinds of cursors told apart by the visitors. -/
inductive CXCursorKind where
  | FunctionDecl
  | ObjCInstanceMethodDecl
  | ParmDecl
  | other
  deriving Repr, DecidableEq

mutual
/-- A cursor of the parsed source: its kind, its spelling and its children. -/
inductive CXCursor where
  | node (kind : CXCursorKind) (spelling : String) (children : CXCursors)
/-- The children of a cursor, in the order of the source. -/
inductive CXCursors where
  | nil
  | cons (cursor : CXCursor) (cursors : CXCursors)
end

/-- The structure `clientData`: the count `entry_points` and the names pushed to
`var_names`, which points to `_var_names`. -/
structure clientData where
  entry_points : Nat
  var_names : List String
  deriving Repr, DecidableEq

/-- The traversal `clang_visitChildren(cursor, functionDeclVisitor, client_data)` of the
children of a function declaration: the visitor pushes the spelling of each `ParmDecl`
and returns `CXChildVisit_Continue`, so the children are not entered. -/
def visitParameters : CXCursors → clientData → clientData
  | CXCursors.nil, data => data
  | CXCursors.cons (CXCursor.node kind name _) cursors, data =>
    visitParameters cursors
      (if kind = CXCursorKind.ParmDecl then
        { data with var_names := data.var_names ++ [name] }
      else data)

mutual
/-- The visitor `cursorVisitor` on a cursor, with the traversal of the children of the
cursor when the visitor returns `CXChildVisit_Recurse`. -/
def visitCursor (entry_point : String) : CXCursor → clientData → clientData
  | CXCursor.node kind name children, data =>
    if kind = CXCursorKind.FunctionDecl ∨ kind = CXCursorKind.ObjCInstanceMethodDecl then
      if name = entry_point then
        visitParameters children
          { data with entry_points := (data.entry_points + 1) % 2 ^ 32 }
      else data
    else visitChildren entry_point children data
/-- The traversal `clang_visitChildren(cursor, cursorVisitor, client_data)` of the
children of a cursor. -/
def visitChildren (entry_point : String) : CXCursors → clientData → clientData
  | CXCursors.nil, data => data
  | CXCursors.cons cursor cursors, data =>
    visitChildren entry_point cursors (visitCursor entry_point cursor data)
end

/-- The method `Kernel::variables(entry_point)`; `unit` is the root cursor of the
translation unit given by the parser of the source, `none` when the parser fails. -/
def Kernel.variables (unit : Option CXCursors) (entry_point : String) (k : Kernel) : Res Kernel :=
  match unit with
  | none => Res.err k
  | some root =>
    if (visitChildren entry_point root ⟨0, k._var_names⟩).entry_points = 0 then
      Res.err { k with _var_names := (visitChildren entry_point root ⟨0, k._var_names⟩).var_names }
    else if (visitChildren entry_point root ⟨0, k._var_names⟩).entry_points ≠ 1 then
      Res.err { k with _var_names := (visitChildren entry_point root ⟨0, k._var_names⟩).var_names }
    else
      Res.ok { k with
        _var_names := (visitChildren entry_point root ⟨0, k._var_names⟩).var_names,
        _var_values := k._var_values ++
          List.replicate (visitChildren entry_point root ⟨0, k._var_names⟩).var_names.length
            none }

/-- The method `Kernel::compile(entry_point)`, whose outcome is the one of the OpenCL
compiler: on success the work group size of the kernel is stored. -/
def compile (dev : Device) (entry_point : String) (k : Kernel) : Res Kernel :=
  match dev.compile k._path entry_point with
  | none => Res.err k
  | some work_group_size => Res.ok { k with _work_group_size := work_group_size }

/-- The method `Kernel::setup`. -/
def setup {T V : Type} (b : Build) (tk : Tokenizer T V) (fl : FloatOps V) (dev : Device)
    (bytes : Variable V → List Nat) (unit : Option CXCursors) (name : String) (junk : Nat)
    (vars : Variables T V) (k : Kernel) : Res (Variables T V × Kernel) :=
  match compile dev k._entry_point k with
  | Res.ok k1 =>
    match Kernel.variables unit k1._entry_point k1 with
    | Res.ok k2 =>
      match setVariables dev bytes vars k2 with
      | Res.ok k3 => computeGlobalWorkSize b tk fl name junk vars k3
      | Res.err k3 => Res.err (vars, k3)
      | Res.undef => Res.undef
    | Res.err k2 => Res.err (vars, k2)
    | Res.undef => Res.undef
  | Res.err k1 => Res.err (vars, k1)
  | Res.undef => Res.undef

/-! ## The tools -/

/-- The members of a `Tool`; the times are rational numbers, and the counter `_n_iters`,
whose type is declared out of the sources, is not bounded. -/
structure Tool where
  _name : String
  _allocated_memory : Nat
  _n_iters : Nat
  _elapsed_time : ℚ
  _average_elapsed_time : ℚ
  _squared_elapsed_time : ℚ
  deriving Repr, DecidableEq

/-- The constructor `Tool(tool_name)`. -/
def Tool.new (tool_name : String) : Tool := ⟨tool_name, 0, 0, 0, 0, 0⟩

/-- The method `Tool::addElapsedTime(elapsed_time)`. -/
def addElapsedTime (t : Tool) (elapsed_time : ℚ) : Tool :=
  { t with
    _elapsed_time := elapsed_time,
    _n_iters := t._n_iters + 1,
    _average_elapsed_time :=
      (t._average_elapsed_time * t._n_iters + elapsed_time) / (t._n_iters + 1 : Nat),
    _squared_elapsed_time :=
      (t._squared_elapsed_time * t._n_iters + elapsed_time * elapsed_time) /
        (t._n_iters + 1 : Nat) }

/-- The method `Tool::execute`, which returns nothing: `_execute` is the method of the
stage, run on the state `s` of the stage, and `tic` and `tac` are the times (seconds and
microseconds) given by `gettimeofday` before and after it. The flag returned by
`_execute` is not read. -/
def execute {S : Type} (_execute : S → Res S) (tic tac : Int × Int) (t : Tool) (s : S) :
    Option (Tool × S) :=
  (_execute s).state?.map (fun s1 =>
    (addElapsedTime t (((tac.1 - tic.1 : Int) : ℚ) + ((tac.2 - tic.2 : Int) : ℚ) * (1 / 1000000)),
      s1))

end CalcServer

end Aqua

namespace Aqua

namespace CalcServer

open InputOutput

/-! ## Examples of kernels -/

/-- A device for the examples, where every call succeeds, a new buffer holds zeros and
the work group size of a compiled kernel is 64. -/
def exampleDevice : Device :=
  ⟨fun _ _ => true, fun _ _ => true, fun _ => [], fun _ _ => some 64⟩

/-- The four bytes of a number of 32 bits, lowest first. -/
def wordBytes (x : Nat) : List Nat :=
  [x % 256, x / 256 % 256, x / 65536 % 256, x / 16777216 % 256]

/-- The bytes of the variables of the examples: four bytes by component, and eight bytes
for the `cl_mem` of an array. -/
def exampleBytes (var : Variable Int) : List Nat :=
  match var.value with
  | Value.int x => wordBytes (x % 2 ^ 32).toNat
  | Value.uint x => wordBytes x
  | Value.float x => wordBytes (x % 2 ^ 32).toNat
  | Value.vec xs => (xs.map (fun x => wordBytes (x % 2 ^ 32).toNat)).flatten
  | Value.ivec xs => (xs.map (fun x => wordBytes (x % 2 ^ 32).toNat)).flatten
  | Value.uivec xs => (xs.map wordBytes).flatten
  | Value.mem m => wordBytes (m.getD 0) ++ [0, 0, 0, 0]

/-- A kernel for the examples, compiled with a work group size of 64, whose number of
threads is the variable `N`. -/
def exampleKernel : Kernel :=
  { Kernel.new "k.cl" "entry" "N" with _work_group_size := 64 }

/-- The registry for the examples where `N` is 100. -/
def registryN100 : Variables (List (String × Int)) Int :=
  registerAll exampleBuild litTokenizer litFloatOps emptyVariables
    [⟨"N", "unsigned int", "", "100", fun _ => none⟩]

/-- The registry for the examples where `N` has become 1000. -/
def registryN1000 : Variables (List (String × Int)) Int :=
  registerAll exampleBuild litTokenizer litFloatOps registryN100
    [⟨"N", "unsigned int", "", "1000", fun _ => none⟩]

end CalcServer

end Aqua

namespace Aqua

namespace CalcServer

open InputOutput

/-- The parsed source of the examples: the function `entry` with the parameter `N`. -/
def exampleUnit : CXCursors :=
  CXCursors.cons
    (CXCursor.node CXCursorKind.FunctionDecl "entry"
      (CXCursors.cons (CXCursor.node CXCursorKind.ParmDecl "N" CXCursors.nil) CXCursors.nil))
    CXCursors.nil

/-- The kernel of the examples after its `setup` on the registry where `N` is 100. -/
def exampleSetup : Kernel :=
  match setup exampleBuild litTokenizer litFloatOps exampleDevice exampleBytes
    (some exampleUnit) "NULL" 0 registryN100 (Kernel.new "k.cl" "entry" "N") with
  | Res.ok (_, k) => k
  | _ => Kernel.new "k.cl" "entry" "N"

/-- The launch data of two kernels are the same: the sizes, the thread-count expression,
the names of the arguments and the record of the launches. -/
def SameLaunch (k k1 : Kernel) : Prop :=
  k1._global_work_size = k._global_work_size ∧ k1._work_group_size = k._work_group_size ∧
    k1._n = k._n ∧ k1._var_names = k._var_names ∧ k1.launches = k.launches ∧
    k1._var_values.length = k._var_values.length

/-- The kernel of the examples after its `setup`, with an empty thread-count
expression. -/
def exampleNoCount : Kernel := { exampleSetup with _n := "" }

/-! ## Reference notions for the parsed source -/

/-- The spellings of the parameter declarations among the children of a function
declaration, in the order of the source. -/
def parameterNames : CXCursors → List String
  | CXCursors.nil => []
  | CXCursors.cons (CXCursor.node kind name _) cursors =>
    if kind = CXCursorKind.ParmDecl then name :: parameterNames cursors
    else parameterNames cursors

mutual
/-- The function declarations of the source under a cursor, out of any other function
declaration, in the order of the source: the name and the parameters of each one. -/
def declarationsOf : CXCursor → List (String × List String)
  | CXCursor.node kind name children =>
    if kind = CXCursorKind.FunctionDecl ∨ kind = CXCursorKind.ObjCInstanceMethodDecl then
      [(name, parameterNames children)]
    else declarationsIn children
/-- The function declarations of the source under the cursors of a list. -/
def declarationsIn : CXCursors → List (String × List String)
  | CXCursors.nil => []
  | CXCursors.cons cursor cursors => declarationsOf cursor ++ declarationsIn cursors
end

/-- The declarations of the entry point among the function declarations of the source. -/
def entryPoints (entry_point : String) (root : CXCursors) : List (String × List String) :=
  (declarationsIn root).filter (fun d => d.1 = entry_point)

/-- A source for the examples with a prototype of `entry` before its definition. -/
def twiceUnit : CXCursors :=
  CXCursors.cons (CXCursor.node CXCursorKind.FunctionDecl "entry" CXCursors.nil) exampleUnit

/-! ## Reference notions for the binding of the arguments -/

/-- The argument `i`, of name `name`, is stale on the kernel `k`: its variable is in the
registry, and it has no snapshot yet or the bytes of its snapshot differ from the bytes of
the variable. -/
def stale {T V : Type} (bytes : Variable V → List Nat) (vars : Variables T V) (k : Kernel)
    (i : Nat) (name : String) : Bool :=
  match vars.get name, k._var_values[i]? with
  | some _, some none => true
  | some var, some (some snapshot) =>
    decide (snapshot.take (bytes var).length ≠ bytes var)
  | _, _ => false

/-- The calls of `clSetKernelArg` for the stale arguments among the arguments of names
`names`, numbered from `i`, in order: the index and the bytes of the variable. -/
def staleArgs {T V : Type} (bytes : Variable V → List Nat) (vars : Variables T V)
    (k : Kernel) : Nat → List String → List (Nat × List Nat)
  | _, [] => []
  | i, name :: names =>
    (if stale bytes vars k i name then [(i, ((vars.get name).map bytes).getD [])] else []) ++
      staleArgs bytes vars k (i + 1) names

/-- The binding of the argument `i`, of name `name`, fails on the kernel `k`: its name is
not in the registry, or the argument is stale and the call of `clSetKernelArg` for the
bytes of its variable does not return `CL_SUCCESS`. -/
def failing {T V : Type} (dev : Device) (bytes : Variable V → List Nat)
    (vars : Variables T V) (k : Kernel) (i : Nat) (name : String) : Bool :=
  match vars.get name with
  | none => true
  | some var => stale bytes vars k i name && !dev.clSetKernelArg i (bytes var)

/-- The number of the arguments visited among the arguments of names `names`, numbered
from `i`: the arguments up to the first one whose binding fails, this one included, and
all of them when no binding fails. -/
def visited {T V : Type} (dev : Device) (bytes : Variable V → List Nat)
    (vars : Variables T V) (k : Kernel) : Nat → List String → Nat
  | _, [] => 0
  | i, name :: names =>
    if failing dev bytes vars k i name then 1 else visited dev bytes vars k (i + 1) names + 1

/-- The snapshot of the argument `i`, of name `name`, holds the bytes of its variable. -/
def Snapshot {T V : Type} (bytes : Variable V → List Nat) (vars : Variables T V) (k : Kernel)
    (i : Nat) (name : String) : Prop :=
  ∃ var s, vars.get name = some var ∧ k._var_values[i]? = some (some s) ∧
    (bytes var).length ≤ s.length ∧ s.take (bytes var).length = bytes var

/-- The arguments of names `names`, numbered from `i`, have each a snapshot, unset or
not shorter than the bytes of the variable. -/
def Sized {T V : Type} (bytes : Variable V → List Nat) (vars : Variables T V) (k : Kernel)
    (i : Nat) (names : List String) : Prop :=
  ∀ j name, names[j]? = some name →
    ∃ o, k._var_values[i + j]? = some o ∧
      ∀ var s, vars.get name = some var → o = some s → (bytes var).length ≤ s.length

/-- The kernel of the examples after the parsing of a source whose entry point has the
parameters `x` and `N`. -/
def exampleTwoArgs : Kernel :=
  { exampleKernel with _var_names := ["x", "N"], _var_values := [none, none] }

end CalcServer

end Aqua

namespace Aqua

namespace InputOutput

/-! ## The publication of the variables -/

/-- The value of a variable read as an `int`, cast to `float`; `none` when the variable
does not hold an `int`. -/
def asInt {V : Type} (fl : FloatOps V) : Value V → Option (List V)
  | Value.int x => some [fl.ofInt x]
  | _ => none

/-- The value of a variable read as an `unsigned int`, cast to `float`. -/
def asUInt {V : Type} (fl : FloatOps V) : Value V → Option (List V)
  | Value.uint x => some [fl.ofUInt x]
  | _ => none

/-- The value of a variable read as a `float`. -/
def asFloat {V : Type} : Value V → Option (List V)
  | Value.float x => some [x]
  | _ => none

/-- The components of a variable read as a vector of `float`. -/
def asVec {V : Type} : Value V → Option (List V)
  | Value.vec xs => some xs
  | _ => none

/-- The components of a variable read as a vector of `int`, cast to `float`. -/
def asIVec {V : Type} (fl : FloatOps V) : Value V → Option (List V)
  | Value.ivec xs => some (xs.map fl.ofInt)
  | _ => none

/-- The components of a variable read as a vector of `unsigned int`, cast to `float`. -/
def asUIVec {V : Type} (fl : FloatOps V) : Value V → Option (List V)
  | Value.uivec xs => some (xs.map fl.ofUInt)
  | _ => none

/-- The calls `tok.registerVariable(name, value)` of a branch of `populate(Variable*)`,
one by extension of `exts` (the empty extension for the name of the variable itself), on
the components `vals` of the value. -/
def registerFields {T V : Type} (tk : Tokenizer T V) (name : String) :
    List String → List V → T → Option T
  | [], _, tok => some tok
  | _ :: _, [], _ => none
  | ext :: exts, x :: xs, tok =>
    registerFields tk name exts xs (tk.registerVariable tok (name ++ ext) x)

/-- A branch of `populate(Variable*)`: the value is read with the type of the branch, and
its components are registered. A value which is not of this type is undefined. -/
def populateFields {T V : Type} (tk : Tokenizer T V) (name : String) (exts : List String)
    (vals : Option (List V)) (tok : T) : Res T :=
  match vals with
  | none => Res.undef
  | some xs =>
    match registerFields tk name exts xs tok with
    | none => Res.undef
    | some tok1 => Res.ok tok1

/-- The method `Variables::populate(Variable* var)`, on the evaluator `tok`. -/
def populateVariable {T V : Type} (b : Build) (tk : Tokenizer T V) (fl : FloatOps V)
    (tok : T) (var : Variable V) : Res T :=
  if var.type == "int" then populateFields tk var.name [""] (asInt fl var.value) tok
  else if var.type == "unsigned int" then
    populateFields tk var.name [""] (asUInt fl var.value) tok
  else if var.type == "float" then populateFields tk var.name [""] (asFloat var.value) tok
  else if var.type == "vec" then
    populateFields tk var.name (if b.HAVE_3D then ["_x", "_y", "_z", "_w"] else ["_x", "_y"])
      (asVec var.value) tok
  else if var.type == "vec2" then
    populateFields tk var.name ["_x", "_y"] (asVec var.value) tok
  else if var.type == "vec3" then
    populateFields tk var.name ["_x", "_y", "_z"] (asVec var.value) tok
  else if var.type == "vec4" then
    populateFields tk var.name ["_x", "_y", "_z", "_w"] (asVec var.value) tok
  else if var.type == "ivec" then
    populateFields tk var.name (if b.HAVE_3D then ["_x", "_y", "_z", "_w"] else ["_x", "_y"])
      (asIVec fl var.value) tok
  else if var.type == "ivec2" then
    populateFields tk var.name ["_x", "_y"] (asIVec fl var.value) tok
  else if var.type == "ivec3" then
    populateFields tk var.name ["_x", "_y", "_z"] (asIVec fl var.value) tok
  else if var.type == "ivec4" then
    populateFields tk var.name ["_x", "_y", "_z", "_w"] (asIVec fl var.value) tok
  else if var.type == "uivec" then
    populateFields tk var.name (if b.HAVE_3D then ["_x", "_y", "_z", "_w"] else ["_x", "_y"])
      (asUIVec fl var.value) tok
  else if var.type == "uivec2" then
    populateFields tk var.name ["_x", "_y"] (asUIVec fl var.value) tok
  else if var.type == "uivec3" then
    populateFields tk var.name ["_x", "_y", "_z"] (asUIVec fl var.value) tok
  else if var.type == "uivec4" then
    populateFields tk var.name ["_x", "_y", "_z", "_w"] (asUIVec fl var.value) tok
  else Res.err tok

/-- The loop of `Variables::populate(name)` over the registry, for a `NULL` name. -/
def populateLoop {T V : Type} (b : Build) (tk : Tokenizer T V) (fl : FloatOps V) :
    T → List (Variable V) → Res T
  | tok, [] => Res.ok tok
  | tok, var :: _vars =>
    match populateVariable b tk fl tok var with
    | Res.ok tok1 => populateLoop b tk fl tok1 _vars
    | r => r

/-- The method `Variables::populate(const char* name)`, `name` being `none` for `NULL`:
the evaluator after the call. -/
def populate {T V : Type} (b : Build) (tk : Tokenizer T V) (fl : FloatOps V)
    (vars : Variables T V) (name : Option String) : Res T :=
  match name with
  | some name =>
    match vars.get name with
    | none => Res.err vars.tok
    | some var => populateVariable b tk fl vars.tok var
  | none => populateLoop b tk fl vars.tok vars._vars

/-! ## Reference notions for the publication of the variables -/

/-- The components of a scalar variable, as the values of type `float` published for it:
one for a variable of a base type, and as many as its type has for a vector. `none` for
a variable which is not scalar, or whose value does not fit its type. -/
def componentsOf {V : Type} (b : Build) (fl : FloatOps V) (var : Variable V) :
    Option (List V) :=
  match var.value with
  | Value.int x => if var.type = "int" then some [fl.ofInt x] else none
  | Value.uint x => if var.type = "unsigned int" then some [fl.ofUInt x] else none
  | Value.float x => if var.type = "float" then some [x] else none
  | Value.vec xs =>
    if var.type ∈ ["vec", "vec2", "vec3", "vec4"] ∧ solveCount b var.type ≤ xs.length then
      some (xs.take (solveCount b var.type))
    else none
  | Value.ivec xs =>
    if var.type ∈ ["ivec", "ivec2", "ivec3", "ivec4"] ∧ solveCount b var.type ≤ xs.length then
      some ((xs.take (solveCount b var.type)).map fl.ofInt)
    else none
  | Value.uivec xs =>
    if var.type ∈ ["uivec", "uivec2", "uivec3", "uivec4"] ∧
        solveCount b var.type ≤ xs.length then
      some ((xs.take (solveCount b var.type)).map fl.ofUInt)
    else none
  | Value.mem _ => none

/-- The evaluator after the publication of the scalar variables of a list, in order: a
variable of one component under its name, a vector under its name followed by `_x`,
`_y`, `_z`, `_w`. A variable which is not scalar is passed over. -/
def published {T V : Type} (b : Build) (tk : Tokenizer T V) (fl : FloatOps V) :
    T → List (Variable V) → T
  | tok, [] => tok
  | tok, var :: _vars =>
    match componentsOf b fl var with
    | some comps => published b tk fl (publish tk var.name comps.length 0 comps tok) _vars
    | none => published b tk fl tok _vars

/-- The registry for the examples with the scalar `a`, the array `b` and the scalar
`c`. -/
def mixedRegistry : Variables (List (String × Int)) Int :=
  ⟨[⟨0, "a", "int", Value.int 1⟩, ⟨1, "b", "float*", Value.mem (some 7)⟩,
    ⟨2, "c", "ivec2", Value.ivec [3, 4]⟩], [], 3⟩

/-- The length of an array variable as `State::writeVariables`,
`ArrayVariable::asString(i)`, `ASCII::load` and `ASCII::save` compute it,
`size() / typeToBytes(type)`, from the size in bytes of its buffer. -/
def arrayLength (b : Build) (size : Nat) (type : String) : Nat :=
  size / typeToBytes b type

end InputOutput

end Aqua

namespace Aqua

/-- Outcome of a routine which returns nothing: `done` when it has returned, `thrown` when
it has thrown an exception, with the message, `undef` when its behaviour is undefined. -/
inductive Thrown (σ : Type) where
  | done (s : σ)
  | thrown (what : String)
  | undef
  deriving Repr, DecidableEq

/-- A call whose returned flag is not read: the caller goes on with the state left by
the routine, whatever the flag. -/
def Res.dropFlag {σ : Type} : Res σ → Thrown σ
  | Res.ok s => Thrown.done s
  | Res.err s => Thrown.done s
  | Res.undef => Thrown.undef

/-- The statements which follow a call in a `try` block: they are run on the state left
by the call, unless it has thrown. -/
def Thrown.andThen {σ τ : Type} (r : Thrown σ) (next : σ → Thrown τ) : Thrown τ :=
  match r with
  | Thrown.done s => next s
  | Thrown.thrown what => Thrown.thrown what
  | Thrown.undef => Thrown.undef

/-- The routine has returned, without an exception. -/
def Thrown.returned {σ : Type} : Thrown σ → Bool
  | Thrown.done _ => true
  | _ => false

namespace InputOutput

/-! ## The settings -/

/-- The values of `cl_device_type` told apart by the settings; `other` stands for any
further value of the bit field. -/
inductive cl_device_type where
  | CL_DEVICE_TYPE_ALL
  | CL_DEVICE_TYPE_CPU
  | CL_DEVICE_TYPE_GPU
  | CL_DEVICE_TYPE_ACCELERATOR
  | CL_DEVICE_TYPE_DEFAULT
  | other (bits : Nat)
  deriving Repr, DecidableEq

/-- The member `settings` of the problem setup, as far as the parser and the writer of
the settings use it. -/
structure sphSettings where
  save_on_fail : Bool
  platform_id : Nat
  device_id : Nat
  device_type : cl_device_type
  base_path : String
  deriving Repr, DecidableEq

/-- A `Settings` element of a document, given by the lists of its `SaveOnFail`, `Device`
and `RootPath` elements, each in the order of the document. -/
structure SettingsElement where
  SaveOnFail : List DOMElement
  Device : List DOMElement
  RootPath : List DOMElement
  deriving Repr, DecidableEq

/-- The body of the loop over the `SaveOnFail` elements. -/
def parseSaveOnFail (settings : sphSettings) (s_elem : DOMElement) : sphSettings :=
  if xmlAttribute s_elem "value" == "true" || xmlAttribute s_elem "value" == "True" ||
      xmlAttribute s_elem "value" == "TRUE" then
    { settings with save_on_fail := true }
  else { settings with save_on_fail := false }

/-- The body of the loop over the `Device` elements; `std::stoi` throws on a text which
is not a number, and its result is stored in an `unsigned int`. -/
def parseDevice (env : Env) (settings : sphSettings) (s_elem : DOMElement) :
    Thrown sphSettings :=
  match env.stoi (xmlAttribute s_elem "platform") with
  | none => Thrown.thrown "stoi"
  | some platform =>
    match env.stoi (xmlAttribute s_elem "device") with
    | none => Thrown.thrown "stoi"
    | some device =>
      if xmlAttribute s_elem "type" == "ALL" then
        Thrown.done { settings with
          platform_id := (platform % 2 ^ 32).toNat, device_id := (device % 2 ^ 32).toNat,
          device_type := cl_device_type.CL_DEVICE_TYPE_ALL }
      else if xmlAttribute s_elem "type" == "CPU" then
        Thrown.done { settings with
          platform_id := (platform % 2 ^ 32).toNat, device_id := (device % 2 ^ 32).toNat,
          device_type := cl_device_type.CL_DEVICE_TYPE_CPU }
      else if xmlAttribute s_elem "type" == "GPU" then
        Thrown.done { settings with
          platform_id := (platform % 2 ^ 32).toNat, device_id := (device % 2 ^ 32).toNat,
          device_type := cl_device_type.CL_DEVICE_TYPE_GPU }
      else if xmlAttribute s_elem "type" == "ACCELERATOR" then
        Thrown.done { settings with
          platform_id := (platform % 2 ^ 32).toNat, device_id := (device % 2 ^ 32).toNat,
          device_type := cl_device_type.CL_DEVICE_TYPE_ACCELERATOR }
      else if xmlAttribute s_elem "type" == "DEFAULT" then
        Thrown.done { settings with
          platform_id := (platform % 2 ^ 32).toNat, device_id := (device % 2 ^ 32).toNat,
          device_type := cl_device_type.CL_DEVICE_TYPE_DEFAULT }
      else Thrown.thrown "Invalid device type"

/-- The loop over the `Device` elements. -/
def parseDevices (env : Env) : sphSettings → List DOMElement → Thrown sphSettings
  | settings, [] => Thrown.done settings
  | settings, s_elem :: s_nodes =>
    match parseDevice env settings s_elem with
    | Thrown.done settings1 => parseDevices env settings1 s_nodes
    | r => r

/-- The body of the loop over the `RootPath` elements. -/
def parseRootPath (settings : sphSettings) (s_elem : DOMElement) : sphSettings :=
  { settings with base_path := xmlAttribute s_elem "path" }

/-- The body of the loop over the `Settings` elements. -/
def parseSettingsElement (env : Env) (settings : sphSettings) (elem : SettingsElement) :
    Thrown sphSettings :=
  match parseDevices env (elem.SaveOnFail.foldl parseSaveOnFail settings) elem.Device with
  | Thrown.done settings1 => Thrown.done (elem.RootPath.foldl parseRootPath settings1)
  | r => r

/-- The method `State::parseSettings(root, sim_data, prefix)`, on the `Settings` elements
of the document and the settings of `sim_data`. -/
def parseSettings (env : Env) : List SettingsElement → sphSettings → Thrown sphSettings
  | [], settings => Thrown.done settings
  | elem :: nodes, settings =>
    match parseSettingsElement env settings elem with
    | Thrown.done settings1 => parseSettings env nodes settings1
    | r => r

/-- The text left in `att` by the `switch` of `writeSettings`: no case of the `switch`
writes it for a further value, so it still holds the decimal text of `device_id`. -/
def deviceTypeText (settings : sphSettings) : String :=
  match settings.device_type with
  | cl_device_type.CL_DEVICE_TYPE_ALL => "ALL"
  | cl_device_type.CL_DEVICE_TYPE_CPU => "CPU"
  | cl_device_type.CL_DEVICE_TYPE_GPU => "GPU"
  | cl_device_type.CL_DEVICE_TYPE_ACCELERATOR => "ACCELERATOR"
  | cl_device_type.CL_DEVICE_TYPE_DEFAULT => "DEFAULT"
  | cl_device_type.other _ => toString settings.device_id

/-- The method `State::writeSettings(doc, root, sim_data)`: the `Settings` element
appended to the root of the document. -/
def writeSettings (settings : sphSettings) : SettingsElement :=
  ⟨[],
    [⟨[("platform", toString settings.platform_id), ("device", toString settings.device_id),
      ("type", deviceTypeText settings)], ""⟩],
    []⟩

/-! ## The parser of a document -/

/-- The problem setup filled by the parser: the settings and the part used by the tools
parser. -/
structure SimData where
  settings : sphSettings
  sim : ProblemSetup
  deriving Repr, DecidableEq

/-- The root element of a document, given by its `Include` elements, its `Settings`
elements, its `Tools` sections, and by what the other sections hold. -/
structure Document (D : Type) where
  Include : List DOMElement
  Settings : List SettingsElement
  Tools : List (List DOMElement)
  others : D

/-- The section parsers which are taken as they are: each one gives the setup it leaves,
whatever it returns, or throws. -/
structure Sections (D : Type) where
  parseVariables : D → ProblemSetup → String → Thrown ProblemSetup
  parseDefinitions : D → ProblemSetup → String → Thrown ProblemSetup
  parseReports : D → ProblemSetup → String → Thrown ProblemSetup
  parseTiming : D → ProblemSetup → String → Thrown ProblemSetup
  parseSets : D → ProblemSetup → String → Thrown ProblemSetup

/-- The block "Parse the file itself" of `State::parse`: the section parsers are called
in turn, and the flag returned by each one of them is not read; an exception is thrown
again. -/
def parseSections {D : Type} (env : Env) (sec : Sections D) (root : Document D)
    (sim_data : SimData) (pfx : String) : Thrown SimData :=
  (parseSettings env root.Settings sim_data.settings).andThen fun settings =>
  (sec.parseVariables root.others sim_data.sim pfx).andThen fun sim1 =>
  (sec.parseDefinitions root.others sim1 pfx).andThen fun sim2 =>
  (parseTools env root.Tools sim2 pfx).dropFlag.andThen fun sim3 =>
  (sec.parseReports root.others sim3 pfx).andThen fun sim4 =>
  (sec.parseTiming root.others sim4 pfx).andThen fun sim5 =>
  (sec.parseSets root.others sim5 pfx).andThen fun sim6 =>
  Thrown.done ⟨settings, sim6⟩

/-- A loop of `State::parse` over the `Include` elements: the one before the sections,
for the elements without `when` attribute or with `when="begin"`, or the one after them
(`atEnd`), for the elements with `when="end"`. `parse` is the recursive call. -/
def parseIncludes (parse : String → SimData → String → Option (Thrown SimData))
    (pfx : String) (atEnd : Bool) : SimData → List DOMElement → Option (Thrown SimData)
  | sim_data, [] => some (Thrown.done sim_data)
  | sim_data, elem :: nodes =>
    if (if atEnd then
        !xmlHasAttribute elem "when" || xmlAttribute elem "when" != "end"
      else xmlHasAttribute elem "when" && xmlAttribute elem "when" != "begin") then
      parseIncludes parse pfx atEnd sim_data nodes
    else
      match parse (xmlAttribute elem "file") sim_data
        (if xmlHasAttribute elem "prefix" then xmlAttribute elem "prefix" else pfx) with
      | some (Thrown.done sim1) => parseIncludes parse pfx atEnd sim1 nodes
      | r => r

/-- The method `State::parse(filepath, sim_data, prefix)`. `files filepath` is the root
element of the document of the file, `some none` for a document without root element and
`none` for a file which cannot be opened. The recursion through the included files is
bounded by `fuel`: the result is `none` when it runs out. -/
def parse {D : Type} (env : Env) (sec : Sections D)
    (files : String → Option (Option (Document D))) :
    Nat → String → SimData → String → Option (Thrown SimData)
  | 0, _, _, _ => none
  | fuel + 1, filepath, sim_data, pfx =>
    match files filepath with
    | none => some (Thrown.thrown "File inaccessible!")
    | some none => some (Thrown.thrown "Empty XML file")
    | some (some root) =>
      match parseIncludes (parse env sec files fuel) pfx false sim_data root.Include with
      | some (Thrown.done sim1) =>
        match parseSections env sec root sim1 pfx with
        | Thrown.done sim2 =>
          parseIncludes (parse env sec files fuel) pfx true sim2 root.Include
        | r => some r
      | r => r

/-! ## Examples of documents -/

/-- The section parsers of the examples, which leave the setup as it is. -/
def plainSections : Sections Unit :=
  ⟨fun _ sim _ => Thrown.done sim, fun _ sim _ => Thrown.done sim,
    fun _ sim _ => Thrown.done sim, fun _ sim _ => Thrown.done sim,
    fun _ sim _ => Thrown.done sim⟩

/-- The document of the examples with a tool of an unknown type. -/
def unknownTypeDocument : Document Unit :=
  ⟨[], [], [[⟨[("name", "t"), ("type", "bogus")], ""⟩]], ()⟩

/-- The settings of a problem setup just built, for the examples. -/
def defaultSettings : sphSettings :=
  ⟨false, 0, 0, cl_device_type.CL_DEVICE_TYPE_ALL, ""⟩

/-- The settings of the examples: the second device of the second platform, a root path
and the flag to save on a failure. -/
def exampleSettings : sphSettings :=
  ⟨true, 1, 1, cl_device_type.CL_DEVICE_TYPE_GPU, "/home/user/simulation"⟩

/-- The files of the examples: `bad.xml` holds the document with a tool of an unknown
type. -/
def exampleFiles (filepath : String) : Option (Option (Document Unit)) :=
  if filepath = "bad.xml" then some (some unknownTypeDocument) else none

/-- The document of the examples with a kernel without `path`, then a tool with an
unknown action. -/
def missingPathDocument : Document Unit :=
  ⟨[], [], [[⟨[("name", "k"), ("type", "kernel")], ""⟩,
    ⟨[("name", "d"), ("type", "dummy"), ("action", "move")], ""⟩]], ()⟩

/-- The reading of a number for the examples: a text of decimal digits, after a minus sign
or not, which are the texts that `sprintf` writes for a number. -/
def decimal (text : String) : Option Int :=
  match text.toList with
  | '-' :: cs => if cs ≠ [] ∧ cs.all Char.isDigit then some (-digitsValue cs) else none
  | cs => if cs ≠ [] ∧ cs.all Char.isDigit then some (digitsValue cs) else none

/-- The library routines of the examples, with `decimal` for `std::stoi`. -/
def decimalEnv : Env := ⟨exampleEnv.fnmatch, decimal⟩

end InputOutput

end Aqua

namespace Aqua

/-! ## Theorems on the sequence helpers -/

theorem length_dequeInsert {α : Type} (x : α) :
    ∀ (l : List α) (p : Nat), p ≤ l.length → (dequeInsert l p x).length = l.length + 1
  | l, 0, _ => by simp [dequeInsert]
  | [], p + 1, h => by simp at h
  | a :: l, p + 1, h => by
    have := length_dequeInsert x l p (by simpa using h)
    simp [dequeInsert, this]

namespace InputOutput

/-! ## Theorems on the scan of the places -/

theorem scanPlaces_succ (sim : ProblemSetup) (test : String → Bool) :
    ∀ (ts : List Nat) (k : Nat),
      scanPlaces sim test ts (k + 1) = (scanPlaces sim test ts k).map Nat.succ
  | [], _ => rfl
  | t :: ts, k => by
    simp only [scanPlaces]
    split <;> simp [scanPlaces_succ sim test ts (k + 1)]

theorem scanPlaces_cons (sim : ProblemSetup) (test : String → Bool) (t : Nat) (ts : List Nat) :
    scanPlaces sim test (t :: ts) 0 =
      (if test (sim.toolGet t "name") then [0] else []) ++
        (scanPlaces sim test ts 0).map Nat.succ := by
  simp only [scanPlaces, Nat.zero_add, scanPlaces_succ sim test ts 0]
  split <;> simp

/-- The scan only depends on the names of the scanned tools. -/
theorem scanPlaces_congr (sim sim1 : ProblemSetup) (test : String → Bool) :
    ∀ (ts : List Nat) (k : Nat),
      (∀ t ∈ ts, sim1.toolGet t "name" = sim.toolGet t "name") →
      scanPlaces sim1 test ts k = scanPlaces sim test ts k
  | [], _, _ => rfl
  | t :: ts, k, h => by
    have h1 := h t (List.mem_cons_self _ _)
    have h2 := scanPlaces_congr sim sim1 test ts (k + 1)
      (fun u hu => h u (List.mem_cons_of_mem _ hu))
    simp [scanPlaces, h1, h2]

theorem scanPlaces_eq_nil (sim : ProblemSetup) (test : String → Bool) :
    ∀ (ts : List Nat) (k : Nat),
      scanPlaces sim test ts k = [] ↔ ∀ t ∈ ts, test (sim.toolGet t "name") = false
  | [], _ => by simp [scanPlaces]
  | t :: ts, k => by
    simp only [scanPlaces]
    split
    · rename_i h; simp [h]
    · rename_i h; simp [h, scanPlaces_eq_nil sim test ts (k + 1)]

theorem insertAll_map_succ (x t : Nat) (ts : List Nat) :
    ∀ ps : List Nat, insertAll (t :: ts) (ps.map Nat.succ) x = t :: insertAll ts ps x
  | [] => rfl
  | p :: ps => by
    have ih := insertAll_map_succ x t ts ps
    simp only [insertAll, List.map, List.foldr] at ih ⊢
    rw [ih]; rfl

theorem insertAll_scan_before (sim : ProblemSetup) (test : String → Bool) (x : Nat) :
    ∀ ts : List Nat, insertAll ts (scanPlaces sim test ts 0) x =
      placedBefore (fun t => test (sim.toolGet t "name")) x ts
  | [] => rfl
  | t :: ts => by
    have ih := insertAll_scan_before sim test x ts
    rw [scanPlaces_cons]
    simp only [placedBefore]
    by_cases h : test (sim.toolGet t "name") = true
    · rw [if_pos h, if_pos h]
      show dequeInsert (insertAll (t :: ts) ((scanPlaces sim test ts 0).map Nat.succ) x) 0 x = _
      rw [insertAll_map_succ, ih]; rfl
    · rw [if_neg h, if_neg h, List.nil_append, insertAll_map_succ, ih]

theorem insertAll_scan_after (sim : ProblemSetup) (test : String → Bool) (x : Nat) :
    ∀ ts : List Nat, insertAll ts ((scanPlaces sim test ts 0).map (fun it => it + 1)) x =
      placedAfter (fun t => test (sim.toolGet t "name")) x ts
  | [] => rfl
  | t :: ts => by
    have ih := insertAll_scan_after sim test x ts
    have hs : (fun it : Nat => it + 1) = Nat.succ := rfl
    rw [hs] at ih ⊢
    rw [scanPlaces_cons]
    simp only [placedAfter]
    by_cases h : test (sim.toolGet t "name") = true
    · rw [if_pos h, if_pos h]
      show dequeInsert (insertAll (t :: ts)
        (((scanPlaces sim test ts 0).map Nat.succ).map Nat.succ) x) 1 x = _
      rw [insertAll_map_succ, ih]; simp [dequeInsert]
    · rw [if_neg h, if_neg h, List.nil_append, insertAll_map_succ, ih]

theorem length_placedBefore (m : Nat → Bool) (x : Nat) :
    ∀ ts : List Nat, (placedBefore m x ts).length = ts.length + ts.countP m
  | [] => rfl
  | t :: ts => by
    have ih := length_placedBefore m x ts
    by_cases h : m t = true <;> simp [placedBefore, h, ih, List.countP_cons] <;> omega

theorem length_placedAfter (m : Nat → Bool) (x : Nat) :
    ∀ ts : List Nat, (placedAfter m x ts).length = ts.length + ts.countP m
  | [] => rfl
  | t :: ts => by
    have ih := length_placedAfter m x ts
    by_cases h : m t = true <;> simp [placedAfter, h, ih, List.countP_cons] <;> omega

theorem filter_placedBefore (m : Nat → Bool) (x : Nat) :
    ∀ ts : List Nat, x ∉ ts → (placedBefore m x ts).filter (fun t => t ≠ x) = ts
  | [], _ => rfl
  | t :: ts, h => by
    have ht : t ≠ x := fun e => h (e ▸ List.mem_cons_self _ _)
    have ih := filter_placedBefore m x ts (fun hx => h (List.mem_cons_of_mem _ hx))
    by_cases hm : m t = true <;> simp_all [placedBefore]

theorem filter_placedAfter (m : Nat → Bool) (x : Nat) :
    ∀ ts : List Nat, x ∉ ts → (placedAfter m x ts).filter (fun t => t ≠ x) = ts
  | [], _ => rfl
  | t :: ts, h => by
    have ht : t ≠ x := fun e => h (e ▸ List.mem_cons_self _ _)
    have ih := filter_placedAfter m x ts (fun hx => h (List.mem_cons_of_mem _ hx))
    by_cases hm : m t = true <;> simp_all [placedAfter]

/-! ## Theorems on the creation and on the configuration of a tool -/

theorem toolGet_toolSet_ne (sim : ProblemSetup) (tool t : Nat) (k v n : String)
    (h : t ≠ tool) : (sim.toolSet tool k v).toolGet t n = sim.toolGet t n := by
  simp [ProblemSetup.toolSet, ProblemSetup.toolGet, List.getElem?_modify_ne _ _ (Ne.symm h)]

theorem toolGet_namedTool (pfx : String) (sim : ProblemSetup) (e : DOMElement) (t : Nat)
    (n : String) (h : t < sim.heap.length) :
    (namedTool pfx sim e).toolGet t n = sim.toolGet t n := by
  have hne : t ≠ sim.newTool.1 := by simp [ProblemSetup.newTool]; omega
  rw [namedTool, toolGet_toolSet_ne _ _ _ _ _ _ hne, toolGet_toolSet_ne _ _ _ _ _ _ hne]
  simp [ProblemSetup.newTool, ProblemSetup.toolGet, List.getElem?_append_left h]

@[simp] theorem tools_namedTool (pfx : String) (sim : ProblemSetup) (e : DOMElement) :
    (namedTool pfx sim e).tools = sim.tools := rfl

@[simp] theorem deleted_namedTool (pfx : String) (sim : ProblemSetup) (e : DOMElement) :
    (namedTool pfx sim e).deleted = sim.deleted := rfl

@[simp] theorem length_heap_namedTool (pfx : String) (sim : ProblemSetup) (e : DOMElement) :
    (namedTool pfx sim e).heap.length = sim.heap.length + 1 := by
  simp [namedTool, ProblemSetup.toolSet, ProblemSetup.newTool]

@[simp] theorem skipTool_namedTool (pfx : String) (sim : ProblemSetup) (e : DOMElement) :
    skipTool (namedTool pfx sim e) e = skipTool sim e := rfl

theorem scanPlaces_namedTool (pfx : String) (sim : ProblemSetup) (e : DOMElement)
    (test : String → Bool) (hwf : ∀ t ∈ sim.tools, t < sim.heap.length) :
    scanPlaces (namedTool pfx sim e) test sim.tools 0 = scanPlaces sim test sim.tools 0 :=
  scanPlaces_congr sim _ test sim.tools 0 (fun t ht => toolGet_namedTool pfx sim e t _ (hwf t ht))

theorem sameSlots_toolSet (sim : ProblemSetup) (tool : Nat) (k v : String) :
    SameSlots sim (sim.toolSet tool k v) := by
  simp [SameSlots, ProblemSetup.toolSet]

theorem SameSlots.andThen {a b c : ProblemSetup} (h1 : SameSlots a b) (h2 : SameSlots b c) :
    SameSlots a c :=
  ⟨h2.1.trans h1.1, h2.2.1.trans h1.2.1, h2.2.2.trans h1.2.2⟩

theorem setRequired_sameSlots (e : DOMElement) (tool : Nat) :
    ∀ (atts : List String) (sim : ProblemSetup),
      ∃ sim1, (setRequired e tool sim atts).state? = some sim1 ∧ SameSlots sim sim1
  | [], sim => ⟨sim, rfl, rfl, rfl, rfl⟩
  | att :: atts, sim => by
    simp only [setRequired]
    split
    · exact ⟨sim, rfl, rfl, rfl, rfl⟩
    · obtain ⟨s1, h1, h2⟩ := setRequired_sameSlots e tool atts
        (sim.toolSet tool att (xmlAttribute e att))
      exact ⟨s1, h1, (sameSlots_toolSet _ _ _ _).andThen h2⟩


theorem sameSlots_setOrDefault (e : DOMElement) (tool : Nat) (att dflt : String)
    (sim : ProblemSetup) : SameSlots sim (setOrDefault e tool att dflt sim) := by
  unfold setOrDefault
  split <;> exact sameSlots_toolSet _ _ _ _

theorem configureKernel_sameSlots (sim : ProblemSetup) (e : DOMElement) (tool : Nat) :
    ∃ sim1, (configureKernel sim e tool).state? = some sim1 ∧ SameSlots sim sim1 := by
  unfold configureKernel
  split
  · exact ⟨sim, rfl, rfl, rfl, rfl⟩
  · exact ⟨_, rfl, ((sameSlots_toolSet _ _ _ _).andThen (sameSlots_setOrDefault _ _ _ _ _)).andThen
      (sameSlots_setOrDefault _ _ _ _ _)⟩

theorem configureReduction_sameSlots (sim : ProblemSetup) (e : DOMElement) (tool : Nat) :
    ∃ sim1, (configureReduction sim e tool).state? = some sim1 ∧ SameSlots sim sim1 := by
  obtain ⟨s1, h1, h2⟩ := setRequired_sameSlots e tool ["in", "out", "null"] sim
  unfold configureReduction
  cases hq : setRequired e tool sim ["in", "out", "null"] with
  | ok s =>
    rw [hq] at h1
    simp only [Res.state?, Option.some.injEq] at h1
    subst h1
    dsimp only
    split
    · exact ⟨_, rfl, h2⟩
    · exact ⟨_, rfl, h2.andThen (sameSlots_toolSet _ _ _ _)⟩
  | err s =>
    rw [hq] at h1
    simp only [Res.state?, Option.some.injEq] at h1
    subst h1
    exact ⟨_, rfl, h2⟩
  | undef => rw [hq] at h1; simp [Res.state?] at h1


theorem configureTool_sameSlots (sim : ProblemSetup) (e : DOMElement) (tool : Nat) :
    ∃ sim1, (configureTool sim e tool).state? = some sim1 ∧ SameSlots sim sim1 := by
  have hr : ∀ s : ProblemSetup, SameSlots s s := fun s => ⟨rfl, rfl, rfl⟩
  rw [configureTool]
  by_cases h1 : (xmlAttribute e "type" == "kernel") = true
  · rw [if_pos h1]; exact configureKernel_sameSlots _ _ _
  rw [if_neg h1]
  by_cases h2 : (xmlAttribute e "type" == "copy") = true
  · rw [if_pos h2]; exact setRequired_sameSlots _ _ _ _
  rw [if_neg h2]
  by_cases h3 : (xmlAttribute e "type" == "python") = true
  · rw [if_pos h3]
    by_cases hp : (!xmlHasAttribute e "path") = true
    · rw [if_pos hp]; exact ⟨sim, rfl, hr _⟩
    · rw [if_neg hp]; exact ⟨_, rfl, sameSlots_toolSet _ _ _ _⟩
  rw [if_neg h3]
  by_cases h4 : (xmlAttribute e "type" == "set") = true
  · rw [if_pos h4]; exact setRequired_sameSlots _ _ _ _
  rw [if_neg h4]
  by_cases h5 : (xmlAttribute e "type" == "set_scalar") = true
  · rw [if_pos h5]; exact setRequired_sameSlots _ _ _ _
  rw [if_neg h5]
  by_cases h6 : (xmlAttribute e "type" == "reduction") = true
  · rw [if_pos h6]; exact configureReduction_sameSlots _ _ _
  rw [if_neg h6]
  by_cases h7 : (xmlAttribute e "type" == "link-list") = true
  · rw [if_pos h7]; exact ⟨_, rfl, sameSlots_setOrDefault _ _ _ _ _⟩
  rw [if_neg h7]
  by_cases h8 : (xmlAttribute e "type" == "radix-sort") = true
  · rw [if_pos h8]; exact setRequired_sameSlots _ _ _ _
  rw [if_neg h8]
  by_cases h9 : (xmlAttribute e "type" == "assert") = true
  · rw [if_pos h9]
    by_cases hp : (!xmlHasAttribute e "condition") = true
    · rw [if_pos hp]; exact ⟨sim, rfl, hr _⟩
    · rw [if_neg hp]; exact ⟨_, rfl, sameSlots_toolSet _ _ _ _⟩
  rw [if_neg h9]
  by_cases h10 : (xmlAttribute e "type" == "dummy") = true
  · rw [if_pos h10]; exact ⟨sim, rfl, hr _⟩
  · rw [if_neg h10]; exact ⟨sim, rfl, hr _⟩


theorem placeTool_insert (env : Env) (pfx : String) (sim : ProblemSetup) (e : DOMElement)
    (tool : Nat) (h1 : xmlHasAttribute e "action" = true)
    (h2 : xmlAttribute e "action" = "insert" ∨ xmlAttribute e "action" = "try_insert") :
    placeTool env pfx sim e tool = placeInsert env pfx sim e tool := by
  unfold placeTool
  rcases h2 with h | h <;> simp [h1, h]

theorem placeTool_remove (env : Env) (pfx : String) (sim : ProblemSetup) (e : DOMElement)
    (tool : Nat) (h1 : xmlHasAttribute e "action" = true)
    (h2 : xmlAttribute e "action" = "remove" ∨ xmlAttribute e "action" = "try_remove") :
    placeTool env pfx sim e tool = placeRemove env pfx sim e tool := by
  unfold placeTool
  rcases h2 with h | h <;> simp [h1, h]

theorem placeTool_replace (env : Env) (pfx : String) (sim : ProblemSetup) (e : DOMElement)
    (tool : Nat) (h1 : xmlHasAttribute e "action" = true)
    (h2 : xmlAttribute e "action" = "replace" ∨ xmlAttribute e "action" = "try_replace") :
    placeTool env pfx sim e tool = placeReplace env pfx sim e tool := by
  unfold placeTool
  rcases h2 with h | h <;> simp [h1, h]

/-- The body of the tools loop on an element which has a name and a type and is not
ignored: the tool is created, placed, then configured. -/
theorem parseTool_eq (env : Env) (pfx : String) (sim : ProblemSetup) (e : DOMElement)
    (hname : xmlHasAttribute e "name" = true) (htype : xmlHasAttribute e "type" = true)
    (hskip : skipTool sim e = false) :
    parseTool env pfx sim e =
      match placeTool env pfx (namedTool pfx sim e) e sim.heap.length with
      | Flow.next sim2 => configureTool sim2 e sim.heap.length
      | Flow.cont sim2 => Res.ok sim2
      | Flow.ret sim2 => Res.err sim2
      | Flow.undef => Res.undef := by
  unfold parseTool
  simp only [hname, htype, Bool.not_true, Bool.false_eq_true, if_false, skipTool_namedTool, hskip]
  rfl


theorem toolsName_no_pfx (env : Env) (name : String) (sim : ProblemSetup) :
    _toolsName env name sim "" = scanPlaces sim (fun n => env.fnmatch name n) sim.tools 0 := by
  simp [_toolsName]

theorem insertPlaces_wildcard (env : Env) (sim : ProblemSetup) (att pfx : String) (after : Bool)
    (hcomma : ',' ∉ att.toList) (hne : _toolsName env att sim pfx ≠ []) :
    insertPlaces env sim att pfx after =
      some (if after then (_toolsName env att sim pfx).map (fun it => it + 1)
        else _toolsName env att sim pfx) := by
  have hc : att.toList.contains ',' = false := by simpa using hcomma
  have he : (_toolsName env att sim pfx).isEmpty = false := by
    cases h : _toolsName env att sim pfx with
    | nil => exact absurd h hne
    | cons a l => rfl
  unfold insertPlaces
  rw [hc]
  simp only [Bool.false_eq_true, if_false, he]
  cases after <;> simp

/-- When the placement falls through, the element leaves the slots of the placement. -/
theorem parseTool_next (env : Env) (pfx : String) (sim : ProblemSetup) (e : DOMElement)
    (hname : xmlHasAttribute e "name" = true) (htype : xmlHasAttribute e "type" = true)
    (hskip : skipTool sim e = false) (sim2 : ProblemSetup)
    (h : placeTool env pfx (namedTool pfx sim e) e sim.heap.length = Flow.next sim2) :
    ∃ sim1, (parseTool env pfx sim e).state? = some sim1 ∧ SameSlots sim2 sim1 := by
  rw [parseTool_eq env pfx sim e hname htype hskip, h]
  exact configureTool_sameSlots sim2 e sim.heap.length


theorem sphTool_get_set (t : sphTool) (k v : String) : (t.set k v).get k = some v := by
  simp [sphTool.set, sphTool.get]

theorem find?_filter_ne (k n : String) (h : k ≠ n) :
    ∀ l : List (String × String),
      (l.filter (fun kv => kv.1 != k)).find? (fun kv => kv.1 == n) =
        l.find? (fun kv => kv.1 == n)
  | [] => rfl
  | a :: l => by
    have ih := find?_filter_ne k n h l
    by_cases ha : a.1 = k
    · have h1 : (a.1 != k) = false := by simp [ha]
      have h2 : (a.1 == n) = false := by simpa [ha] using h
      rw [List.filter_cons, List.find?_cons, h1, h2]
      exact ih
    · have h1 : (a.1 != k) = true := by simpa using ha
      rw [List.filter_cons, h1, if_pos rfl, List.find?_cons, List.find?_cons, ih]

theorem sphTool_get_set_ne (t : sphTool) (k v n : String) (h : k ≠ n) :
    (t.set k v).get n = t.get n := by
  unfold sphTool.set sphTool.get
  have h1 : ((k, v).1 == n) = false := by simpa using h
  rw [List.find?_cons, h1, find?_filter_ne k n h]

theorem toolGet_namedTool_name (pfx : String) (sim : ProblemSetup) (e : DOMElement) :
    (namedTool pfx sim e).toolGet sim.heap.length "name" = pfx ++ xmlAttribute e "name" := by
  simp [namedTool, ProblemSetup.toolGet, ProblemSetup.toolSet, ProblemSetup.newTool,
    List.getElem?_modify_eq, sphTool_get_set_ne _ "type" _ "name" (by decide), sphTool_get_set]

end InputOutput

end Aqua

namespace Aqua

theorem dequeErase_of_none {α : Type} :
    ∀ (l : List α) (p : Nat), l[p]? = none → dequeErase l p = l
  | [], _, _ => rfl
  | a :: l, 0, h => by simp at h
  | a :: l, p + 1, h => by
    simp only [List.getElem?_cons_succ] at h
    simp [dequeErase, dequeErase_of_none l p h]

theorem dequeSet_of_none {α : Type} (x : α) :
    ∀ (l : List α) (p : Nat), l[p]? = none → dequeSet l p x = l
  | [], _, _ => rfl
  | a :: l, 0, h => by simp at h
  | a :: l, p + 1, h => by
    simp only [List.getElem?_cons_succ] at h
    simp [dequeSet, dequeSet_of_none x l p h]

namespace InputOutput

/-! ## Theorems on the loops of `remove` and `replace` -/

theorem tools_removeSlot (sim : ProblemSetup) (p : Nat) :
    (removeSlot sim p).tools = dequeErase sim.tools p := by
  unfold removeSlot
  cases h : sim.tools[p]? with
  | none => exact (dequeErase_of_none _ _ h).symm
  | some t =>
    simp only []
    split <;> rfl

theorem tools_removeAll (sim : ProblemSetup) :
    ∀ ps : List Nat,
      (removeAll sim ps).tools = ps.foldr (fun p ts => dequeErase ts p) sim.tools
  | [] => rfl
  | p :: ps => by
    have ih := tools_removeAll sim ps
    simp only [removeAll, List.foldr] at ih ⊢
    rw [tools_removeSlot, ih]

theorem eraseAll_map_succ (t : Nat) (ts : List Nat) :
    ∀ ps : List Nat, (ps.map Nat.succ).foldr (fun p l => dequeErase l p) (t :: ts) =
      t :: ps.foldr (fun p l => dequeErase l p) ts
  | [] => rfl
  | p :: ps => by
    have ih := eraseAll_map_succ t ts ps
    simp only [List.map, List.foldr] at ih ⊢
    rw [ih]; rfl

theorem eraseAll_scan (sim : ProblemSetup) (test : String → Bool) :
    ∀ ts : List Nat, (scanPlaces sim test ts 0).foldr (fun p l => dequeErase l p) ts =
      ts.filter (fun t => !test (sim.toolGet t "name"))
  | [] => rfl
  | t :: ts => by
    have ih := eraseAll_scan sim test ts
    rw [scanPlaces_cons]
    by_cases h : test (sim.toolGet t "name") = true
    · rw [if_pos h, List.filter_cons, if_neg (by simp [h])]
      show dequeErase ((List.map Nat.succ (scanPlaces sim test ts 0)).foldr
        (fun p l => dequeErase l p) (t :: ts)) 0 = _
      rw [eraseAll_map_succ, ih]; rfl
    · rw [if_neg h, List.filter_cons, if_pos (by simp [h]), List.nil_append,
        eraseAll_map_succ, ih]

theorem tools_replaceSlot (tool : Nat) (sim : ProblemSetup) (p : Nat) :
    (replaceSlot tool sim p).tools = dequeSet sim.tools p tool := by
  unfold replaceSlot
  cases h : sim.tools[p]? with
  | none => exact (dequeSet_of_none _ _ _ h).symm
  | some t =>
    simp only []
    split <;> rfl

theorem tools_replaceAll (tool : Nat) :
    ∀ (ps : List Nat) (sim : ProblemSetup),
      (replaceAll sim ps tool).tools = ps.foldl (fun ts p => dequeSet ts p tool) sim.tools
  | [], _ => rfl
  | p :: ps, sim => by
    have ih := tools_replaceAll tool ps (replaceSlot tool sim p)
    simp only [replaceAll, List.foldl] at ih ⊢
    rw [ih, tools_replaceSlot]

theorem setAll_map_succ (x : Nat) :
    ∀ (ps : List Nat) (t : Nat) (ts : List Nat),
      (ps.map Nat.succ).foldl (fun l p => dequeSet l p x) (t :: ts) =
        t :: ps.foldl (fun l p => dequeSet l p x) ts
  | [], _, _ => rfl
  | p :: ps, t, ts => by
    simp only [List.map, List.foldl]
    exact setAll_map_succ x ps t (dequeSet ts p x)

theorem setAll_scan (sim : ProblemSetup) (test : String → Bool) (x : Nat) :
    ∀ ts : List Nat, (scanPlaces sim test ts 0).foldl (fun l p => dequeSet l p x) ts =
      ts.map (fun t => if test (sim.toolGet t "name") then x else t)
  | [] => rfl
  | t :: ts => by
    have ih := setAll_scan sim test x ts
    rw [scanPlaces_cons]
    by_cases h : test (sim.toolGet t "name") = true
    · rw [if_pos h, List.map_cons, if_pos h]
      show (List.map Nat.succ (scanPlaces sim test ts 0)).foldl
        (fun l p => dequeSet l p x) (x :: ts) = _
      rw [setAll_map_succ, ih]
    · rw [if_neg h, List.map_cons, if_neg h, List.nil_append, setAll_map_succ, ih]

theorem placeTool_eq_cont (env : Env) (pfx : String) (sim : ProblemSetup) (e : DOMElement)
    (hname : xmlHasAttribute e "name" = true) (htype : xmlHasAttribute e "type" = true)
    (hskip : skipTool sim e = false) (sim2 : ProblemSetup)
    (h : placeTool env pfx (namedTool pfx sim e) e sim.heap.length = Flow.cont sim2) :
    parseTool env pfx sim e = Res.ok sim2 := by
  rw [parseTool_eq env pfx sim e hname htype hskip, h]

theorem placeTool_eq_ret (env : Env) (pfx : String) (sim : ProblemSetup) (e : DOMElement)
    (hname : xmlHasAttribute e "name" = true) (htype : xmlHasAttribute e "type" = true)
    (hskip : skipTool sim e = false) (sim2 : ProblemSetup)
    (h : placeTool env pfx (namedTool pfx sim e) e sim.heap.length = Flow.ret sim2) :
    parseTool env pfx sim e = Res.err sim2 := by
  rw [parseTool_eq env pfx sim e hname htype hskip, h]

/-- The places found by `remove` and `replace` for the tool of the element: the pattern is
the prefixed name of the new tool, with the prefix inserted once more. -/
theorem toolsName_namedTool (env : Env) (pfx : String) (sim : ProblemSetup) (e : DOMElement)
    (hwf : ∀ t ∈ sim.tools, t < sim.heap.length) :
    _toolsName env ((namedTool pfx sim e).toolGet sim.heap.length "name")
        (namedTool pfx sim e) pfx =
      scanPlaces sim (fun n => env.fnmatch (pfx ++ (pfx ++ xmlAttribute e "name")) n)
        sim.tools 0 := by
  rw [toolGet_namedTool_name]
  exact scanPlaces_namedTool pfx sim e _ hwf

theorem isEmpty_eq_false_of_ne_nil {α : Type} (l : List α) (h : l ≠ []) :
    l.isEmpty = false := by
  cases l with
  | nil => exact absurd rfl h
  | cons a l => rfl

theorem scanPlaces_ne_nil (sim : ProblemSetup) (test : String → Bool) (ts : List Nat)
    (h : ∃ t ∈ ts, test (sim.toolGet t "name") = true) : scanPlaces sim test ts 0 ≠ [] := by
  obtain ⟨t, ht, hm⟩ := h
  intro hnil
  rw [scanPlaces_eq_nil] at hnil
  rw [hnil t ht] at hm
  exact Bool.noConfusion hm

end InputOutput

end Aqua

namespace Aqua

namespace InputOutput

theorem toolsListTokens_congr (sim sim1 : ProblemSetup) (pfx : String)
    (ht : sim1.tools = sim.tools)
    (h : ∀ t ∈ sim.tools, sim1.toolGet t "name" = sim.toolGet t "name") :
    ∀ tokens : List String, toolsListTokens sim1 pfx tokens = toolsListTokens sim pfx tokens
  | [] => rfl
  | token :: rest => by
    simp only [toolsListTokens]
    rw [toolsListTokens_congr sim sim1 pfx ht h rest, ht, scanPlaces_congr sim sim1 _ _ _ h]

theorem toolsListTokens_eq_nil (sim : ProblemSetup) (pfx : String) :
    ∀ tokens : List String,
      (∀ t ∈ sim.tools, tokens.any (fun token => sim.toolGet t "name" == pfx ++ token) = false) →
      toolsListTokens sim pfx tokens = []
  | [], _ => rfl
  | token :: rest, h => by
    simp only [toolsListTokens, List.append_eq_nil]
    constructor
    · rw [scanPlaces_eq_nil]
      intro t ht
      have := h t ht
      simp only [List.any_cons, Bool.or_eq_false_iff] at this
      exact this.1
    · apply toolsListTokens_eq_nil sim pfx rest
      intro t ht
      have := h t ht
      simp only [List.any_cons, Bool.or_eq_false_iff] at this
      exact this.2

theorem insertPlaces_congr (env : Env) (sim sim1 : ProblemSetup) (att pfx : String)
    (after : Bool) (ht : sim1.tools = sim.tools)
    (h : ∀ t ∈ sim.tools, sim1.toolGet t "name" = sim.toolGet t "name") :
    insertPlaces env sim1 att pfx after = insertPlaces env sim att pfx after := by
  unfold insertPlaces _toolsList _toolsName
  rw [toolsListTokens_congr sim sim1 pfx ht h, ht, scanPlaces_congr sim sim1 _ _ _ h]

theorem insertPlaces_eq_none (env : Env) (sim : ProblemSetup) (att pfx : String)
    (after : Bool) (h : ∀ t ∈ sim.tools, isTarget env sim att pfx t = false) :
    insertPlaces env sim att pfx after = none := by
  unfold insertPlaces
  by_cases hc : att.toList.contains ',' = true
  · rw [if_pos hc]
    have : _toolsList att sim pfx = [] := by
      apply toolsListTokens_eq_nil
      intro t ht
      have := h t ht
      rwa [isTarget, if_pos hc] at this
    simp only [this, List.isEmpty_nil, if_true]
  · rw [if_neg hc]
    have : _toolsName env att sim pfx = [] := by
      rw [_toolsName, scanPlaces_eq_nil]
      intro t ht
      have := h t ht
      rwa [isTarget, if_neg hc] at this
    simp only [this, List.isEmpty_nil, if_true]

theorem insertPlaces_namedTool (env : Env) (pfx : String) (sim : ProblemSetup)
    (e : DOMElement) (att p : String) (after : Bool)
    (hwf : ∀ t ∈ sim.tools, t < sim.heap.length) :
    insertPlaces env (namedTool pfx sim e) att p after = insertPlaces env sim att p after :=
  insertPlaces_congr env sim _ att p after rfl
    (fun t ht => toolGet_namedTool pfx sim e t _ (hwf t ht))

theorem placeInsert_not_found (env : Env) (pfx : String) (sim : ProblemSetup)
    (e : DOMElement) (tool : Nat) (hat : xmlHasAttribute e "at" = false) (att p : String)
    (htarget : insertTarget pfx e = some (att, p))
    (h : ∀ after, insertPlaces env sim att p after = none) :
    placeInsert env pfx sim e tool =
      notFound sim tool (xmlAttribute e "action" == "try_insert") := by
  unfold placeInsert
  unfold insertTarget at htarget
  rw [hat]
  simp only [Bool.false_eq_true, if_false]
  by_cases h1 : xmlHasAttribute e "before" = true
  · rw [if_pos h1] at htarget ⊢
    simp only [Option.some.injEq, Prod.mk.injEq] at htarget
    rw [htarget.1, htarget.2, h]; rfl
  rw [if_neg h1] at htarget ⊢
  by_cases h2 : xmlHasAttribute e "after" = true
  · rw [if_pos h2] at htarget ⊢
    simp only [Option.some.injEq, Prod.mk.injEq] at htarget
    rw [htarget.1, htarget.2, h]; rfl
  rw [if_neg h2] at htarget ⊢
  by_cases h3 : xmlHasAttribute e "before_prefix" = true
  · rw [if_pos h3] at htarget ⊢
    simp only [Option.some.injEq, Prod.mk.injEq] at htarget
    rw [htarget.1, htarget.2, h]; rfl
  rw [if_neg h3] at htarget ⊢
  by_cases h4 : xmlHasAttribute e "after_prefix" = true
  · rw [if_pos h4] at htarget ⊢
    simp only [Option.some.injEq, Prod.mk.injEq] at htarget
    rw [htarget.1, htarget.2, h]; rfl
  rw [if_neg h4] at htarget
  exact Option.noConfusion htarget

end InputOutput

end Aqua

namespace Aqua

namespace InputOutput

theorem parseTools_cons_ok (env : Env) (pfx : String) (sim sim1 : ProblemSetup)
    (e : DOMElement) (rest : List DOMElement) (root : List (List DOMElement))
    (h : parseTool env pfx sim e = Res.ok sim1) :
    parseTools env ((e :: rest) :: root) sim pfx = parseTools env (rest :: root) sim1 pfx := by
  simp only [parseTools, parseToolSections, parseToolElems, h]

theorem parseTools_cons_err (env : Env) (pfx : String) (sim sim1 : ProblemSetup)
    (e : DOMElement) (rest : List DOMElement) (root : List (List DOMElement))
    (h : parseTool env pfx sim e = Res.err sim1) :
    parseTools env ((e :: rest) :: root) sim pfx = Res.err sim1 := by
  simp only [parseTools, parseToolSections, parseToolElems, h]

theorem notFound_try (sim : ProblemSetup) (tool : Nat) :
    notFound sim tool true = Flow.cont (sim.delete tool) := rfl

theorem notFound_fatal (sim : ProblemSetup) (tool : Nat) :
    notFound sim tool false = Flow.ret (sim.delete tool) := rfl

end InputOutput

end Aqua

namespace Aqua

theorem min_element_spec : ∀ l : List Nat, l ≠ [] →
    ∃ m, min_element l = some m ∧ m ∈ l ∧ ∀ x ∈ l, m ≤ x
  | [], h => absurd rfl h
  | a :: l, _ => by
    cases l with
    | nil => exact ⟨a, rfl, by simp, by simp⟩
    | cons b l =>
      obtain ⟨m, h1, h2, h3⟩ := min_element_spec (b :: l) (by simp)
      simp only [min_element] at h1 ⊢
      rw [h1]
      by_cases hlt : m < a
      · refine ⟨m, by simp [hlt], List.mem_cons_of_mem _ h2, ?_⟩
        intro x hx
        rcases List.mem_cons.1 hx with rfl | hx
        · omega
        · exact h3 x hx
      · refine ⟨a, by simp [hlt], List.mem_cons_self _ _, ?_⟩
        intro x hx
        rcases List.mem_cons.1 hx with rfl | hx
        · omega
        · have := h3 x hx; omega

theorem max_element_spec : ∀ l : List Nat, l ≠ [] →
    ∃ m, max_element l = some m ∧ m ∈ l ∧ ∀ x ∈ l, x ≤ m
  | [], h => absurd rfl h
  | a :: l, _ => by
    cases l with
    | nil => exact ⟨a, rfl, by simp, by simp⟩
    | cons b l =>
      obtain ⟨m, h1, h2, h3⟩ := max_element_spec (b :: l) (by simp)
      simp only [max_element] at h1 ⊢
      rw [h1]
      by_cases hlt : a < m
      · refine ⟨m, by simp [hlt], List.mem_cons_of_mem _ h2, ?_⟩
        intro x hx
        rcases List.mem_cons.1 hx with rfl | hx
        · omega
        · exact h3 x hx
      · refine ⟨a, by simp [hlt], List.mem_cons_self _ _, ?_⟩
        intro x hx
        rcases List.mem_cons.1 hx with rfl | hx
        · omega
        · have := h3 x hx; omega

theorem dequeInsert_eq_take_drop {α : Type} (x : α) :
    ∀ (l : List α) (p : Nat), p ≤ l.length → dequeInsert l p x = l.take p ++ x :: l.drop p
  | l, 0, _ => by simp [dequeInsert]
  | [], p + 1, h => by simp at h
  | a :: l, p + 1, h => by
    have := dequeInsert_eq_take_drop x l p (by simpa using h)
    simp [dequeInsert, this]

namespace InputOutput

theorem mem_scanPlaces (sim : ProblemSetup) (test : String → Bool) :
    ∀ (ts : List Nat) (k i : Nat), i ∈ scanPlaces sim test ts k ↔
      ∃ j t, i = k + j ∧ ts[j]? = some t ∧ test (sim.toolGet t "name") = true
  | [], k, i => by simp [scanPlaces]
  | t :: ts, k, i => by
    have ih := mem_scanPlaces sim test ts (k + 1) i
    have key : (i ∈ scanPlaces sim test (t :: ts) k) ↔
        ((test (sim.toolGet t "name") = true ∧ i = k) ∨ i ∈ scanPlaces sim test ts (k + 1)) := by
      simp only [scanPlaces]
      split
      · rename_i h; simp [h]
      · rename_i h; simp [h]
    rw [key, ih]
    constructor
    · rintro (⟨h1, h2⟩ | ⟨j, u, h1, h2, h3⟩)
      · exact ⟨0, t, by omega, by simp, h1⟩
      · exact ⟨j + 1, u, by omega, by simpa using h2, h3⟩
    · rintro ⟨j, u, h1, h2, h3⟩
      cases j with
      | zero =>
        simp only [List.getElem?_cons_zero, Option.some.injEq] at h2
        subst h2
        exact Or.inl ⟨h3, by omega⟩
      | succ j =>
        exact Or.inr ⟨j, u, by omega, by simpa using h2, h3⟩

theorem mem_toolsListTokens (sim : ProblemSetup) (pfx : String) (i : Nat) :
    ∀ tokens : List String, i ∈ toolsListTokens sim pfx tokens ↔
      ∃ token ∈ tokens, ∃ t, sim.tools[i]? = some t ∧ sim.toolGet t "name" = pfx ++ token
  | [] => by simp [toolsListTokens]
  | token :: rest => by
    simp only [toolsListTokens, List.mem_append, mem_toolsListTokens sim pfx i rest,
      mem_scanPlaces, List.mem_cons, exists_eq_or_imp, beq_iff_eq]
    constructor
    · rintro (⟨j, t, h1, h2, h3⟩ | h)
      · have : i = j := by omega
        subst this
        exact Or.inl ⟨t, h2, h3⟩
      · exact Or.inr h
    · rintro (⟨t, h2, h3⟩ | h)
      · exact Or.inl ⟨i, t, by omega, h2, h3⟩
      · exact Or.inr h

end InputOutput

end Aqua

namespace Aqua

namespace InputOutput

theorem insertPlaces_list (env : Env) (sim : ProblemSetup) (att pfx : String) (after : Bool)
    (hcomma : ',' ∈ att.toList) (hne : _toolsList att sim pfx ≠ []) :
    insertPlaces env sim att pfx after =
      if after then (max_element (_toolsList att sim pfx)).map (fun it => [it + 1])
      else (min_element (_toolsList att sim pfx)).map (fun it => [it]) := by
  have hc : att.toList.contains ',' = true := by simpa using hcomma
  unfold insertPlaces
  rw [if_pos hc]
  simp only [isEmpty_eq_false_of_ne_nil _ hne, Bool.false_eq_true, if_false]

theorem toolsList_ne_nil (sim : ProblemSetup) (att : String)
    (h : ∃ t ∈ sim.tools, sim.toolGet t "name" ∈ strtok att ',') :
    _toolsList att sim "" ≠ [] := by
  obtain ⟨t, ht, hm⟩ := h
  obtain ⟨i, hi, hget⟩ := List.getElem_of_mem ht
  intro hnil
  have : i ∈ _toolsList att sim "" := by
    rw [_toolsList, mem_toolsListTokens]
    exact ⟨_, hm, t, by simp [List.getElem?_eq_getElem hi, hget], by simp⟩
  rw [hnil] at this
  exact List.not_mem_nil _ this

theorem count_take_drop_fresh (x : Nat) (l : List Nat) (m : Nat) (h : x ∉ l) :
    (l.take m ++ x :: l.drop m).count x = 1 := by
  have h1 : (l.take m).count x = 0 :=
    List.count_eq_zero.2 (fun hx => h (List.mem_of_mem_take hx))
  have h2 : (l.drop m).count x = 0 :=
    List.count_eq_zero.2 (fun hx => h (List.mem_of_mem_drop hx))
  simp [List.count_append, List.count_cons, h1, h2]

end InputOutput

end Aqua
namespace Aqua

theorem count_dequeErase (t u : Nat) :
    ∀ (l : List Nat) (p : Nat), l[p]? = some u →
      (dequeErase l p).count t + (if t = u then 1 else 0) = l.count t
  | [], p, h => by simp at h
  | a :: l, 0, h => by
    simp only [List.getElem?_cons_zero, Option.some.injEq] at h
    subst h
    simp only [dequeErase, List.count_cons, beq_iff_eq]
    by_cases hta : t = a
    · subst hta; simp
    · have : ¬ a = t := fun e => hta e.symm
      simp [hta, this]
  | a :: l, p + 1, h => by
    simp only [List.getElem?_cons_succ] at h
    have ih := count_dequeErase t u l p h
    simp only [dequeErase, List.count_cons]
    omega

theorem count_dequeSet (t u x : Nat) :
    ∀ (l : List Nat) (p : Nat), l[p]? = some u →
      (dequeSet l p x).count t + (if t = u then 1 else 0) =
        l.count t + (if t = x then 1 else 0)
  | [], p, h => by simp at h
  | a :: l, 0, h => by
    simp only [List.getElem?_cons_zero, Option.some.injEq] at h
    subst h
    simp only [dequeSet, List.count_cons, beq_iff_eq]
    by_cases hta : t = a <;> by_cases htx : t = x
    · subst hta; subst htx; simp
    · subst hta
      have : ¬ x = t := fun e => htx e.symm
      simp [htx, this]
    · subst htx
      have : ¬ a = t := fun e => hta e.symm
      simp [hta, this]
    · have h1 : ¬ a = t := fun e => hta e.symm
      have h2 : ¬ x = t := fun e => htx e.symm
      simp [hta, htx, h1, h2]
  | a :: l, p + 1, h => by
    simp only [List.getElem?_cons_succ] at h
    have ih := count_dequeSet t u x l p h
    simp only [dequeSet, List.count_cons]
    omega

theorem getElem?_dequeSet_ne (x : Nat) :
    ∀ (l : List Nat) (p q : Nat), q ≠ p → (dequeSet l p x)[q]? = l[q]?
  | [], _, _, _ => rfl
  | a :: l, 0, q, h => by
    cases q with
    | zero => exact absurd rfl h
    | succ q => simp [dequeSet]
  | a :: l, p + 1, q, h => by
    cases q with
    | zero => simp [dequeSet]
    | succ q =>
      simp only [dequeSet, List.getElem?_cons_succ]
      exact getElem?_dequeSet_ne x l p q (by omega)

theorem mem_dequeInsert (x : Nat) :
    ∀ (l : List Nat) (p : Nat) (t : Nat), t ∈ dequeInsert l p x → t = x ∨ t ∈ l
  | l, 0, t, h => by simpa [dequeInsert] using h
  | [], p + 1, t, h => by simp [dequeInsert] at h
  | a :: l, p + 1, t, h => by
    simp only [dequeInsert, List.mem_cons] at h ⊢
    rcases h with h | h
    · exact Or.inr (Or.inl h)
    · rcases mem_dequeInsert x l p t h with h | h
      · exact Or.inl h
      · exact Or.inr (Or.inr h)

theorem mem_dequeInsert_of_mem (x : Nat) :
    ∀ (l : List Nat) (p : Nat) (t : Nat), t ∈ l → t ∈ dequeInsert l p x
  | l, 0, t, h => by simp [dequeInsert, h]
  | [], p + 1, t, h => by simp at h
  | a :: l, p + 1, t, h => by
    simp only [dequeInsert, List.mem_cons] at h ⊢
    rcases h with h | h
    · exact Or.inl h
    · exact Or.inr (mem_dequeInsert_of_mem x l p t h)

end Aqua

namespace Aqua

namespace InputOutput

/-! ## Soundness of the pointers along the edits -/

theorem Follows.refl {sim : ProblemSetup} (h : Sound sim) : Follows sim sim :=
  ⟨h, Nat.le_refl _, fun _ ht => ht, fun _ ht hn => absurd ht hn⟩

theorem Follows.chain {a b c : ProblemSetup} (h1 : Follows a b) (h2 : Follows b c) :
    Follows a c := by
  refine ⟨h2.1, Nat.le_trans h1.2.1 h2.2.1, fun t ht => h2.2.2.1 t (h1.2.2.1 t ht), ?_⟩
  intro t ht hn
  by_cases hb : t ∈ b.tools
  · exact h2.2.2.2 t hb hn
  · exact h2.2.2.1 t (h1.2.2.2 t ht hb)

theorem follows_removeSlot (sim : ProblemSetup) (p : Nat) (hs : Sound sim) :
    Follows sim (removeSlot sim p) ∧ (removeSlot sim p).heap = sim.heap := by
  obtain ⟨h1, h2, h3, h4⟩ := hs
  unfold removeSlot
  cases hp : sim.tools[p]? with
  | none => exact ⟨Follows.refl ⟨h1, h2, h3, h4⟩, rfl⟩
  | some u =>
    have hu : u ∈ sim.tools := List.getElem?_mem hp
    have hcount : ∀ t, (dequeErase sim.tools p).count t + (if t = u then 1 else 0) =
        sim.tools.count t := fun t => count_dequeErase t u _ _ hp
    have hsub : ∀ t, t ∈ dequeErase sim.tools p → t ∈ sim.tools := by
      intro t ht
      have := hcount t
      have h0 : 0 < (dequeErase sim.tools p).count t := List.count_pos_iff.2 ht
      exact List.count_pos_iff.1 (by omega)
    have hgone : ∀ t, t ∈ sim.tools → t ∉ dequeErase sim.tools p →
        t = u ∧ sim.tools.count u = 1 := by
      intro t ht hn
      have := hcount t
      have h0 : 0 < sim.tools.count t := List.count_pos_iff.2 ht
      have h1 : (dequeErase sim.tools p).count t = 0 := List.count_eq_zero.2 hn
      by_cases htu : t = u
      · subst htu
        simp only [if_true] at this
        exact ⟨rfl, by omega⟩
      · simp only [htu, if_false] at this
        omega
    simp only [ProblemSetup.toolInstances]
    by_cases hc : sim.tools.count u = 1
    · rw [if_pos hc]
      refine ⟨⟨⟨?_, ?_, ?_, ?_⟩, Nat.le_refl _, ?_, ?_⟩, rfl⟩
      · show (sim.deleted ++ [u]).Nodup
        rw [List.nodup_append]
        refine ⟨h1, List.nodup_singleton u, ?_⟩
        intro a ha hb
        rw [List.mem_singleton] at hb
        subst hb
        exact h2 a hu ha
      · intro t ht
        show t ∉ sim.deleted ++ [u]
        have htt := hsub t ht
        have hne : t ≠ u := by
          intro e
          subst e
          have := hcount t
          simp only [if_true] at this
          have h0 : 0 < (dequeErase sim.tools p).count t := List.count_pos_iff.2 ht
          omega
        simp only [List.mem_append, List.mem_singleton, not_or]
        exact ⟨h2 t htt, hne⟩
      · intro t ht
        exact h3 t (hsub t ht)
      · intro t ht
        show t < sim.heap.length
        rcases List.mem_append.1 ht with ht | ht
        · exact h4 t ht
        · rw [List.mem_singleton] at ht
          subst ht
          exact h3 t hu
      · intro t ht
        exact List.mem_append_left _ ht
      · intro t ht hn
        obtain ⟨e, -⟩ := hgone t ht hn
        subst e
        exact List.mem_append_right _ (List.mem_singleton_self _)
    · rw [if_neg hc]
      refine ⟨⟨⟨h1, ?_, ?_, h4⟩, Nat.le_refl _, fun _ ht => ht, ?_⟩, rfl⟩
      · intro t ht
        exact h2 t (hsub t ht)
      · intro t ht
        exact h3 t (hsub t ht)
      · intro t ht hn
        exact absurd (hgone t ht hn).2 hc

theorem follows_removeAll (sim : ProblemSetup) (hs : Sound sim) :
    ∀ ps : List Nat, Follows sim (removeAll sim ps) ∧ (removeAll sim ps).heap = sim.heap
  | [] => ⟨Follows.refl hs, rfl⟩
  | p :: ps => by
    obtain ⟨ih1, ih2⟩ := follows_removeAll sim hs ps
    obtain ⟨h1, h2⟩ := follows_removeSlot (removeAll sim ps) p ih1.1
    exact ⟨ih1.chain h1, h2.trans ih2⟩

end InputOutput

end Aqua

namespace Aqua

namespace InputOutput

theorem follows_replaceSlot (tool : Nat) (sim : ProblemSetup) (p : Nat) (hs : Sound sim)
    (hd : tool ∉ sim.deleted) (hb : tool < sim.heap.length)
    (hne : ∀ u, sim.tools[p]? = some u → u ≠ tool) :
    Follows sim (replaceSlot tool sim p) ∧ (replaceSlot tool sim p).heap = sim.heap ∧
      tool ∉ (replaceSlot tool sim p).deleted := by
  obtain ⟨h1, h2, h3, h4⟩ := hs
  unfold replaceSlot
  cases hp : sim.tools[p]? with
  | none => exact ⟨Follows.refl ⟨h1, h2, h3, h4⟩, rfl, hd⟩
  | some u =>
    have hut : u ≠ tool := hne u hp
    have hu : u ∈ sim.tools := List.getElem?_mem hp
    have hcount : ∀ t, (dequeSet sim.tools p tool).count t + (if t = u then 1 else 0) =
        sim.tools.count t + (if t = tool then 1 else 0) :=
      fun t => count_dequeSet t u tool _ _ hp
    have hsub : ∀ t, t ∈ dequeSet sim.tools p tool → t = tool ∨ t ∈ sim.tools := by
      intro t ht
      by_cases htt : t = tool
      · exact Or.inl htt
      · right
        have := hcount t
        have h0 : 0 < (dequeSet sim.tools p tool).count t := List.count_pos_iff.2 ht
        simp only [htt, if_false] at this
        exact List.count_pos_iff.1 (by omega)
    have hgone : ∀ t, t ∈ sim.tools → t ∉ dequeSet sim.tools p tool →
        t = u ∧ sim.tools.count u = 1 := by
      intro t ht hn
      have := hcount t
      have h0 : 0 < sim.tools.count t := List.count_pos_iff.2 ht
      have h1 : (dequeSet sim.tools p tool).count t = 0 := List.count_eq_zero.2 hn
      by_cases htu : t = u
      · subst htu
        simp only [if_true, hut, if_false] at this
        exact ⟨rfl, by omega⟩
      · simp only [htu, if_false] at this
        omega
    simp only [ProblemSetup.toolInstances]
    by_cases hc : sim.tools.count u = 1
    · rw [if_pos hc]
      have hugone : u ∉ dequeSet sim.tools p tool := by
        intro hmem
        have := hcount u
        have h0 : 0 < (dequeSet sim.tools p tool).count u := List.count_pos_iff.2 hmem
        simp only [if_true, hut, if_false] at this
        omega
      refine ⟨⟨⟨?_, ?_, ?_, ?_⟩, Nat.le_refl _, ?_, ?_⟩, rfl, ?_⟩
      · show (sim.deleted ++ [u]).Nodup
        rw [List.nodup_append]
        refine ⟨h1, List.nodup_singleton u, ?_⟩
        intro a ha hb
        rw [List.mem_singleton] at hb
        subst hb
        exact h2 a hu ha
      · intro t ht
        show t ∉ sim.deleted ++ [u]
        have hne : t ≠ u := fun e => hugone (e ▸ ht)
        simp only [List.mem_append, List.mem_singleton, not_or]
        refine ⟨?_, hne⟩
        rcases hsub t ht with e | htt
        · rw [e]; exact hd
        · exact h2 t htt
      · intro t ht
        show t < sim.heap.length
        rcases hsub t ht with e | htt
        · rw [e]; exact hb
        · exact h3 t htt
      · intro t ht
        show t < sim.heap.length
        rcases List.mem_append.1 ht with ht | ht
        · exact h4 t ht
        · rw [List.mem_singleton] at ht
          subst ht
          exact h3 t hu
      · intro t ht
        exact List.mem_append_left _ ht
      · intro t ht hn
        obtain ⟨e, -⟩ := hgone t ht hn
        subst e
        exact List.mem_append_right _ (List.mem_singleton_self _)
      · show tool ∉ sim.deleted ++ [u]
        simp only [List.mem_append, List.mem_singleton, not_or]
        exact ⟨hd, fun e => hut e.symm⟩
    · rw [if_neg hc]
      refine ⟨⟨⟨h1, ?_, ?_, h4⟩, Nat.le_refl _, fun _ ht => ht, ?_⟩, rfl, hd⟩
      · intro t ht
        rcases hsub t ht with e | htt
        · rw [e]; exact hd
        · exact h2 t htt
      · intro t ht
        show t < sim.heap.length
        rcases hsub t ht with e | htt
        · rw [e]; exact hb
        · exact h3 t htt
      · intro t ht hn
        exact absurd (hgone t ht hn).2 hc

theorem follows_replaceAll (tool : Nat) :
    ∀ (ps : List Nat) (sim : ProblemSetup), Sound sim → tool ∉ sim.deleted →
      tool < sim.heap.length → ps.Nodup →
      (∀ p ∈ ps, ∀ u, sim.tools[p]? = some u → u ≠ tool) →
      Follows sim (replaceAll sim ps tool) ∧ (replaceAll sim ps tool).heap = sim.heap
  | [], sim, hs, _, _, _, _ => ⟨Follows.refl hs, rfl⟩
  | p :: ps, sim, hs, hd, hb, hnd, hne => by
    obtain ⟨h1, h2, h3⟩ := follows_replaceSlot tool sim p hs hd hb
      (hne p (List.mem_cons_self _ _))
    have hnd1 := List.nodup_cons.1 hnd
    obtain ⟨ih1, ih2⟩ := follows_replaceAll tool ps (replaceSlot tool sim p) h1.1 h3
      (by rw [h2]; exact hb) hnd1.2 (by
        intro q hq u hu
        have hqp : q ≠ p := fun e => hnd1.1 (e ▸ hq)
        rw [tools_replaceSlot, getElem?_dequeSet_ne _ _ _ _ hqp] at hu
        exact hne q (List.mem_cons_of_mem _ hq) u hu)
    exact ⟨h1.chain ih1, ih2.trans h2⟩

theorem le_of_mem_scanPlaces (sim : ProblemSetup) (test : String → Bool) (ts : List Nat)
    (k i : Nat) (h : i ∈ scanPlaces sim test ts k) : k ≤ i := by
  obtain ⟨j, t, h1, -, -⟩ := (mem_scanPlaces sim test ts k i).1 h
  omega

theorem nodup_scanPlaces (sim : ProblemSetup) (test : String → Bool) :
    ∀ (ts : List Nat) (k : Nat), (scanPlaces sim test ts k).Nodup
  | [], _ => List.nodup_nil
  | t :: ts, k => by
    have ih := nodup_scanPlaces sim test ts (k + 1)
    simp only [scanPlaces]
    split
    · rw [List.nodup_cons]
      refine ⟨fun h => ?_, ih⟩
      have := le_of_mem_scanPlaces sim test ts (k + 1) k h
      omega
    · exact ih

end InputOutput

end Aqua

namespace Aqua

namespace InputOutput

theorem follows_delete (sim : ProblemSetup) (tool : Nat) (hs : Sound sim)
    (ht : tool ∉ sim.tools) (hd : tool ∉ sim.deleted) (hb : tool < sim.heap.length) :
    Follows sim (sim.delete tool) := by
  obtain ⟨h1, h2, h3, h4⟩ := hs
  refine ⟨⟨?_, ?_, h3, ?_⟩, Nat.le_refl _, ?_, fun t ht hn => absurd ht hn⟩
  · show (sim.deleted ++ [tool]).Nodup
    rw [List.nodup_append]
    refine ⟨h1, List.nodup_singleton _, ?_⟩
    intro a ha hb
    rw [List.mem_singleton] at hb
    subst hb
    exact hd ha
  · intro t htt
    show t ∉ sim.deleted ++ [tool]
    simp only [List.mem_append, List.mem_singleton, not_or]
    exact ⟨h2 t htt, fun e => ht (e ▸ htt)⟩
  · intro t htt
    show t < sim.heap.length
    rcases List.mem_append.1 htt with htt | htt
    · exact h4 t htt
    · rw [List.mem_singleton] at htt
      subst htt
      exact hb
  · intro t htt
    exact List.mem_append_left _ htt

theorem mem_insertAll (tool : Nat) (ts : List Nat) :
    ∀ (ps : List Nat) (t : Nat), t ∈ insertAll ts ps tool → t = tool ∨ t ∈ ts
  | [], t, h => Or.inr h
  | p :: ps, t, h => by
    rcases mem_dequeInsert tool _ p t h with h | h
    · exact Or.inl h
    · exact mem_insertAll tool ts ps t h

theorem mem_insertAll_of_mem (tool : Nat) (ts : List Nat) :
    ∀ (ps : List Nat) (t : Nat), t ∈ ts → t ∈ insertAll ts ps tool
  | [], _, h => h
  | p :: ps, t, h => mem_dequeInsert_of_mem tool _ p t (mem_insertAll_of_mem tool ts ps t h)

/-- A state whose pipeline holds the former tools, and possibly the fresh tool. -/
theorem follows_of_tools (sim : ProblemSetup) (tool : Nat) (ts : List Nat) (hs : Sound sim)
    (hd : tool ∉ sim.deleted) (hb : tool < sim.heap.length)
    (h1 : ∀ t ∈ ts, t = tool ∨ t ∈ sim.tools) (h2 : ∀ t ∈ sim.tools, t ∈ ts) :
    Follows sim { sim with tools := ts } := by
  obtain ⟨s1, s2, s3, s4⟩ := hs
  refine ⟨⟨s1, ?_, ?_, s4⟩, Nat.le_refl _, fun _ h => h, fun t ht hn => absurd (h2 t ht) hn⟩
  · intro t ht
    rcases h1 t ht with e | h
    · rw [e]; exact hd
    · exact s2 t h
  · intro t ht
    show t < sim.heap.length
    rcases h1 t ht with e | h
    · rw [e]; exact hb
    · exact s3 t h

theorem follows_insertAll (sim : ProblemSetup) (tool : Nat) (ps : List Nat) (hs : Sound sim)
    (hd : tool ∉ sim.deleted) (hb : tool < sim.heap.length) :
    Follows sim { sim with tools := insertAll sim.tools ps tool } :=
  follows_of_tools sim tool _ hs hd hb (mem_insertAll tool _ ps)
    (mem_insertAll_of_mem tool _ ps)

theorem follows_notFound (sim : ProblemSetup) (tool : Nat) (b : Bool) (hs : Sound sim)
    (ht : tool ∉ sim.tools) (hd : tool ∉ sim.deleted) (hb : tool < sim.heap.length)
    (s2 : ProblemSetup) (h : (notFound sim tool b).state? = some s2) : Follows sim s2 := by
  cases b <;> simp only [notFound, Flow.state?, Option.some.injEq, Bool.false_eq_true,
    if_false, if_true] at h <;> subst h <;> exact follows_delete sim tool hs ht hd hb

theorem follows_insertFound (sim : ProblemSetup) (tool : Nat) (b : Bool)
    (r : Option (List Nat)) (hs : Sound sim)
    (ht : tool ∉ sim.tools) (hd : tool ∉ sim.deleted) (hb : tool < sim.heap.length)
    (s2 : ProblemSetup) (h : (insertFound sim tool b r).state? = some s2) : Follows sim s2 := by
  cases r with
  | none => exact follows_notFound sim tool b hs ht hd hb s2 h
  | some ps =>
    simp only [insertFound, Flow.state?, Option.some.injEq] at h
    subst h
    exact follows_insertAll sim tool ps hs hd hb

theorem follows_placeInsert (env : Env) (pfx : String) (sim : ProblemSetup) (e : DOMElement)
    (tool : Nat) (hs : Sound sim)
    (ht : tool ∉ sim.tools) (hd : tool ∉ sim.deleted) (hb : tool < sim.heap.length)
    (s2 : ProblemSetup) (h : (placeInsert env pfx sim e tool).state? = some s2) :
    Follows sim s2 := by
  unfold placeInsert at h
  by_cases h0 : xmlHasAttribute e "at" = true
  · rw [if_pos h0] at h
    cases hz : env.stoi (xmlAttribute e "at") with
    | none => rw [hz] at h; exact Option.noConfusion h
    | some z =>
      rw [hz] at h
      simp only [] at h
      by_cases hr : 0 ≤ z ∧ z.toNat ≤ sim.tools.length
      · rw [if_pos hr] at h
        simp only [Flow.state?, Option.some.injEq] at h
        subst h
        exact follows_insertAll sim tool _ hs hd hb
      · rw [if_neg hr] at h
        exact Option.noConfusion h
  rw [if_neg h0] at h
  by_cases h1 : xmlHasAttribute e "before" = true
  · rw [if_pos h1] at h; exact follows_insertFound sim tool _ _ hs ht hd hb s2 h
  rw [if_neg h1] at h
  by_cases h2 : xmlHasAttribute e "after" = true
  · rw [if_pos h2] at h; exact follows_insertFound sim tool _ _ hs ht hd hb s2 h
  rw [if_neg h2] at h
  by_cases h3 : xmlHasAttribute e "before_prefix" = true
  · rw [if_pos h3] at h; exact follows_insertFound sim tool _ _ hs ht hd hb s2 h
  rw [if_neg h3] at h
  by_cases h4 : xmlHasAttribute e "after_prefix" = true
  · rw [if_pos h4] at h; exact follows_insertFound sim tool _ _ hs ht hd hb s2 h
  rw [if_neg h4] at h
  simp only [Flow.state?, Option.some.injEq] at h
  subst h
  exact Follows.refl hs

theorem follows_placeRemove (env : Env) (pfx : String) (sim : ProblemSetup) (e : DOMElement)
    (tool : Nat) (hs : Sound sim)
    (ht : tool ∉ sim.tools) (hd : tool ∉ sim.deleted) (hb : tool < sim.heap.length)
    (s2 : ProblemSetup) (h : (placeRemove env pfx sim e tool).state? = some s2) :
    Follows sim s2 := by
  unfold placeRemove at h
  simp only [] at h
  split at h
  · exact follows_notFound sim tool _ hs ht hd hb s2 h
  · simp only [Flow.state?, Option.some.injEq] at h
    subst h
    have h1 := follows_delete sim tool hs ht hd hb
    exact h1.chain (follows_removeAll _ h1.1 _).1

theorem follows_placeReplace (env : Env) (pfx : String) (sim : ProblemSetup) (e : DOMElement)
    (tool : Nat) (hs : Sound sim)
    (ht : tool ∉ sim.tools) (hd : tool ∉ sim.deleted) (hb : tool < sim.heap.length)
    (s2 : ProblemSetup) (h : (placeReplace env pfx sim e tool).state? = some s2) :
    Follows sim s2 := by
  unfold placeReplace at h
  simp only [] at h
  split at h
  · exact follows_notFound sim tool _ hs ht hd hb s2 h
  · simp only [Flow.state?, Option.some.injEq] at h
    subst h
    refine (follows_replaceAll tool _ sim hs hd hb (nodup_scanPlaces _ _ _ _) ?_).1
    intro p hp u hu e
    exact ht (e ▸ List.getElem?_mem hu)

end InputOutput

end Aqua

namespace Aqua

namespace InputOutput

theorem follows_placeTool (env : Env) (pfx : String) (sim : ProblemSetup) (e : DOMElement)
    (tool : Nat) (hs : Sound sim)
    (ht : tool ∉ sim.tools) (hd : tool ∉ sim.deleted) (hb : tool < sim.heap.length)
    (s2 : ProblemSetup) (h : (placeTool env pfx sim e tool).state? = some s2) :
    Follows sim s2 := by
  unfold placeTool at h
  split at h
  · simp only [Flow.state?, Option.some.injEq] at h
    subst h
    refine follows_of_tools sim tool _ hs hd hb ?_ ?_
    · intro t htt
      rcases List.mem_append.1 htt with htt | htt
      · exact Or.inr htt
      · exact Or.inl (List.mem_singleton.1 htt)
    · intro t htt
      exact List.mem_append_left _ htt
  split at h
  · exact follows_placeInsert env pfx sim e tool hs ht hd hb s2 h
  split at h
  · exact follows_placeRemove env pfx sim e tool hs ht hd hb s2 h
  split at h
  · exact follows_placeReplace env pfx sim e tool hs ht hd hb s2 h
  · simp only [Flow.state?, Option.some.injEq] at h
    subst h
    exact Follows.refl hs

theorem follows_sameSlots (sim sim1 : ProblemSetup) (hs : Sound sim) (h : SameSlots sim sim1) :
    Follows sim sim1 := by
  obtain ⟨s1, s2, s3, s4⟩ := hs
  obtain ⟨h1, h2, h3⟩ := h
  refine ⟨⟨?_, ?_, ?_, ?_⟩, Nat.le_of_eq h3.symm, ?_, ?_⟩
  · rw [h2]; exact s1
  · rw [h1, h2]; exact s2
  · rw [h1, h3]; exact s3
  · rw [h2, h3]; exact s4
  · rw [h2]; exact fun _ h => h
  · rw [h1]; exact fun t ht hn => absurd ht hn

theorem follows_namedTool (pfx : String) (sim : ProblemSetup) (e : DOMElement)
    (hs : Sound sim) : Follows sim (namedTool pfx sim e) := by
  obtain ⟨s1, s2, s3, s4⟩ := hs
  refine ⟨⟨s1, s2, ?_, ?_⟩, ?_, fun _ h => h, fun t ht hn => absurd ht hn⟩
  · intro t ht
    rw [length_heap_namedTool]
    exact Nat.lt_succ_of_lt (s3 t ht)
  · intro t ht
    rw [length_heap_namedTool]
    exact Nat.lt_succ_of_lt (s4 t ht)
  · rw [length_heap_namedTool]; exact Nat.le_succ _

theorem follows_parseTool (env : Env) (pfx : String) (sim : ProblemSetup) (e : DOMElement)
    (hs : Sound sim) (s2 : ProblemSetup) (h : (parseTool env pfx sim e).state? = some s2) :
    Follows sim s2 := by
  have hn := follows_namedTool pfx sim e hs
  have ht : sim.heap.length ∉ (namedTool pfx sim e).tools :=
    fun hm => Nat.lt_irrefl _ (hs.2.2.1 _ hm)
  have hd : sim.heap.length ∉ (namedTool pfx sim e).deleted :=
    fun hm => Nat.lt_irrefl _ (hs.2.2.2 _ hm)
  have hb : sim.heap.length < (namedTool pfx sim e).heap.length := by
    rw [length_heap_namedTool]; exact Nat.lt_succ_self _
  unfold parseTool at h
  split at h
  · simp only [Res.state?, Option.some.injEq] at h
    subst h
    exact Follows.refl hs
  split at h
  · simp only [Res.state?, Option.some.injEq] at h
    subst h
    exact Follows.refl hs
  simp only [] at h
  split at h
  · simp only [Res.state?, Option.some.injEq] at h
    subst h
    exact hn.chain (follows_delete _ _ hn.1 ht hd hb)
  · cases hp : placeTool env pfx (namedTool pfx sim e) e sim.newTool.1 with
    | next s3 =>
      rw [hp] at h
      simp only [] at h
      have h3 := follows_placeTool env pfx _ e _ hn.1 ht hd hb s3 (by show (placeTool env pfx (namedTool pfx sim e) e sim.newTool.1).state? = _; rw [hp]; rfl)
      obtain ⟨s4, h4, h5⟩ := configureTool_sameSlots s3 e sim.newTool.1
      rw [h4, Option.some.injEq] at h
      subst h
      exact hn.chain (h3.chain (follows_sameSlots _ _ h3.1 h5))
    | cont s3 =>
      rw [hp] at h
      simp only [Res.state?, Option.some.injEq] at h
      subst h
      exact hn.chain (follows_placeTool env pfx _ e _ hn.1 ht hd hb _
        (by show (placeTool env pfx (namedTool pfx sim e) e sim.newTool.1).state? = _; rw [hp]; rfl))
    | ret s3 =>
      rw [hp] at h
      simp only [Res.state?, Option.some.injEq] at h
      subst h
      exact hn.chain (follows_placeTool env pfx _ e _ hn.1 ht hd hb _
        (by show (placeTool env pfx (namedTool pfx sim e) e sim.newTool.1).state? = _; rw [hp]; rfl))
    | undef =>
      rw [hp] at h
      exact Option.noConfusion h

theorem follows_parseToolElems (env : Env) (pfx : String) :
    ∀ (es : List DOMElement) (sim : ProblemSetup), Sound sim →
      ∀ s2, (parseToolElems env pfx sim es).state? = some s2 → Follows sim s2
  | [], sim, hs, s2, h => by
    simp only [parseToolElems, Res.state?, Option.some.injEq] at h
    subst h
    exact Follows.refl hs
  | e :: es, sim, hs, s2, h => by
    simp only [parseToolElems] at h
    cases hp : parseTool env pfx sim e with
    | ok s1 =>
      rw [hp] at h
      simp only [] at h
      have h1 := follows_parseTool env pfx sim e hs s1 (by rw [hp]; rfl)
      exact h1.chain (follows_parseToolElems env pfx es s1 h1.1 s2 h)
    | err s1 =>
      rw [hp] at h
      exact follows_parseTool env pfx sim e hs s2 (by rw [hp]; exact h)
    | undef =>
      rw [hp] at h
      exact Option.noConfusion h

theorem follows_parseToolSections (env : Env) (pfx : String) :
    ∀ (root : List (List DOMElement)) (sim : ProblemSetup), Sound sim →
      ∀ s2, (parseToolSections env pfx sim root).state? = some s2 → Follows sim s2
  | [], sim, hs, s2, h => by
    simp only [parseToolSections, Res.state?, Option.some.injEq] at h
    subst h
    exact Follows.refl hs
  | es :: root, sim, hs, s2, h => by
    simp only [parseToolSections] at h
    cases hp : parseToolElems env pfx sim es with
    | ok s1 =>
      rw [hp] at h
      simp only [] at h
      have h1 := follows_parseToolElems env pfx es sim hs s1 (by rw [hp]; rfl)
      exact h1.chain (follows_parseToolSections env pfx root s1 h1.1 s2 h)
    | err s1 =>
      rw [hp] at h
      exact follows_parseToolElems env pfx es sim hs s2 (by rw [hp]; exact h)
    | undef =>
      rw [hp] at h
      exact Option.noConfusion h

end InputOutput

end Aqua

namespace Aqua

namespace InputOutput

/-! ## Theorems on the separator pass -/

theorem length_separatorLoop : ∀ (cs : List Char) (d : Int),
    (separatorLoop cs d).length = cs.length
  | [], _ => rfl
  | c :: cs, d => by
    simp only [separatorLoop]
    split_ifs <;> simp [length_separatorLoop cs]

theorem depthAt_zero (text : List Char) : depthAt text 0 = 0 := by
  simp [depthAt]

theorem depthAt_cons_succ (c : Char) (cs : List Char) (i : Nat) :
    depthAt (c :: cs) (i + 1) =
      (if c = '(' then 1 else if c = ')' then -1 else 0) + depthAt cs i := by
  simp only [depthAt, List.take_succ_cons, List.count_cons, beq_iff_eq]
  by_cases h1 : c = '('
  · subst h1
    simp
    omega
  · by_cases h2 : c = ')'
    · subst h2
      simp
      omega
    · simp [h1, h2]

theorem getElem?_separatorLoop : ∀ (cs : List Char) (d : Int) (i : Nat) (c : Char),
    cs[i]? = some c →
    (separatorLoop cs d)[i]? =
      some (if c = ',' ∧ ¬ (d + depthAt cs i > 0) then ';' else c)
  | [], _, _, _, h => by simp at h
  | a :: cs, d, 0, c, h => by
    simp only [List.getElem?_cons_zero, Option.some.injEq] at h
    subst h
    simp only [separatorLoop, depthAt_zero, add_zero]
    by_cases h1 : a = '('
    · subst h1; simp
    by_cases h2 : a = ')'
    · subst h2; simp
    by_cases h3 : a = ','
    · subst h3
      by_cases hd : d > 0 <;> simp [hd]
    · simp [h1, h2, h3]
  | a :: cs, d, i + 1, c, h => by
    simp only [List.getElem?_cons_succ] at h
    rw [depthAt_cons_succ]
    simp only [separatorLoop]
    by_cases h1 : a = '('
    · have ih := getElem?_separatorLoop cs (d + 1) i c h
      rw [if_pos h1, if_pos h1, List.getElem?_cons_succ, ih, add_assoc]
    rw [if_neg h1, if_neg h1]
    by_cases h2 : a = ')'
    · have ih := getElem?_separatorLoop cs (d - 1) i c h
      have e : d - 1 + depthAt cs i = d + (-1 + depthAt cs i) := by omega
      rw [if_pos h2, if_pos h2, List.getElem?_cons_succ, ih, e]
    rw [if_neg h2, if_neg h2, zero_add]
    have ih := getElem?_separatorLoop cs d i c h
    by_cases h3 : a = ','
    · rw [if_pos h3]
      by_cases hd : d > 0
      · rw [if_pos hd, List.getElem?_cons_succ, ih]
      · rw [if_neg hd, List.getElem?_cons_succ, ih]
    · rw [if_neg h3, List.getElem?_cons_succ, ih]

end InputOutput

end Aqua

namespace Aqua

namespace InputOutput

/-! ## Theorems on the reading of the components -/

theorem consHead_ne_nil (c : Char) (l : List (List Char)) : consHead c l ≠ [] := by
  cases l <;> simp [consHead]

theorem splitSemi_ne_nil : ∀ r : List Char, splitSemi r ≠ []
  | [] => by simp [splitSemi]
  | c :: cs => by
    simp only [splitSemi]
    split
    · simp
    · exact consHead_ne_nil _ _

theorem splitTop_ne_nil : ∀ (cs : List Char) (d : Int), splitTop cs d ≠ []
  | [], _ => by simp [splitTop]
  | c :: cs, d => by
    simp only [splitTop]
    split_ifs
    · exact consHead_ne_nil _ _
    · exact consHead_ne_nil _ _
    · simp
    · exact consHead_ne_nil _ _

theorem splitSemi_separatorLoop : ∀ (cs : List Char) (d : Int), ';' ∉ cs →
    splitSemi (separatorLoop cs d) = splitTop cs d
  | [], _, _ => rfl
  | c :: cs, d, h => by
    have hc : c ≠ ';' := fun e => h (e ▸ List.mem_cons_self _ _)
    have hcs : ';' ∉ cs := fun hm => h (List.mem_cons_of_mem _ hm)
    simp only [separatorLoop, splitTop]
    by_cases h1 : c = '('
    · rw [if_pos h1, if_pos h1, splitSemi, if_neg hc, splitSemi_separatorLoop cs _ hcs]
    rw [if_neg h1, if_neg h1]
    by_cases h2 : c = ')'
    · rw [if_pos h2, if_pos h2, splitSemi, if_neg hc, splitSemi_separatorLoop cs _ hcs]
    rw [if_neg h2, if_neg h2]
    by_cases h3 : c = ','
    · rw [if_pos h3]
      by_cases hd : d > 0
      · rw [if_pos hd, if_neg (by omega : ¬ (c = ',' ∧ d ≤ 0)), splitSemi, if_neg hc,
          splitSemi_separatorLoop cs _ hcs]
      · rw [if_neg hd, if_pos (⟨h3, by omega⟩ : c = ',' ∧ d ≤ 0), splitSemi, if_pos rfl,
          splitSemi_separatorLoop cs _ hcs]
    · rw [if_neg h3, if_neg (fun hh : c = ',' ∧ d ≤ 0 => h3 hh.1), splitSemi, if_neg hc,
        splitSemi_separatorLoop cs _ hcs]

theorem splitSemi_cons_spec : ∀ (r s : List Char) (ss : List (List Char)),
    splitSemi r = s :: ss →
    truncateAt ';' r = s ∧ (ss = [] → r.contains ';' = false) ∧
      (ss ≠ [] → r.contains ';' = true ∧ splitSemi (afterFirst ';' r) = ss)
  | [], s, ss, h => by
    simp only [splitSemi, List.cons.injEq] at h
    obtain ⟨rfl, rfl⟩ := h
    simp [truncateAt]
  | c :: cs, s, ss, h => by
    simp only [splitSemi] at h
    by_cases hc : c = ';'
    · rw [if_pos hc] at h
      simp only [List.cons.injEq] at h
      obtain ⟨rfl, rfl⟩ := h
      subst hc
      refine ⟨by simp [truncateAt], fun e => absurd e (splitSemi_ne_nil cs), fun _ => ?_⟩
      simp [afterFirst]
    · rw [if_neg hc] at h
      cases hs : splitSemi cs with
      | nil => exact absurd hs (splitSemi_ne_nil cs)
      | cons s1 ss1 =>
        rw [hs] at h
        simp only [consHead, List.cons.injEq] at h
        obtain ⟨rfl, rfl⟩ := h
        obtain ⟨h1, h2, h3⟩ := splitSemi_cons_spec cs s1 ss1 hs
        have hne : (c != ';') = true := by simpa using hc
        have hcont : (c :: cs).contains ';' = cs.contains ';' := by
          have : ¬ (';' : Char) = c := fun e => hc e.symm
          simp [List.contains_cons, this]
        refine ⟨?_, ?_, ?_⟩
        · simp only [truncateAt, List.takeWhile_cons, hne, if_true] at h1 ⊢
          rw [h1]
        · intro e; rw [hcont]; exact h2 e
        · intro e
          rw [hcont]
          refine ⟨(h3 e).1, ?_⟩
          simp only [afterFirst, List.dropWhile_cons, hne, if_true]
          exact (h3 e).2

end InputOutput

end Aqua

namespace Aqua

namespace InputOutput

theorem extensions_getElem? (i : Nat) (h : i ≤ 3) :
    extensions[i]? = some (extensions.getD i "") := by
  interval_cases i <;> rfl

theorem readLoop_evalSegments {T V : Type} (tk : Tokenizer T V) (name : String) (n : Nat)
    (hn : n ≤ 4) :
    ∀ (k i : Nat) (tok : T) (r : List Char) (v : List V) (segs : List (List Char))
      (tok1 : T) (vs : List V),
      splitSemi r = segs → k + 1 ≤ segs.length → i + k + 1 = n →
      evalSegments tk name n ((segs.take (k + 1)).map String.mk) i tok = some (tok1, vs) →
      readLast tk name n (readLoop tk name k i tok r v) = Res.ok (tok1, v ++ vs)
  | 0, i, tok, r, v, segs, tok1, vs, hr, hlen, hi, hev => by
    match segs, hlen with
    | s :: ss, _ =>
      obtain ⟨h1, -, -⟩ := splitSemi_cons_spec r s ss hr
      simp only [readLoop, readLast, h1]
      simp only [List.take_succ_cons, List.take_zero, List.map, evalSegments] at hev
      cases hsol : tk.solve tok (String.mk s) with
      | mk val e =>
        rw [hsol] at hev
        cases e with
        | true => exact Option.noConfusion hev
        | false =>
          simp only [Option.some.injEq, Prod.mk.injEq] at hev
          obtain ⟨rfl, rfl⟩ := hev
          simp only []
          by_cases hn1 : n = 1
          · rw [if_neg (not_not.2 hn1), compName, if_pos hn1]
          · have hidx : (n + 2 ^ 32 - 1) % 2 ^ 32 = i := by omega
            rw [if_pos hn1, hidx, extensions_getElem? i (by omega), compName, if_neg hn1]
  | k + 1, i, tok, r, v, segs, tok1, vs, hr, hlen, hi, hev => by
    match segs, hlen with
    | s :: ss, hlen =>
      have hss : ss ≠ [] := by
        intro e; rw [e] at hlen; simp at hlen
      obtain ⟨h1, -, h3⟩ := splitSemi_cons_spec r s ss hr
      obtain ⟨hc, hrest⟩ := h3 hss
      simp only [List.take_succ_cons, List.map, evalSegments] at hev
      simp only [readLoop, hc, Bool.not_true, Bool.false_eq_true, if_false, h1]
      cases hsol : tk.solve tok (String.mk s) with
      | mk val e =>
        rw [hsol] at hev
        cases e with
        | true => exact Option.noConfusion hev
        | false =>
          simp only [] at hev ⊢
          have hn1 : n ≠ 1 := by omega
          rw [extensions_getElem? i (by omega)]
          simp only []
          cases hrec : evalSegments tk name n (List.map String.mk (ss.take (k + 1))) (i + 1)
              (tk.registerVariable tok (compName name n i) val) with
          | none => rw [hrec] at hev; exact Option.noConfusion hev
          | some p =>
            obtain ⟨t2, vs2⟩ := p
            rw [hrec] at hev
            simp only [Option.some.injEq, Prod.mk.injEq] at hev
            obtain ⟨rfl, rfl⟩ := hev
            have hname : compName name n i = name ++ extensions.getD i "" := by
              rw [compName, if_neg hn1]
            rw [hname] at hrec
            have ih := readLoop_evalSegments tk name n hn k (i + 1)
              (tk.registerVariable tok (name ++ extensions.getD i "") val)
              (afterFirst ';' r) (v ++ [val]) ss t2 vs2 hrest
              (by simpa using hlen) (by omega) hrec
            rw [ih, List.append_assoc]
            rfl

/-- With less segments than the loop and the last reading ask for, an error is reported. -/
theorem readLoop_too_few {T V : Type} (tk : Tokenizer T V) (name : String) :
    ∀ (k i : Nat) (tok : T) (r : List Char) (v : List V),
      (splitSemi r).length ≤ k → i + k ≤ 4 →
      ∃ st, readLoop tk name k i tok r v = Res.err st
  | 0, i, tok, r, v, hlen, _ => by
    have := splitSemi_ne_nil r
    cases hs : splitSemi r with
    | nil => exact absurd hs this
    | cons s ss => rw [hs] at hlen; simp at hlen
  | k + 1, i, tok, r, v, hlen, hi => by
    cases hs : splitSemi r with
    | nil => exact absurd hs (splitSemi_ne_nil r)
    | cons s ss =>
      obtain ⟨h1, h2, h3⟩ := splitSemi_cons_spec r s ss hs
      by_cases hss : ss = []
      · simp only [readLoop, h2 hss, Bool.not_false, if_true]
        exact ⟨_, rfl⟩
      · obtain ⟨hc, hrest⟩ := h3 hss
        simp only [readLoop, hc, Bool.not_true, Bool.false_eq_true, if_false]
        cases hsol : tk.solve tok (String.mk (truncateAt ';' r)) with
        | mk val e =>
          cases e with
          | true => exact ⟨_, rfl⟩
          | false =>
            simp only []
            rw [extensions_getElem? i (by omega)]
            simp only []
            apply readLoop_too_few tk name k (i + 1)
            · rw [hrest]; rw [hs] at hlen; simpa using hlen
            · omega

end InputOutput

end Aqua

namespace Aqua

namespace InputOutput

theorem mem_consHead (c x : Char) (l : List (List Char)) (s : List Char)
    (hs : s ∈ l) (hx : x ∈ s) : ∃ s1 ∈ consHead c l, x ∈ s1 := by
  cases l with
  | nil => simp at hs
  | cons a l =>
    rcases List.mem_cons.1 hs with rfl | h
    · exact ⟨c :: s, by simp [consHead], List.mem_cons_of_mem _ hx⟩
    · exact ⟨s, by simp [consHead, h], hx⟩

theorem mem_consHead_self (c : Char) (l : List (List Char)) :
    ∃ s1 ∈ consHead c l, c ∈ s1 := by
  cases l with
  | nil => exact ⟨[c], by simp [consHead], by simp⟩
  | cons a l => exact ⟨c :: a, by simp [consHead], by simp⟩

theorem mem_splitTop (x : Char) (hx : x ≠ ',') : ∀ (cs : List Char) (d : Int),
    x ∈ cs → ∃ s ∈ splitTop cs d, x ∈ s
  | [], _, h => by simp at h
  | c :: cs, d, h => by
    have step : ∀ d1, (∃ s ∈ consHead c (splitTop cs d1), x ∈ s) := by
      intro d1
      rcases List.mem_cons.1 h with rfl | h
      · exact mem_consHead_self _ _
      · obtain ⟨s, hs, hxs⟩ := mem_splitTop x hx cs d1 h
        exact mem_consHead c x _ s hs hxs
    simp only [splitTop]
    by_cases h1 : c = '('
    · rw [if_pos h1]; exact step _
    rw [if_neg h1]
    by_cases h2 : c = ')'
    · rw [if_pos h2]; exact step _
    rw [if_neg h2]
    by_cases h3 : c = ',' ∧ d ≤ 0
    · rw [if_pos h3]
      rcases List.mem_cons.1 h with rfl | h
      · exact absurd h3.1.symm (fun e => hx e.symm)
      · obtain ⟨s, hs, hxs⟩ := mem_splitTop x hx cs d h
        exact ⟨s, List.mem_cons_of_mem _ hs, hxs⟩
    · rw [if_neg h3]; exact step _

theorem evalSegments_solved {T V : Type} (tk : Tokenizer T V) (name : String) (n : Nat) :
    ∀ (segs : List String) (i : Nat) (tok tok1 : T) (vs : List V),
      evalSegments tk name n segs i tok = some (tok1, vs) →
      vs.length = segs.length ∧
      ∀ (j : Nat) (s : String), segs[j]? = some s →
        ∃ t x, tk.solve t s = (x, false) ∧ vs[j]? = some x
  | [], _, _, _, _, h => by
    simp only [evalSegments, Option.some.injEq, Prod.mk.injEq] at h
    obtain ⟨-, rfl⟩ := h
    exact ⟨rfl, fun j s hj => by simp at hj⟩
  | s0 :: ss, i, tok, tok1, vs, h => by
    simp only [evalSegments] at h
    cases hsol : tk.solve tok s0 with
    | mk val e =>
      rw [hsol] at h
      cases e with
      | true => exact Option.noConfusion h
      | false =>
        simp only [] at h
        cases hrec : evalSegments tk name n ss (i + 1)
            (tk.registerVariable tok (compName name n i) val) with
        | none => rw [hrec] at h; exact Option.noConfusion h
        | some p =>
          obtain ⟨t2, vs2⟩ := p
          rw [hrec] at h
          simp only [Option.some.injEq, Prod.mk.injEq] at h
          obtain ⟨rfl, rfl⟩ := h
          obtain ⟨ih1, ih2⟩ := evalSegments_solved tk name n ss (i + 1) _ _ _ hrec
          refine ⟨by simp [ih1], ?_⟩
          intro j s hj
          cases j with
          | zero =>
            simp only [List.getElem?_cons_zero, Option.some.injEq] at hj
            subst hj
            exact ⟨tok, val, hsol, by simp⟩
          | succ j =>
            simp only [List.getElem?_cons_succ] at hj ⊢
            exact ih2 j s hj

end InputOutput

end Aqua

namespace Aqua

namespace InputOutput

theorem litTokenizer_semicolon (t : List (String × Int)) (expr : String)
    (h : ';' ∈ expr.toList) : (litTokenizer.solve t expr).2 = true := by
  have h1 : ¬ (expr.toList ≠ [] ∧ expr.toList.all Char.isDigit = true) := by
    rintro ⟨-, hall⟩
    have := List.all_eq_true.1 hall ';' h
    exact absurd this (by decide)
  have h2 : ¬ (expr.toList.all (fun c => c.isAlphanum || c = '_') = true) := by
    intro hall
    have := List.all_eq_true.1 hall ';' h
    exact absurd this (by decide)
  have h3 : ¬ (expr.toList.head? = some '-' ∧ expr.toList.tail ≠ [] ∧
      expr.toList.tail.all Char.isDigit = true) := by
    rintro ⟨hh, ht, hall⟩
    cases hl : expr.toList with
    | nil => rw [hl] at ht; exact ht rfl
    | cons c cs =>
      rw [hl] at hh hall h
      simp only [List.head?_cons, Option.some.injEq] at hh
      subst hh
      rcases List.mem_cons.1 h with h0 | h0
      · exact absurd h0 (by decide)
      · have := List.all_eq_true.1 hall ';' h0
        exact absurd this (by decide)
  simp only [litTokenizer]
  rw [if_neg h1, if_neg h3, if_neg h2]

end InputOutput

end Aqua

namespace Aqua

namespace InputOutput

theorem typeToN_flagBuild (b : Build) (type : String) :
    typeToN b type = typeToN (flagBuild b.HAVE_3D) type := rfl

theorem typeToBytes_flagBuild (b : Build) (type : String) :
    typeToBytes b type = typeToBytes (flagBuild b.HAVE_3D) type := rfl

theorem solveCount_flagBuild (b : Build) (type : String) :
    solveCount b type = solveCount (flagBuild b.HAVE_3D) type := rfl

set_option maxRecDepth 100000 in
theorem solvedTypes_table : ∀ have3D : Bool, ∀ t ∈ solvedTypes,
    typeToBytes (flagBuild have3D) t ≠ 0 ∧
    solveCount (flagBuild have3D) (String.mk (truncateAt '*' t.toList)) =
      typeToN (flagBuild have3D) t ∧
    1 ≤ typeToN (flagBuild have3D) t ∧ typeToN (flagBuild have3D) t ≤ 4 := by
  decide

end InputOutput

end Aqua

namespace Aqua

namespace InputOutput

theorem solve_shape {T V : Type} (b : Build) (tk : Tokenizer T V) (fl : FloatOps V)
    (type_name value name : String) (tok : T) (hbytes : typeToBytes b type_name ≠ 0)
    (hvalue : (value == "") = false)
    (hcount : solveCount b (String.mk (truncateAt '*' type_name.toList)) ≠ 0) :
    ∃ mk, solve b tk fl type_name value name tok =
      solveComponents tk name value
        (solveCount b (String.mk (truncateAt '*' type_name.toList))) mk tok := by
  unfold solve
  rw [if_neg hbytes, hvalue, if_neg (by decide : ¬ (false = true))]
  unfold solveCount at hcount ⊢
  by_cases h0 : (String.mk (truncateAt '*' type_name.toList) == "int") = true
  · rw [if_pos h0, if_pos h0]; exact ⟨_, rfl⟩
  rw [if_neg h0] at hcount ⊢
  rw [if_neg h0]
  by_cases h1 : (String.mk (truncateAt '*' type_name.toList) == "unsigned int") = true
  · rw [if_pos h1, if_pos h1]; exact ⟨_, rfl⟩
  rw [if_neg h1] at hcount ⊢
  rw [if_neg h1]
  by_cases h2 : (String.mk (truncateAt '*' type_name.toList) == "float") = true
  · rw [if_pos h2, if_pos h2]; exact ⟨_, rfl⟩
  rw [if_neg h2] at hcount ⊢
  rw [if_neg h2]
  by_cases h3 : (String.mk (truncateAt '*' type_name.toList) == "vec") = true
  · rw [if_pos h3, if_pos h3]; exact ⟨_, rfl⟩
  rw [if_neg h3] at hcount ⊢
  rw [if_neg h3]
  by_cases h4 : (String.mk (truncateAt '*' type_name.toList) == "vec2") = true
  · rw [if_pos h4, if_pos h4]; exact ⟨_, rfl⟩
  rw [if_neg h4] at hcount ⊢
  rw [if_neg h4]
  by_cases h5 : (String.mk (truncateAt '*' type_name.toList) == "vec3") = true
  · rw [if_pos h5, if_pos h5]; exact ⟨_, rfl⟩
  rw [if_neg h5] at hcount ⊢
  rw [if_neg h5]
  by_cases h6 : (String.mk (truncateAt '*' type_name.toList) == "vec4") = true
  · rw [if_pos h6, if_pos h6]; exact ⟨_, rfl⟩
  rw [if_neg h6] at hcount ⊢
  rw [if_neg h6]
  by_cases h7 : (String.mk (truncateAt '*' type_name.toList) == "ivec") = true
  · rw [if_pos h7, if_pos h7]; exact ⟨_, rfl⟩
  rw [if_neg h7] at hcount ⊢
  rw [if_neg h7]
  by_cases h8 : (String.mk (truncateAt '*' type_name.toList) == "ivec2") = true
  · rw [if_pos h8, if_pos h8]; exact ⟨_, rfl⟩
  rw [if_neg h8] at hcount ⊢
  rw [if_neg h8]
  by_cases h9 : (String.mk (truncateAt '*' type_name.toList) == "ivec3") = true
  · rw [if_pos h9, if_pos h9]; exact ⟨_, rfl⟩
  rw [if_neg h9] at hcount ⊢
  rw [if_neg h9]
  by_cases h10 : (String.mk (truncateAt '*' type_name.toList) == "ivec4") = true
  · rw [if_pos h10, if_pos h10]; exact ⟨_, rfl⟩
  rw [if_neg h10] at hcount ⊢
  rw [if_neg h10]
  by_cases h11 : (String.mk (truncateAt '*' type_name.toList) == "uivec") = true
  · rw [if_pos h11, if_pos h11]; exact ⟨_, rfl⟩
  rw [if_neg h11] at hcount ⊢
  rw [if_neg h11]
  by_cases h12 : (String.mk (truncateAt '*' type_name.toList) == "uivec2") = true
  · rw [if_pos h12, if_pos h12]; exact ⟨_, rfl⟩
  rw [if_neg h12] at hcount ⊢
  rw [if_neg h12]
  by_cases h13 : (String.mk (truncateAt '*' type_name.toList) == "uivec3") = true
  · rw [if_pos h13, if_pos h13]; exact ⟨_, rfl⟩
  rw [if_neg h13] at hcount ⊢
  rw [if_neg h13]
  by_cases h14 : (String.mk (truncateAt '*' type_name.toList) == "uivec4") = true
  · rw [if_pos h14, if_pos h14]; exact ⟨_, rfl⟩
  rw [if_neg h14] at hcount ⊢
  rw [if_neg h14]
  exact absurd rfl hcount

end InputOutput

end Aqua

namespace Aqua

namespace InputOutput

theorem readComponents_too_few {T V : Type} (tk : Tokenizer T V) (name value : String)
    (n : Nat) (tok : T) (hn : 1 ≤ n ∧ n ≤ 4) (hsemi : ';' ∉ value.toList)
    (hfew : (topLevelSegments value).length < n) :
    ∃ st, readComponents tk name value n tok = Res.err st := by
  have hbound : (n + 2 ^ 32 - 1) % 2 ^ 32 = n - 1 := by omega
  have hsplit : splitSemi (separatorPass value) = splitTop value.toList 0 :=
    splitSemi_separatorLoop _ _ hsemi
  have hl : (splitTop value.toList 0).length < n := by
    simpa only [topLevelSegments, List.length_map] using hfew
  obtain ⟨st, hst⟩ := readLoop_too_few tk name (n - 1) 0 tok (separatorPass value) []
    (by rw [hsplit]; omega) (by omega)
  rw [readComponents, hbound, hst]
  obtain ⟨t1, r1, v1⟩ := st
  exact ⟨_, rfl⟩

theorem readComponents_first {T V : Type} (tk : Tokenizer T V) (name value : String)
    (n : Nat) (tok tok1 : T) (vs : List V) (hn : 1 ≤ n ∧ n ≤ 4) (hsemi : ';' ∉ value.toList)
    (hlen : n ≤ (topLevelSegments value).length)
    (heval : evalSegments tk name n ((topLevelSegments value).take n) 0 tok =
      some (tok1, vs)) :
    readComponents tk name value n tok = Res.ok (tok1, vs) := by
  have hbound : (n + 2 ^ 32 - 1) % 2 ^ 32 = n - 1 := by omega
  have hsplit : splitSemi (separatorPass value) = splitTop value.toList 0 :=
    splitSemi_separatorLoop _ _ hsemi
  have hl : n ≤ (splitTop value.toList 0).length := by
    simpa only [topLevelSegments, List.length_map] using hlen
  have hn1 : n - 1 + 1 = n := by omega
  have := readLoop_evalSegments tk name n hn.2 (n - 1) 0 tok (separatorPass value) []
    (splitTop value.toList 0) tok1 vs hsplit (by omega) (by omega)
    (by rw [hn1, List.map_take]; exact heval)
  rw [readComponents, hbound, this, List.nil_append]

end InputOutput

end Aqua

namespace Aqua

namespace InputOutput

theorem solve_empty {T V : Type} (b : Build) (tk : Tokenizer T V) (fl : FloatOps V)
    (type_name value name : String) (tok : T) (hbytes : typeToBytes b type_name ≠ 0)
    (hvalue : (value == "") = true) :
    solve b tk fl type_name value name tok = Res.err (tok, none) := by
  unfold solve
  rw [if_neg hbytes, hvalue, if_pos (rfl : true = true)]

end InputOutput

end Aqua

namespace Aqua

namespace InputOutput

theorem solveComponents_err {T V : Type} (tk : Tokenizer T V) (value name : String)
    (tok : T) (n : Nat) (mk : List V → Value V) (st : T × List V)
    (hst : readComponents tk name value n tok = Res.err st) :
    ∃ st1, solveComponents tk name value n mk tok = Res.err st1 := by
  rw [solveComponents, hst]
  exact ⟨_, rfl⟩

theorem solveComponents_ok {T V : Type} (tk : Tokenizer T V) (value name : String)
    (tok tok1 : T) (n : Nat) (mk : List V → Value V) (vs : List V)
    (hst : readComponents tk name value n tok = Res.ok (tok1, vs)) :
    ∃ x, solveComponents tk name value n mk tok = Res.ok (tok1, some x) := by
  rw [solveComponents, hst]
  exact ⟨mk vs, rfl⟩

end InputOutput

end Aqua
namespace Aqua

theorem dequeErase_eq_eraseIdx {α : Type} : ∀ (l : List α) (p : Nat),
    dequeErase l p = l.eraseIdx p
  | [], _ => rfl
  | _ :: _, 0 => rfl
  | a :: l, p + 1 => by simp [dequeErase, dequeErase_eq_eraseIdx l p]

namespace InputOutput

/-! ## Theorems on the registry -/

theorem eraseNamed_of_none {V : Type} (name : String) :
    ∀ (fuel i : Nat) (l : List (Variable V)), (∀ v ∈ l, v.name ≠ name) →
      Variables.eraseNamed name fuel i l = l
  | 0, _, _, _ => rfl
  | fuel + 1, i, l, h => by
    simp only [Variables.eraseNamed]
    cases hi : l[i]? with
    | none => rfl
    | some var =>
      have hne : (var.name == name) = false := by
        simpa using h var (List.getElem?_mem hi)
      simp only [hne, Bool.false_eq_true, if_false]
      exact eraseNamed_of_none name fuel (i + 1) l h

theorem eraseIdx_unique {V : Type} (name : String) (l : List (Variable V)) (i : Nat)
    (var : Variable V) (hnd : (l.map (fun v => v.name)).Nodup) (hi : l[i]? = some var)
    (hname : var.name = name) : ∀ v ∈ l.eraseIdx i, v.name ≠ name := by
  have hlt : i < l.length := by
    by_contra hge
    rw [List.getElem?_eq_none (by omega)] at hi
    exact Option.noConfusion hi
  have hsplit : l = l.take i ++ var :: l.drop (i + 1) := by
    have h1 : l[i]? = some l[i] := List.getElem?_eq_getElem hlt
    rw [hi, Option.some.injEq] at h1
    rw [h1]
    conv_lhs => rw [← List.take_append_drop i l]
    rw [List.drop_eq_getElem_cons hlt]
  rw [List.eraseIdx_eq_take_drop_succ]
  rw [hsplit, List.map_append, List.map_cons, List.nodup_append] at hnd
  obtain ⟨-, h2, h3⟩ := hnd
  rw [List.nodup_cons] at h2
  intro v hv hvn
  rcases List.mem_append.1 hv with hv | hv
  · exact h3 (List.mem_map_of_mem (fun v => v.name) hv)
      (by rw [hvn, ← hname]; exact List.mem_cons_self _ _)
  · apply h2.1
    rw [hname, ← hvn]
    exact List.mem_map_of_mem (fun v => v.name) hv

theorem eraseNamed_spec {V : Type} (name : String) :
    ∀ (fuel i : Nat) (l : List (Variable V)), (l.map (fun v => v.name)).Nodup →
      (∀ j v, j < i → l[j]? = some v → v.name ≠ name) → l.length ≤ i + fuel →
      (∀ v ∈ Variables.eraseNamed name fuel i l, v.name ≠ name) ∧
        (Variables.eraseNamed name fuel i l).Sublist l
  | 0, i, l, _, hbefore, hlen => by
    show (∀ v ∈ l, v.name ≠ name) ∧ l.Sublist l
    refine ⟨?_, List.Sublist.refl _⟩
    intro v hv
    obtain ⟨j, hj⟩ := List.mem_iff_getElem?.1 hv
    have hjl : j < l.length := by
      by_contra hge
      rw [List.getElem?_eq_none (by omega)] at hj
      exact Option.noConfusion hj
    exact hbefore j v (by omega) hj
  | fuel + 1, i, l, hnd, hbefore, hlen => by
    simp only [Variables.eraseNamed]
    cases hi : l[i]? with
    | none =>
      show (∀ v ∈ l, v.name ≠ name) ∧ l.Sublist l
      refine ⟨?_, List.Sublist.refl _⟩
      intro v hv
      obtain ⟨j, hj⟩ := List.mem_iff_getElem?.1 hv
      have hil : l.length ≤ i := by
        by_contra hlt
        rw [List.getElem?_eq_getElem (by omega)] at hi
        exact Option.noConfusion hi
      have hjl : j < l.length := by
        by_contra hge
        rw [List.getElem?_eq_none (by omega)] at hj
        exact Option.noConfusion hj
      exact hbefore j v (by omega) hj
    | some var =>
      simp only []
      by_cases hn : (var.name == name) = true
      · rw [if_pos hn]
        have hnone : ∀ v ∈ dequeErase l i, v.name ≠ name := by
          rw [dequeErase_eq_eraseIdx]
          exact eraseIdx_unique name l i var hnd hi (by simpa using hn)
        rw [eraseNamed_of_none name fuel (i + 1) _ hnone]
        refine ⟨hnone, ?_⟩
        rw [dequeErase_eq_eraseIdx]
        exact List.eraseIdx_sublist l i
      · rw [if_neg hn]
        apply eraseNamed_spec name fuel (i + 1) l hnd _ (by omega)
        intro j v hj hjv
        by_cases hji : j = i
        · subst hji
          rw [hi, Option.some.injEq] at hjv
          subst hjv
          simpa using hn
        · exact hbefore j v (by omega) hjv

end InputOutput

end Aqua

namespace Aqua

namespace InputOutput

theorem registers_push {T V : Type} (vars : Variables T V) (name type : String) (tok : T)
    (value : Value V) : Registers vars name (Res.ok (vars.push tok name type value)) :=
  Or.inr (Or.inl ⟨tok, type, value, rfl⟩)

theorem registerVector_registers {T V : Type} (tk : Tokenizer T V) (vars : Variables T V)
    (name type value : String) (n : Nat) (mk : List V → Value V) (dflt : Value V) :
    Registers vars name (Variables.registerVector tk vars name type value n mk dflt) := by
  unfold Variables.registerVector
  by_cases hv : (value != "") = true
  · rw [if_pos hv]
    cases hr : readComponents tk name value n vars.tok with
    | ok p => exact registers_push vars name type p.1 (mk p.2)
    | err p => exact Or.inl ⟨_, rfl, rfl, Nat.le_succ _⟩
    | undef => exact Or.inr (Or.inr rfl)
  · rw [if_neg hv]
    exact registers_push vars name type vars.tok dflt

theorem registerScalar_registers {T V : Type} (b : Build) (tk : Tokenizer T V)
    (fl : FloatOps V) (vars : Variables T V) (name type value : String) :
    Registers vars name (Variables.registerScalar b tk fl vars name type value) := by
  unfold Variables.registerScalar
  by_cases hint : (type == "int") = true
  · rw [if_pos hint]
    by_cases hv : (value != "") = true
    · rw [if_pos hv]; exact registers_push _ _ _ _ _
    · rw [if_neg hv]; exact registers_push _ _ _ _ _
  rw [if_neg hint]
  by_cases hunsignedint : (type == "unsigned int") = true
  · rw [if_pos hunsignedint]
    by_cases hv : (value != "") = true
    · rw [if_pos hv]; exact registers_push _ _ _ _ _
    · rw [if_neg hv]; exact registers_push _ _ _ _ _
  rw [if_neg hunsignedint]
  by_cases hfloat : (type == "float") = true
  · rw [if_pos hfloat]
    by_cases hv : (value != "") = true
    · rw [if_pos hv]; exact registers_push _ _ _ _ _
    · rw [if_neg hv]; exact registers_push _ _ _ _ _
  rw [if_neg hfloat]
  by_cases hvec : (type == "vec") = true
  · rw [if_pos hvec]; exact registerVector_registers _ _ _ _ _ _ _ _
  rw [if_neg hvec]
  by_cases hvec2 : (type == "vec2") = true
  · rw [if_pos hvec2]; exact registerVector_registers _ _ _ _ _ _ _ _
  rw [if_neg hvec2]
  by_cases hvec3 : (type == "vec3") = true
  · rw [if_pos hvec3]; exact registerVector_registers _ _ _ _ _ _ _ _
  rw [if_neg hvec3]
  by_cases hvec4 : (type == "vec4") = true
  · rw [if_pos hvec4]; exact registerVector_registers _ _ _ _ _ _ _ _
  rw [if_neg hvec4]
  by_cases hivec : (type == "ivec") = true
  · rw [if_pos hivec]; exact registerVector_registers _ _ _ _ _ _ _ _
  rw [if_neg hivec]
  by_cases hivec2 : (type == "ivec2") = true
  · rw [if_pos hivec2]; exact registerVector_registers _ _ _ _ _ _ _ _
  rw [if_neg hivec2]
  by_cases hivec3 : (type == "ivec3") = true
  · rw [if_pos hivec3]; exact registerVector_registers _ _ _ _ _ _ _ _
  rw [if_neg hivec3]
  by_cases hivec4 : (type == "ivec4") = true
  · rw [if_pos hivec4]; exact registerVector_registers _ _ _ _ _ _ _ _
  rw [if_neg hivec4]
  by_cases huivec : (type == "uivec") = true
  · rw [if_pos huivec]; exact registerVector_registers _ _ _ _ _ _ _ _
  rw [if_neg huivec]
  by_cases huivec2 : (type == "uivec2") = true
  · rw [if_pos huivec2]; exact registerVector_registers _ _ _ _ _ _ _ _
  rw [if_neg huivec2]
  by_cases huivec3 : (type == "uivec3") = true
  · rw [if_pos huivec3]; exact registerVector_registers _ _ _ _ _ _ _ _
  rw [if_neg huivec3]
  by_cases huivec4 : (type == "uivec4") = true
  · rw [if_pos huivec4]; exact registerVector_registers _ _ _ _ _ _ _ _
  rw [if_neg huivec4]
  exact Or.inl ⟨vars, rfl, rfl, Nat.le_refl _⟩

theorem registerClMem_registers {T V : Type} (b : Build) (tk : Tokenizer T V)
    (fl : FloatOps V) (cl : Nat → Option Nat) (vars : Variables T V)
    (name type length : String) :
    Registers vars name (Variables.registerClMem b tk fl cl vars name type length) := by
  unfold Variables.registerClMem
  cases hs : Variables.elementSize b (String.mk (truncateAt '*' type.toList)) with
  | none => exact Or.inl ⟨vars, rfl, rfl, Nat.le_refl _⟩
  | some typesize =>
    simp only []
    generalize (if (length != "") = true then fl.toUInt (tk.solve vars.tok length).1 % 2 ^ 32
      else 0) = len
    by_cases hl : len ≠ 0
    · rw [if_pos hl]
      cases cl (len * typesize) with
      | none => exact Or.inl ⟨_, rfl, rfl, Nat.le_succ _⟩
      | some mem => exact registers_push _ _ _ _ _
    · rw [if_neg hl]
      exact registers_push _ _ _ _ _

theorem registerVariable_registers {T V : Type} (b : Build) (tk : Tokenizer T V)
    (fl : FloatOps V) (cl : Nat → Option Nat) (vars : Variables T V)
    (name type length value : String) :
    Registers { vars with _vars := Variables.eraseNamed name vars._vars.length 0 vars._vars }
      name (Variables.registerVariable b tk fl cl vars name type length value) := by
  unfold Variables.registerVariable
  split
  · exact registerClMem_registers _ _ _ _ _ _ _ _
  · exact registerScalar_registers _ _ _ _ _ _ _

end InputOutput

end Aqua

namespace Aqua

namespace InputOutput

theorem eraseNamed_unique {T V : Type} (vars : Variables T V) (name : String)
    (h : UniqueNames vars) :
    (∀ v ∈ Variables.eraseNamed name vars._vars.length 0 vars._vars, v.name ≠ name) ∧
    ((Variables.eraseNamed name vars._vars.length 0 vars._vars).map
      (fun var => var.name)).Nodup ∧
    ∀ v ∈ Variables.eraseNamed name vars._vars.length 0 vars._vars, v.id < vars.created := by
  obtain ⟨h1, h2⟩ := eraseNamed_spec name vars._vars.length 0 vars._vars h.1
    (fun j v hj _ => absurd hj (Nat.not_lt_zero _)) (by omega)
  exact ⟨h1, List.Nodup.sublist (List.Sublist.map _ h2) h.1,
    fun v hv => h.2 v (h2.subset hv)⟩

theorem uniqueNames_push {T V : Type} (vars : Variables T V) (erased : List (Variable V))
    (name type : String) (tok : T) (value : Value V)
    (h1 : ∀ v ∈ erased, v.name ≠ name)
    (h2 : (erased.map (fun var => var.name)).Nodup)
    (h3 : ∀ v ∈ erased, v.id < vars.created) :
    UniqueNames (Variables.push { vars with _vars := erased } tok name type value) := by
  constructor
  · show ((erased ++ [(⟨vars.created, name, type, value⟩ : Variable V)]).map
      (fun var => var.name)).Nodup
    rw [List.map_append, List.nodup_append]
    refine ⟨h2, by simp, ?_⟩
    intro a ha hb
    simp only [List.map_cons, List.map_nil, List.mem_singleton] at hb
    obtain ⟨v, hv, hva⟩ := List.mem_map.1 ha
    exact h1 v hv (hva.trans hb)
  · intro v hv
    show v.id < vars.created + 1
    rcases List.mem_append.1 hv with hv | hv
    · exact Nat.lt_succ_of_lt (h3 v hv)
    · rw [List.mem_singleton] at hv
      subst hv
      exact Nat.lt_succ_self _

theorem uniqueNames_registerVariable {T V : Type} (b : Build) (tk : Tokenizer T V)
    (fl : FloatOps V) (cl : Nat → Option Nat) (vars s : Variables T V)
    (name type length value : String) (h : UniqueNames vars)
    (hs : (Variables.registerVariable b tk fl cl vars name type length value).state? =
      some s) : UniqueNames s := by
  obtain ⟨h1, h2, h3⟩ := eraseNamed_unique vars name h
  rcases registerVariable_registers b tk fl cl vars name type length value with
    ⟨s1, hr, hv, hc⟩ | ⟨tok, ty, val, hr⟩ | hr
  · rw [hr] at hs
    simp only [Res.state?, Option.some.injEq] at hs
    subst hs
    refine ⟨by rw [hv]; exact h2, ?_⟩
    intro v hv1
    rw [hv] at hv1
    exact Nat.lt_of_lt_of_le (h3 v hv1) hc
  · rw [hr] at hs
    simp only [Res.state?, Option.some.injEq] at hs
    subst hs
    exact uniqueNames_push vars _ name ty tok val h1 h2 h3
  · rw [hr] at hs
    exact Option.noConfusion hs

theorem uniqueNames_registerAll {T V : Type} (b : Build) (tk : Tokenizer T V)
    (fl : FloatOps V) : ∀ (calls : List Call) (vars : Variables T V),
      UniqueNames vars → UniqueNames (registerAll b tk fl vars calls)
  | [], _, h => h
  | c :: cs, vars, h => by
    simp only [registerAll]
    cases hs : (Variables.registerVariable b tk fl c.clCreateBuffer vars c.name c.type
        c.length c.value).state? with
    | none => exact uniqueNames_registerAll b tk fl cs vars h
    | some s =>
      exact uniqueNames_registerAll b tk fl cs s
        (uniqueNames_registerVariable b tk fl _ vars s _ _ _ _ h hs)

theorem get_push {T V : Type} (vars : Variables T V) (erased : List (Variable V))
    (name type : String) (tok : T) (value : Value V)
    (h1 : ∀ v ∈ erased, v.name ≠ name) :
    (Variables.push { vars with _vars := erased } tok name type value).get name =
      some ⟨vars.created, name, type, value⟩ := by
  show (erased ++ [(⟨vars.created, name, type, value⟩ : Variable V)]).find?
    (fun var => name == var.name) = _
  rw [List.find?_append]
  have : erased.find? (fun var => name == var.name) = none := by
    rw [List.find?_eq_none]
    intro v hv
    have := h1 v hv
    simpa using fun e : name = v.name => this e.symm
  rw [this]
  simp

end InputOutput

end Aqua

namespace Aqua

namespace InputOutput

/-! ## Edits of the pipeline -/

/-- C1: an `insert` (or `try_insert`) whose `before` attribute has no comma and whose
pattern matches at least one tool gives the pipeline where the new descriptor sits
immediately before every matched tool, all the former slots being kept in their order: the
length grows by the number of matched slots, and without the new descriptor the list is
the former one. With `after` the new descriptor sits immediately after every matched
tool. -/
theorem c1_insert_wildcard (env : Env) (pfx : String) (sim : ProblemSetup)
    (e : DOMElement) (hwf : ∀ t ∈ sim.tools, t < sim.heap.length)
    (hname : xmlHasAttribute e "name" = true) (htype : xmlHasAttribute e "type" = true)
    (hskip : skipTool sim e = false) (hact : xmlHasAttribute e "action" = true)
    (hins : xmlAttribute e "action" = "insert" ∨ xmlAttribute e "action" = "try_insert")
    (hat : xmlHasAttribute e "at" = false) :
    (xmlHasAttribute e "before" = true → ',' ∉ (xmlAttribute e "before").toList →
      (∃ t ∈ sim.tools, env.fnmatch (xmlAttribute e "before") (sim.toolGet t "name") = true) →
      ∃ sim1, (parseTool env pfx sim e).state? = some sim1 ∧
        sim1.tools = placedBefore
          (fun t => env.fnmatch (xmlAttribute e "before") (sim.toolGet t "name"))
          sim.heap.length sim.tools ∧
        sim1.tools.length = sim.tools.length + sim.tools.countP
          (fun t => env.fnmatch (xmlAttribute e "before") (sim.toolGet t "name")) ∧
        sim1.tools.filter (fun t => t ≠ sim.heap.length) = sim.tools) ∧
    (xmlHasAttribute e "before" = false → xmlHasAttribute e "after" = true →
      ',' ∉ (xmlAttribute e "after").toList →
      (∃ t ∈ sim.tools, env.fnmatch (xmlAttribute e "after") (sim.toolGet t "name") = true) →
      ∃ sim1, (parseTool env pfx sim e).state? = some sim1 ∧
        sim1.tools = placedAfter
          (fun t => env.fnmatch (xmlAttribute e "after") (sim.toolGet t "name"))
          sim.heap.length sim.tools ∧
        sim1.tools.length = sim.tools.length + sim.tools.countP
          (fun t => env.fnmatch (xmlAttribute e "after") (sim.toolGet t "name")) ∧
        sim1.tools.filter (fun t => t ≠ sim.heap.length) = sim.tools) := by
  have hfresh : sim.heap.length ∉ sim.tools := fun h => Nat.lt_irrefl _ (hwf _ h)
  have hscan : ∀ att : String,
      _toolsName env att (namedTool pfx sim e) "" =
        scanPlaces sim (fun n => env.fnmatch att n) sim.tools 0 := by
    intro att
    rw [toolsName_no_pfx]
    exact scanPlaces_namedTool pfx sim e _ hwf
  have hnonempty : ∀ att : String,
      (∃ t ∈ sim.tools, env.fnmatch att (sim.toolGet t "name") = true) →
      _toolsName env att (namedTool pfx sim e) "" ≠ [] := by
    intro att ⟨t, ht, hm⟩ hnil
    rw [hscan, scanPlaces_eq_nil] at hnil
    rw [hnil t ht] at hm
    exact Bool.noConfusion hm
  constructor
  · intro hb hcomma hex
    have hp := insertPlaces_wildcard env (namedTool pfx sim e) _ "" false hcomma
      (hnonempty _ hex)
    have hflow : placeTool env pfx (namedTool pfx sim e) e sim.heap.length =
        Flow.next { namedTool pfx sim e with
                    tools := placedBefore
                      (fun t => env.fnmatch (xmlAttribute e "before") (sim.toolGet t "name"))
                      sim.heap.length sim.tools } := by
      rw [placeTool_insert env pfx _ e _ hact hins]
      unfold placeInsert
      simp only [hat, hb, Bool.false_eq_true, if_false, if_true, hp, tools_namedTool, insertFound]
      rw [hscan, insertAll_scan_before]
    obtain ⟨s1, h1, h2, -, -⟩ := parseTool_next env pfx sim e hname htype hskip _ hflow
    refine ⟨s1, h1, h2, ?_⟩
    rw [h2]
    exact ⟨length_placedBefore _ _ _, filter_placedBefore _ _ _ hfresh⟩
  · intro hb ha hcomma hex
    have hp := insertPlaces_wildcard env (namedTool pfx sim e) _ "" true hcomma
      (hnonempty _ hex)
    have hflow : placeTool env pfx (namedTool pfx sim e) e sim.heap.length =
        Flow.next { namedTool pfx sim e with
                    tools := placedAfter
                      (fun t => env.fnmatch (xmlAttribute e "after") (sim.toolGet t "name"))
                      sim.heap.length sim.tools } := by
      rw [placeTool_insert env pfx _ e _ hact hins]
      unfold placeInsert
      simp only [hat, hb, ha, Bool.false_eq_true, if_false, if_true, hp, tools_namedTool, insertFound]
      rw [hscan, insertAll_scan_after]
    obtain ⟨s1, h1, h2, -, -⟩ := parseTool_next env pfx sim e hname htype hskip _ hflow
    refine ⟨s1, h1, h2, ?_⟩
    rw [h2]
    exact ⟨length_placedAfter _ _ _, filter_placedAfter _ _ _ hfresh⟩

theorem c1_insert_wildcard_witness :
    (∃ sim1, (parseTool exampleEnv "" setupABC
        (dummyTool "D" [("action", "insert"), ("before", "C")])).state? = some sim1 ∧
      sim1.tools = [0, 1, 3, 2]) ∧
    (parseTool exampleEnv "" setupABC
        (dummyTool "D" [("action", "insert"), ("before", "C")])).state?.map toolNames =
      some ["A", "B", "D", "C"] ∧
    (∃ sim1, (parseTool exampleEnv "" setupABC
        (dummyTool "D" [("action", "try_insert"), ("after", "?")])).state? = some sim1 ∧
      sim1.tools = [0, 3, 1, 3, 2, 3]) := by
  refine ⟨?_, by decide, ?_⟩
  · obtain ⟨s1, h1, h2, -⟩ := (c1_insert_wildcard exampleEnv "" setupABC
      (dummyTool "D" [("action", "insert"), ("before", "C")]) (by decide) (by decide)
      (by decide) (by decide) (by decide) (by decide) (by decide)).1 (by decide) (by decide)
      (by decide)
    exact ⟨s1, h1, h2.trans (by decide)⟩
  · obtain ⟨s1, h1, h2, -⟩ := (c1_insert_wildcard exampleEnv "" setupABC
      (dummyTool "D" [("action", "try_insert"), ("after", "?")]) (by decide) (by decide)
      (by decide) (by decide) (by decide) (by decide) (by decide)).2 (by decide) (by decide)
      (by decide) (by decide)
    exact ⟨s1, h1, h2.trans (by decide)⟩

/-- C2: a `remove` (or `try_remove`) whose pattern matches at least one tool goes on with
the next element and leaves exactly the former pipeline without the matched slots: every
unmatched tool is kept, in the former order. -/
theorem c2_remove (env : Env) (pfx : String) (sim : ProblemSetup) (e : DOMElement)
    (hwf : ∀ t ∈ sim.tools, t < sim.heap.length)
    (hname : xmlHasAttribute e "name" = true) (htype : xmlHasAttribute e "type" = true)
    (hskip : skipTool sim e = false) (hact : xmlHasAttribute e "action" = true)
    (hrem : xmlAttribute e "action" = "remove" ∨ xmlAttribute e "action" = "try_remove")
    (hex : ∃ t ∈ sim.tools,
      env.fnmatch (pfx ++ (pfx ++ xmlAttribute e "name")) (sim.toolGet t "name") = true) :
    ∃ sim1, parseTool env pfx sim e = Res.ok sim1 ∧
      sim1.tools = sim.tools.filter (fun t =>
        !env.fnmatch (pfx ++ (pfx ++ xmlAttribute e "name")) (sim.toolGet t "name")) := by
  have hplaces := toolsName_namedTool env pfx sim e hwf
  have hne := isEmpty_eq_false_of_ne_nil _ (scanPlaces_ne_nil sim _ sim.tools hex)
  have hflow : placeTool env pfx (namedTool pfx sim e) e sim.heap.length =
      Flow.cont (removeAll ((namedTool pfx sim e).delete sim.heap.length) (scanPlaces sim
        (fun n => env.fnmatch (pfx ++ (pfx ++ xmlAttribute e "name")) n) sim.tools 0)) := by
    rw [placeTool_remove env pfx _ e _ hact hrem]
    unfold placeRemove
    simp only [hplaces, hne, Bool.false_eq_true, if_false]
  refine ⟨_, placeTool_eq_cont env pfx sim e hname htype hskip _ hflow, ?_⟩
  rw [tools_removeAll]
  exact eraseAll_scan sim _ sim.tools

theorem c2_remove_witness :
    (∃ sim1, parseTool exampleEnv "" setupABDC (dummyTool "B" [("action", "remove")]) =
        Res.ok sim1 ∧ sim1.tools = [0, 3, 2]) ∧
    (parseTool exampleEnv "" setupABDC
        (dummyTool "B" [("action", "remove")])).state?.map toolNames =
      some ["A", "D", "C"] := by
  refine ⟨?_, by decide⟩
  obtain ⟨s1, h1, h2⟩ := c2_remove exampleEnv "" setupABDC
    (dummyTool "B" [("action", "remove")]) (by decide) (by decide) (by decide) (by decide)
    (by decide) (by decide) (by decide)
  exact ⟨s1, h1, h2.trans (by decide)⟩

/-- C3: a `replace` (or `try_replace`) whose pattern matches at least one tool keeps the
length of the pipeline, puts the new descriptor in every matched slot and leaves in every
other slot the descriptor it held. -/
theorem c3_replace (env : Env) (pfx : String) (sim : ProblemSetup) (e : DOMElement)
    (hwf : ∀ t ∈ sim.tools, t < sim.heap.length)
    (hname : xmlHasAttribute e "name" = true) (htype : xmlHasAttribute e "type" = true)
    (hskip : skipTool sim e = false) (hact : xmlHasAttribute e "action" = true)
    (hrep : xmlAttribute e "action" = "replace" ∨ xmlAttribute e "action" = "try_replace")
    (hex : ∃ t ∈ sim.tools,
      env.fnmatch (pfx ++ (pfx ++ xmlAttribute e "name")) (sim.toolGet t "name") = true) :
    ∃ sim1, (parseTool env pfx sim e).state? = some sim1 ∧
      sim1.tools.length = sim.tools.length ∧
      sim1.tools = sim.tools.map (fun t =>
        if env.fnmatch (pfx ++ (pfx ++ xmlAttribute e "name")) (sim.toolGet t "name")
        then sim.heap.length else t) := by
  have hplaces := toolsName_namedTool env pfx sim e hwf
  have hne := isEmpty_eq_false_of_ne_nil _ (scanPlaces_ne_nil sim _ sim.tools hex)
  have hflow : placeTool env pfx (namedTool pfx sim e) e sim.heap.length =
      Flow.next (replaceAll (namedTool pfx sim e) (scanPlaces sim
        (fun n => env.fnmatch (pfx ++ (pfx ++ xmlAttribute e "name")) n) sim.tools 0)
        sim.heap.length) := by
    rw [placeTool_replace env pfx _ e _ hact hrep]
    unfold placeReplace
    simp only [hplaces, hne, Bool.false_eq_true, if_false]
  obtain ⟨s1, h1, h2, -, -⟩ := parseTool_next env pfx sim e hname htype hskip _ hflow
  have ht : s1.tools = sim.tools.map (fun t =>
      if env.fnmatch (pfx ++ (pfx ++ xmlAttribute e "name")) (sim.toolGet t "name")
      then sim.heap.length else t) := by
    rw [h2, tools_replaceAll]
    exact setAll_scan sim _ _ sim.tools
  exact ⟨s1, h1, by rw [ht, List.length_map], ht⟩

theorem c3_replace_witness :
    (∃ sim1, (parseTool exampleEnv "" setupADC
        (dummyTool "D" [("action", "replace")])).state? = some sim1 ∧
      sim1.tools.length = 3 ∧ sim1.tools = [0, 5, 2]) ∧
    (parseTool exampleEnv "" setupADC
        (dummyTool "D" [("action", "replace")])).state?.map
        (fun s => (toolNames s, s.tools, s.deleted)) =
      some (["A", "D", "C"], [0, 5, 2], [4, 1, 3]) := by
  refine ⟨?_, by decide⟩
  obtain ⟨s1, h1, h2, h3⟩ := c3_replace exampleEnv "" setupADC
    (dummyTool "D" [("action", "replace")]) (by decide) (by decide) (by decide) (by decide)
    (by decide) (by decide) (by decide)
  exact ⟨s1, h1, h2, h3.trans (by decide)⟩

/-- C4: when the target of an edit is not found, the new tool is discarded and the
pipeline is the former one; then the `try_` form of the action goes on with the next
`Tool` element, and the other form makes `parseTools` report an error. This holds for
`remove` and `replace`, whose pattern matches no tool, and for an `insert` without `at`,
whose place attribute has no target. -/
theorem c4_not_found (env : Env) (pfx : String) (sim : ProblemSetup) (e : DOMElement)
    (rest : List DOMElement) (root : List (List DOMElement))
    (hwf : ∀ t ∈ sim.tools, t < sim.heap.length)
    (hname : xmlHasAttribute e "name" = true) (htype : xmlHasAttribute e "type" = true)
    (hskip : skipTool sim e = false) (hact : xmlHasAttribute e "action" = true) :
    (discarded pfx sim e).tools = sim.tools ∧
    ((∀ t ∈ sim.tools,
        env.fnmatch (pfx ++ (pfx ++ xmlAttribute e "name")) (sim.toolGet t "name") = false) →
      (xmlAttribute e "action" = "try_remove" ∨ xmlAttribute e "action" = "try_replace" →
        parseTools env ((e :: rest) :: root) sim pfx =
          parseTools env (rest :: root) (discarded pfx sim e) pfx) ∧
      (xmlAttribute e "action" = "remove" ∨ xmlAttribute e "action" = "replace" →
        parseTools env ((e :: rest) :: root) sim pfx = Res.err (discarded pfx sim e))) ∧
    (xmlHasAttribute e "at" = false →
      ∀ att p, insertTarget pfx e = some (att, p) →
      (∀ t ∈ sim.tools, isTarget env sim att p t = false) →
      (xmlAttribute e "action" = "try_insert" →
        parseTools env ((e :: rest) :: root) sim pfx =
          parseTools env (rest :: root) (discarded pfx sim e) pfx) ∧
      (xmlAttribute e "action" = "insert" →
        parseTools env ((e :: rest) :: root) sim pfx = Res.err (discarded pfx sim e))) := by
  refine ⟨rfl, ?_, ?_⟩
  · intro hno
    have hplaces := toolsName_namedTool env pfx sim e hwf
    have hnil : scanPlaces sim
        (fun n => env.fnmatch (pfx ++ (pfx ++ xmlAttribute e "name")) n) sim.tools 0 = [] :=
      (scanPlaces_eq_nil sim _ sim.tools 0).2 hno
    have hrm : placeRemove env pfx (namedTool pfx sim e) e sim.heap.length =
        notFound (namedTool pfx sim e) sim.heap.length
          (xmlAttribute e "action" == "try_remove") := by
      unfold placeRemove
      simp only [hplaces, hnil, List.isEmpty_nil, if_true]
    have hrp : placeReplace env pfx (namedTool pfx sim e) e sim.heap.length =
        notFound (namedTool pfx sim e) sim.heap.length
          (xmlAttribute e "action" == "try_replace") := by
      unfold placeReplace
      simp only [hplaces, hnil, List.isEmpty_nil, if_true]
    constructor
    · intro h
      apply parseTools_cons_ok
      apply placeTool_eq_cont env pfx sim e hname htype hskip
      rcases h with h | h
      · rw [placeTool_remove env pfx _ e _ hact (Or.inr h), hrm, h]; rfl
      · rw [placeTool_replace env pfx _ e _ hact (Or.inr h), hrp, h]; rfl
    · intro h
      apply parseTools_cons_err
      apply placeTool_eq_ret env pfx sim e hname htype hskip
      rcases h with h | h
      · rw [placeTool_remove env pfx _ e _ hact (Or.inl h), hrm, h]; rfl
      · rw [placeTool_replace env pfx _ e _ hact (Or.inl h), hrp, h]; rfl
  · intro hat att p htarget hno
    have hins : placeInsert env pfx (namedTool pfx sim e) e sim.heap.length =
        notFound (namedTool pfx sim e) sim.heap.length
          (xmlAttribute e "action" == "try_insert") := by
      apply placeInsert_not_found env pfx _ e _ hat att p htarget
      intro after
      rw [insertPlaces_namedTool env pfx sim e att p after hwf]
      exact insertPlaces_eq_none env sim att p after hno
    constructor
    · intro h
      apply parseTools_cons_ok
      apply placeTool_eq_cont env pfx sim e hname htype hskip
      rw [placeTool_insert env pfx _ e _ hact (Or.inr h), hins, h]; rfl
    · intro h
      apply parseTools_cons_err
      apply placeTool_eq_ret env pfx sim e hname htype hskip
      rw [placeTool_insert env pfx _ e _ hact (Or.inl h), hins, h]; rfl

theorem c4_not_found_witness :
    (parseTools exampleEnv [[dummyTool "D" [("action", "try_remove")], dummyTool "E" []]]
        setupABC "" =
      parseTools exampleEnv [[dummyTool "E" []]]
        (discarded "" setupABC (dummyTool "D" [("action", "try_remove")])) "") ∧
    (parseTools exampleEnv [[dummyTool "D" [("action", "try_remove")], dummyTool "E" []]]
        setupABC "").state?.map toolNames = some ["A", "B", "C", "E"] ∧
    parseTools exampleEnv [[dummyTool "D" [("action", "remove")], dummyTool "E" []]]
        setupABC "" =
      Res.err (discarded "" setupABC (dummyTool "D" [("action", "remove")])) ∧
    parseTools exampleEnv
        [[dummyTool "D" [("action", "insert"), ("after", "X,Y")], dummyTool "E" []]]
        setupABC "" =
      Res.err (discarded "" setupABC (dummyTool "D" [("action", "insert"), ("after", "X,Y")])) :=
  ⟨((c4_not_found exampleEnv "" setupABC (dummyTool "D" [("action", "try_remove")])
      [dummyTool "E" []] [] (by decide) (by decide) (by decide) (by decide)
      (by decide)).2.1 (by decide)).1 (Or.inl (by decide)),
    by decide,
    ((c4_not_found exampleEnv "" setupABC (dummyTool "D" [("action", "remove")])
      [dummyTool "E" []] [] (by decide) (by decide) (by decide) (by decide)
      (by decide)).2.1 (by decide)).2 (Or.inl (by decide)),
    ((c4_not_found exampleEnv "" setupABC
      (dummyTool "D" [("action", "insert"), ("after", "X,Y")])
      [dummyTool "E" []] [] (by decide) (by decide) (by decide) (by decide)
      (by decide)).2.2 (by decide) "X,Y" "" (by decide) (by decide)).2 (by decide)⟩

/-- C5: in the loops of `remove` and `replace` the descriptor of a slot is destroyed exactly
when this slot is the only one of the pipeline which holds it. So, from a sound setup,
whatever the `Tool` elements parsed (any sequence of add, insert, remove and replace
actions which does not run into undefined behaviour), no descriptor is destroyed twice,
no slot of the pipeline holds a destroyed descriptor, and a descriptor of the former
pipeline is destroyed if and only if no slot holds it any more, also when a descriptor
occupies several slots. -/
theorem c5_shared_descriptors (env : Env) (pfx : String) (root : List (List DOMElement))
    (sim sim1 : ProblemSetup) (hs : Sound sim)
    (h : (parseTools env root sim pfx).state? = some sim1) :
    (∀ (s : ProblemSetup) (p u : Nat), s.tools[p]? = some u →
      (removeSlot s p).deleted = (if s.tools.count u = 1 then s.deleted ++ [u] else s.deleted) ∧
      ∀ tool, (replaceSlot tool s p).deleted =
        (if s.tools.count u = 1 then s.deleted ++ [u] else s.deleted)) ∧
    sim1.deleted.Nodup ∧ (∀ t ∈ sim1.tools, t ∉ sim1.deleted) ∧
    (∀ t ∈ sim.tools, (t ∈ sim1.deleted ↔ t ∉ sim1.tools)) := by
  have hf := follows_parseToolSections env pfx root sim hs sim1 h
  refine ⟨?_, hf.1.1, hf.1.2.1, ?_⟩
  · intro s p u hp
    constructor
    · unfold removeSlot
      rw [hp]
      simp only [ProblemSetup.toolInstances]
      split <;> rfl
    · intro tool
      unfold replaceSlot
      rw [hp]
      simp only [ProblemSetup.toolInstances]
      split <;> rfl
  · intro t ht
    exact ⟨fun hd hm => hf.1.2.1 t hm hd, fun hn => hf.2.2.2 t ht hn⟩

theorem c5_shared_descriptors_witness :
    Sound setupABC ∧
    (parseTools exampleEnv sharedEdits setupABC "").state? = some setupShared ∧
    (setupShared.tools, setupShared.deleted) = ([0, 5, 2], [4, 3, 1]) ∧
    setupShared.deleted.Nodup ∧ (∀ t ∈ setupShared.tools, t ∉ setupShared.deleted) ∧
    (∀ t ∈ setupABC.tools, (t ∈ setupShared.deleted ↔ t ∉ setupShared.tools)) :=
  ⟨⟨by decide, by decide, by decide, by decide⟩, by decide, by decide,
    (c5_shared_descriptors exampleEnv "" sharedEdits setupABC setupShared
      ⟨by decide, by decide, by decide, by decide⟩ (by decide)).2⟩

/-- C6: an `insert` whose `before` attribute is a list of names (it has a comma), one of
which at least is the name of a tool, inserts the new descriptor exactly once, at the
least place of the tools named in the list; with `after`, exactly once, right after the
greatest such place. -/
theorem c6_insert_list (env : Env) (pfx : String) (sim : ProblemSetup)
    (e : DOMElement) (hwf : ∀ t ∈ sim.tools, t < sim.heap.length)
    (hname : xmlHasAttribute e "name" = true) (htype : xmlHasAttribute e "type" = true)
    (hskip : skipTool sim e = false) (hact : xmlHasAttribute e "action" = true)
    (hins : xmlAttribute e "action" = "insert" ∨ xmlAttribute e "action" = "try_insert")
    (hat : xmlHasAttribute e "at" = false) :
    (xmlHasAttribute e "before" = true → ',' ∈ (xmlAttribute e "before").toList →
      (∃ t ∈ sim.tools, sim.toolGet t "name" ∈ strtok (xmlAttribute e "before") ',') →
      ∃ sim1 m t, (parseTool env pfx sim e).state? = some sim1 ∧
        sim.tools[m]? = some t ∧
        sim.toolGet t "name" ∈ strtok (xmlAttribute e "before") ',' ∧
        (∀ i u, sim.tools[i]? = some u →
          sim.toolGet u "name" ∈ strtok (xmlAttribute e "before") ',' → m ≤ i) ∧
        sim1.tools = sim.tools.take m ++ sim.heap.length :: sim.tools.drop m ∧
        sim1.tools.count sim.heap.length = 1) ∧
    (xmlHasAttribute e "before" = false → xmlHasAttribute e "after" = true →
      ',' ∈ (xmlAttribute e "after").toList →
      (∃ t ∈ sim.tools, sim.toolGet t "name" ∈ strtok (xmlAttribute e "after") ',') →
      ∃ sim1 m t, (parseTool env pfx sim e).state? = some sim1 ∧
        sim.tools[m]? = some t ∧
        sim.toolGet t "name" ∈ strtok (xmlAttribute e "after") ',' ∧
        (∀ i u, sim.tools[i]? = some u →
          sim.toolGet u "name" ∈ strtok (xmlAttribute e "after") ',' → i ≤ m) ∧
        sim1.tools = sim.tools.take (m + 1) ++ sim.heap.length :: sim.tools.drop (m + 1) ∧
        sim1.tools.count sim.heap.length = 1) := by
  have hfresh : sim.heap.length ∉ sim.tools := fun h => Nat.lt_irrefl _ (hwf _ h)
  have hmem : ∀ (att : String) (i : Nat), i ∈ _toolsList att sim "" ↔
      ∃ t, sim.tools[i]? = some t ∧ sim.toolGet t "name" ∈ strtok att ',' := by
    intro att i
    rw [_toolsList, mem_toolsListTokens]
    constructor
    · rintro ⟨token, h1, t, h2, h3⟩
      refine ⟨t, h2, ?_⟩
      rw [h3]; simpa using h1
    · rintro ⟨t, h2, h3⟩
      exact ⟨_, h3, t, h2, by simp⟩
  constructor
  · intro hb hcomma hex
    have hne := toolsList_ne_nil sim _ hex
    obtain ⟨m, hm1, hm2, hm3⟩ := min_element_spec _ hne
    obtain ⟨t, ht1, ht2⟩ := (hmem _ m).1 hm2
    have hlt : m < sim.tools.length := by
      by_contra hge
      rw [List.getElem?_eq_none (by omega)] at ht1
      exact Option.noConfusion ht1
    have hflow : placeTool env pfx (namedTool pfx sim e) e sim.heap.length =
        Flow.next { namedTool pfx sim e with
                    tools := sim.tools.take m ++ sim.heap.length :: sim.tools.drop m } := by
      rw [placeTool_insert env pfx _ e _ hact hins]
      unfold placeInsert
      simp only [hat, hb, Bool.false_eq_true, if_false, if_true,
        insertPlaces_namedTool env pfx sim e _ _ _ hwf,
        insertPlaces_list env sim _ "" false hcomma hne, hm1, Option.map_some',
        tools_namedTool, insertFound]
      rw [← dequeInsert_eq_take_drop _ _ _ (Nat.le_of_lt hlt)]
      rfl
    obtain ⟨s1, h1, h2, -, -⟩ := parseTool_next env pfx sim e hname htype hskip _ hflow
    refine ⟨s1, m, t, h1, ht1, ht2, ?_, h2, ?_⟩
    · intro i u hi hu
      exact hm3 i ((hmem _ i).2 ⟨u, hi, hu⟩)
    · rw [h2]
      exact count_take_drop_fresh _ _ _ hfresh
  · intro hb ha hcomma hex
    have hne := toolsList_ne_nil sim _ hex
    obtain ⟨m, hm1, hm2, hm3⟩ := max_element_spec _ hne
    obtain ⟨t, ht1, ht2⟩ := (hmem _ m).1 hm2
    have hlt : m < sim.tools.length := by
      by_contra hge
      rw [List.getElem?_eq_none (by omega)] at ht1
      exact Option.noConfusion ht1
    have hflow : placeTool env pfx (namedTool pfx sim e) e sim.heap.length =
        Flow.next { namedTool pfx sim e with
                    tools := sim.tools.take (m + 1) ++
                      sim.heap.length :: sim.tools.drop (m + 1) } := by
      rw [placeTool_insert env pfx _ e _ hact hins]
      unfold placeInsert
      simp only [hat, hb, ha, Bool.false_eq_true, if_false, if_true,
        insertPlaces_namedTool env pfx sim e _ _ _ hwf,
        insertPlaces_list env sim _ "" true hcomma hne, hm1, Option.map_some',
        tools_namedTool, insertFound]
      rw [← dequeInsert_eq_take_drop _ _ _ (Nat.succ_le_of_lt hlt)]
      rfl
    obtain ⟨s1, h1, h2, -, -⟩ := parseTool_next env pfx sim e hname htype hskip _ hflow
    refine ⟨s1, m, t, h1, ht1, ht2, ?_, h2, ?_⟩
    · intro i u hi hu
      exact hm3 i ((hmem _ i).2 ⟨u, hi, hu⟩)
    · rw [h2]
      exact count_take_drop_fresh _ _ _ hfresh

theorem c6_insert_list_witness :
    (∃ sim1 m t, (parseTool exampleEnv "" setupABC
        (dummyTool "D" [("action", "insert"), ("before", "C,B")])).state? = some sim1 ∧
      setupABC.tools[m]? = some t ∧ setupABC.toolGet t "name" ∈ strtok "C,B" ',' ∧
      (∀ i u, setupABC.tools[i]? = some u → setupABC.toolGet u "name" ∈ strtok "C,B" ',' →
        m ≤ i) ∧
      sim1.tools = setupABC.tools.take m ++ 3 :: setupABC.tools.drop m ∧
      sim1.tools.count 3 = 1) ∧
    (parseTool exampleEnv "" setupABC
        (dummyTool "D" [("action", "insert"), ("before", "C,B")])).state?.map toolNames =
      some ["A", "D", "B", "C"] ∧
    (parseTool exampleEnv "" setupABC
        (dummyTool "D" [("action", "insert"), ("after", "A,B")])).state?.map toolNames =
      some ["A", "B", "D", "C"] :=
  ⟨(c6_insert_list exampleEnv "" setupABC
      (dummyTool "D" [("action", "insert"), ("before", "C,B")]) (by decide) (by decide)
      (by decide) (by decide) (by decide) (by decide) (by decide)).1 (by decide) (by decide)
      (by decide), by decide, by decide⟩

end InputOutput

end Aqua

namespace Aqua

namespace InputOutput

/-! ## Values of the variables -/

/-- C7: the separator pass of `readComponents` keeps the length of the text, turns into a
semicolon every comma which is not inside an open parenthesis (the count of `(` minus the
count of `)` before it is not positive) and leaves as they are the commas at a positive
depth and all the other characters. So `"sin(1,2),3"`, read for two components, is cut in
the two segments `"sin(1,2)"` and `"3"` handed to the evaluator. -/
theorem c7_separator_pass :
    (∀ value : String, (separatorPass value).length = value.length ∧
      ∀ (i : Nat) (c : Char), value.toList[i]? = some c →
        (separatorPass value)[i]? =
          some (if c = ',' ∧ ¬ (depthAt value.toList i > 0) then ';' else c)) ∧
    separatorPass "sin(1,2),3" = "sin(1,2);3".toList ∧
    readComponents echoTokenizer "v" "sin(1,2),3" 2 () = Res.ok ((), ["sin(1,2)", "3"]) := by
  refine ⟨fun value => ⟨?_, ?_⟩, by decide, by decide⟩
  · rw [separatorPass, length_separatorLoop]; rfl
  · intro i c h
    have := getElem?_separatorLoop value.toList 0 i c h
    rw [zero_add] at this
    exact this

/-- C8: for a count `n` of 1 to 4 components and a value text with exactly `n` top-level
comma-separated segments which are evaluated without error, each one once the former
components have been published, `readComponents` succeeds and stores the values of the
segments in `v`, in order. The evaluator is taken to reject a text with a semicolon. -/
theorem c8_vector_round_trip {T V : Type} (tk : Tokenizer T V) (name value : String)
    (n : Nat) (tok tok1 : T) (vs : List V)
    (hsemi : ∀ t expr, ';' ∈ expr.toList → (tk.solve t expr).2 = true)
    (hn : 1 ≤ n ∧ n ≤ 4) (hlen : (topLevelSegments value).length = n)
    (heval : evalSegments tk name n (topLevelSegments value) 0 tok = some (tok1, vs)) :
    readComponents tk name value n tok = Res.ok (tok1, vs) ∧ vs.length = n ∧
      ∀ (j : Nat) (s : String), (topLevelSegments value)[j]? = some s →
        ∃ t x, tk.solve t s = (x, false) ∧ vs[j]? = some x := by
  obtain ⟨hl, hsol⟩ := evalSegments_solved tk name n _ 0 tok tok1 vs heval
  have hno : ';' ∉ value.toList := by
    intro hmem
    obtain ⟨s, hs, hxs⟩ := mem_splitTop ';' (by decide) value.toList 0 hmem
    have hs1 : String.mk s ∈ topLevelSegments value := List.mem_map_of_mem _ hs
    obtain ⟨j, hj⟩ := List.mem_iff_getElem?.1 hs1
    obtain ⟨t, x, hx, -⟩ := hsol j _ hj
    have := hsemi t (String.mk s) hxs
    rw [hx] at this
    exact Bool.noConfusion this
  refine ⟨?_, by rw [hl, hlen], hsol⟩
  have hbound : (n + 2 ^ 32 - 1) % 2 ^ 32 = n - 1 := by omega
  have hsplit : splitSemi (separatorPass value) = splitTop value.toList 0 :=
    splitSemi_separatorLoop _ _ hno
  have hl2 : (splitTop value.toList 0).length = n := by
    have := hlen
    simpa only [topLevelSegments, List.length_map] using this
  have htake : (splitTop value.toList 0).take (n - 1 + 1) = splitTop value.toList 0 :=
    List.take_of_length_le (by omega)
  have := readLoop_evalSegments tk name n hn.2 (n - 1) 0 tok (separatorPass value) []
    (splitTop value.toList 0) tok1 vs hsplit (by omega) (by omega) (by rw [htake]; exact heval)
  rw [readComponents, hbound, this, List.nil_append]

theorem c8_vector_round_trip_witness :
    readComponents litTokenizer "v" "1,2,3" 3 [] =
      Res.ok ([("v_z", 3), ("v_y", 2), ("v_x", 1)], [1, 2, 3]) ∧
    (Variables.registerVariable exampleBuild litTokenizer litFloatOps (fun _ => none)
        emptyVariables "v" "vec3" "" "1,2,3").state?.bind
        (fun vars => (vars.get "v").map (fun var => var.value)) =
      some (Value.vec [1, 2, 3]) :=
  ⟨(c8_vector_round_trip litTokenizer "v" "1,2,3" 3 [] [("v_z", 3), ("v_y", 2), ("v_x", 1)]
      [1, 2, 3] litTokenizer_semicolon (by decide) (by decide) (by decide)).1, by decide⟩

/-- C9, as stated, fails: a value text with more top-level components than the type is
read without error, by `solve` on a vector type as on a scalar type. -/
theorem c9_component_count_counterexample :
    (topLevelSegments "1,2,3").length ≠ typeToN exampleBuild "vec2" ∧
    solve exampleBuild litTokenizer litFloatOps "vec2" "1,2,3" "v" [] =
      Res.ok ([("v_y", 2), ("v_x", 1)], some (Value.vec [1, 2])) ∧
    (topLevelSegments "1,2").length ≠ typeToN exampleBuild "int" ∧
    solve exampleBuild litTokenizer litFloatOps "int" "1,2" "v" [] =
      Res.ok ([("v", 1)], some (Value.int 1)) := by
  decide

/-- C9, amended: on a value text without semicolon, `solve` returns the error signal
whenever the text has less top-level comma-separated components than the type. A text
with more components than the type is no error: when the first components, as many as
the type has, are evaluated without error, `solve` succeeds on them and the further
components are ignored. -/
theorem c9_component_count {T V : Type} (b : Build) (tk : Tokenizer T V) (fl : FloatOps V)
    (type_name value name : String) (tok : T) (htype : type_name ∈ solvedTypes)
    (hsemi : ';' ∉ value.toList) :
    ((topLevelSegments value).length < typeToN b type_name →
      ∃ st, solve b tk fl type_name value name tok = Res.err st) ∧
    (typeToN b type_name ≤ (topLevelSegments value).length → value ≠ "" →
      ∀ tok1 vs, evalSegments tk name (typeToN b type_name)
          ((topLevelSegments value).take (typeToN b type_name)) 0 tok = some (tok1, vs) →
        ∃ x, solve b tk fl type_name value name tok = Res.ok (tok1, some x)) := by
  have htab := solvedTypes_table b.HAVE_3D type_name htype
  have h1 : typeToBytes b type_name ≠ 0 := by
    rw [typeToBytes_flagBuild]; exact htab.1
  have h2 : solveCount b (String.mk (truncateAt '*' type_name.toList)) =
      typeToN b type_name := by
    rw [typeToN_flagBuild, solveCount_flagBuild]; exact htab.2.1
  have h3 : 1 ≤ typeToN b type_name := by
    rw [typeToN_flagBuild]; exact htab.2.2.1
  have h4 : typeToN b type_name ≤ 4 := by
    rw [typeToN_flagBuild]; exact htab.2.2.2
  have hcount : solveCount b (String.mk (truncateAt '*' type_name.toList)) ≠ 0 := by
    rw [h2]; exact Nat.one_le_iff_ne_zero.1 h3
  constructor
  · intro hfew
    by_cases hv : (value == "") = true
    · exact ⟨(tok, none), solve_empty b tk fl type_name value name tok h1 hv⟩
    · obtain ⟨mk, hmk⟩ := solve_shape b tk fl type_name value name tok h1
        (Bool.eq_false_iff.2 hv) hcount
      obtain ⟨st, hst⟩ := readComponents_too_few tk name value _ tok ⟨h3, h4⟩ hsemi hfew
      rw [hmk, h2]
      exact solveComponents_err tk value name tok _ mk st hst
  · intro hlen hv tok1 vs heval
    have hv1 : (value == "") = false := by
      rw [Bool.eq_false_iff]
      intro e
      exact hv (eq_of_beq e)
    obtain ⟨mk, hmk⟩ := solve_shape b tk fl type_name value name tok h1 hv1 hcount
    have := readComponents_first tk name value _ tok tok1 vs ⟨h3, h4⟩ hsemi hlen heval
    rw [hmk, h2]
    exact solveComponents_ok tk value name tok tok1 _ mk vs this

theorem c9_component_count_witness :
    (∃ st, solve exampleBuild litTokenizer litFloatOps "vec3" "1,2" "v" [] = Res.err st) ∧
    (∃ x, solve exampleBuild litTokenizer litFloatOps "vec2" "1,2,3" "v" [] =
      Res.ok ([("v_y", 2), ("v_x", 1)], some x)) :=
  ⟨(c9_component_count exampleBuild litTokenizer litFloatOps "vec3" "1,2" "v" []
      (by decide) (by decide)).1 (by decide),
    (c9_component_count exampleBuild litTokenizer litFloatOps "vec2" "1,2,3" "v" []
      (by decide) (by decide)).2 (by decide) (by decide) [("v_y", 2), ("v_x", 1)] [1, 2]
      (by decide)⟩

/-- C10: starting from an empty registry, after any sequence of calls of
`registerVariable`, successful or failed, no two variables of the registry have the same
name; and after one more call which succeeds, `get(name)` returns the variable created by
this call, which is the only variable of the registry with this name: no variable
registered before bears it. -/
theorem c10_unique_names {T V : Type} (b : Build) (tk : Tokenizer T V) (fl : FloatOps V)
    (tok0 : T) (calls : List Call) :
    ((registerAll b tk fl ⟨[], tok0, 0⟩ calls)._vars.map (fun var => var.name)).Nodup ∧
    ∀ (c : Call) (vars1 : Variables T V),
      Variables.registerVariable b tk fl c.clCreateBuffer
        (registerAll b tk fl ⟨[], tok0, 0⟩ calls) c.name c.type c.length c.value =
          Res.ok vars1 →
      (vars1._vars.map (fun var => var.name)).Nodup ∧
      ∃ var, vars1.get c.name = some var ∧ var.name = c.name ∧
        (∀ old ∈ (registerAll b tk fl ⟨[], tok0, 0⟩ calls)._vars, old.id ≠ var.id) ∧
        ∀ v ∈ vars1._vars, v.name = c.name → v = var := by
  have h0 : UniqueNames (⟨[], tok0, 0⟩ : Variables T V) :=
    ⟨List.nodup_nil, fun v hv => absurd hv (List.not_mem_nil _)⟩
  have h := uniqueNames_registerAll b tk fl calls _ h0
  refine ⟨h.1, ?_⟩
  intro c vars1 hok
  have hu := uniqueNames_registerVariable b tk fl _ _ vars1 _ _ _ _ h (by rw [hok]; rfl)
  refine ⟨hu.1, ?_⟩
  obtain ⟨h1, h2, h3⟩ := eraseNamed_unique _ c.name h
  rcases registerVariable_registers b tk fl c.clCreateBuffer
      (registerAll b tk fl ⟨[], tok0, 0⟩ calls) c.name c.type c.length c.value with
    ⟨s1, hr, -, -⟩ | ⟨tok, ty, val, hr⟩ | hr
  · rw [hr] at hok; exact Res.noConfusion hok
  · rw [hr, Res.ok.injEq] at hok
    subst hok
    refine ⟨_, get_push _ _ c.name ty tok val h1, rfl, ?_, ?_⟩
    · intro old hold
      exact Nat.ne_of_lt (h.2 old hold)
    · intro v hv hvn
      rcases List.mem_append.1 hv with hv | hv
      · exact absurd hvn (h1 v hv)
      · exact List.mem_singleton.1 hv
  · rw [hr] at hok; exact Res.noConfusion hok

theorem c10_unique_names_witness :
    Variables.registerVariable exampleBuild litTokenizer litFloatOps
        exampleCall.clCreateBuffer
        (registerAll exampleBuild litTokenizer litFloatOps ⟨[], [], 0⟩ exampleCalls)
        exampleCall.name exampleCall.type exampleCall.length exampleCall.value =
      Res.ok exampleVariables ∧
    ((exampleVariables._vars.map (fun var => var.name)).Nodup ∧
      ∃ var, exampleVariables.get exampleCall.name = some var ∧
        var.name = exampleCall.name ∧
        (∀ old ∈ (registerAll exampleBuild litTokenizer litFloatOps ⟨[], [], 0⟩
          exampleCalls)._vars, old.id ≠ var.id) ∧
        ∀ v ∈ exampleVariables._vars, v.name = exampleCall.name → v = var) :=
  ⟨by decide, (c10_unique_names exampleBuild litTokenizer litFloatOps [] exampleCalls).2
    exampleCall exampleVariables (by decide)⟩

end InputOutput

end Aqua

namespace Aqua

namespace InputOutput

/-! ## Theorems on the attributes of a descriptor -/

theorem placeTool_add (env : Env) (pfx : String) (sim : ProblemSetup) (e : DOMElement)
    (tool : Nat)
    (h : xmlHasAttribute e "action" = false ∨ xmlAttribute e "action" = "add") :
    placeTool env pfx sim e tool = Flow.next { sim with tools := sim.tools ++ [tool] } := by
  unfold placeTool
  rcases h with h | h <;> simp [h]

end InputOutput

end Aqua

namespace Aqua

namespace InputOutput

/-! ## The configuration of a kernel and the pattern of a removal -/

end InputOutput

end Aqua
namespace Aqua

namespace InputOutput

theorem mem_toolsName_namedTool (env : Env) (pfx : String) (sim : ProblemSetup)
    (e : DOMElement) (hwf : ∀ t ∈ sim.tools, t < sim.heap.length) (i : Nat) :
    i ∈ _toolsName env ((namedTool pfx sim e).toolGet sim.heap.length "name")
        (namedTool pfx sim e) pfx ↔
      ∃ t, sim.tools[i]? = some t ∧
        env.fnmatch (pfx ++ (pfx ++ xmlAttribute e "name")) (sim.toolGet t "name") = true := by
  rw [toolsName_namedTool env pfx sim e hwf, mem_scanPlaces]
  constructor
  · rintro ⟨j, t, hj, ht, hm⟩
    rw [Nat.zero_add] at hj
    subst hj
    exact ⟨t, ht, hm⟩
  · rintro ⟨t, ht, hm⟩
    exact ⟨i, t, (Nat.zero_add i).symm, ht, hm⟩

/-- C30: in a document parsed with the prefix `pfx`, the places handled by a `remove`,
`try_remove`, `replace` or `try_replace` of a tool named `X` are the places resolved by
`_toolsName` from the name of the new descriptor, and a place is resolved exactly when
the name of its tool matches the pattern `pfx ++ pfx ++ X`; whereas the descriptor of a
tool added by the document under the name `X` is stored in the pipeline under the name
`pfx ++ X`. With an empty prefix the pattern is `X`. -/
theorem c30_removal_pattern (env : Env) (pfx : String) (sim : ProblemSetup) (e : DOMElement)
    (hwf : ∀ t ∈ sim.tools, t < sim.heap.length) :
    (∀ i, i ∈ _toolsName env ((namedTool pfx sim e).toolGet sim.heap.length "name")
        (namedTool pfx sim e) pfx ↔
      ∃ t, sim.tools[i]? = some t ∧
        env.fnmatch (pfx ++ (pfx ++ xmlAttribute e "name")) (sim.toolGet t "name") = true) ∧
    (xmlHasAttribute e "action" = true →
      xmlAttribute e "action" = "remove" ∨ xmlAttribute e "action" = "try_remove" →
      placeTool env pfx (namedTool pfx sim e) e sim.heap.length =
        if (_toolsName env ((namedTool pfx sim e).toolGet sim.heap.length "name")
          (namedTool pfx sim e) pfx).isEmpty then
          notFound (namedTool pfx sim e) sim.heap.length
            (xmlAttribute e "action" == "try_remove")
        else Flow.cont (removeAll ((namedTool pfx sim e).delete sim.heap.length)
          (_toolsName env ((namedTool pfx sim e).toolGet sim.heap.length "name")
            (namedTool pfx sim e) pfx))) ∧
    (xmlHasAttribute e "action" = true →
      xmlAttribute e "action" = "replace" ∨ xmlAttribute e "action" = "try_replace" →
      placeTool env pfx (namedTool pfx sim e) e sim.heap.length =
        if (_toolsName env ((namedTool pfx sim e).toolGet sim.heap.length "name")
          (namedTool pfx sim e) pfx).isEmpty then
          notFound (namedTool pfx sim e) sim.heap.length
            (xmlAttribute e "action" == "try_replace")
        else Flow.next (replaceAll (namedTool pfx sim e)
          (_toolsName env ((namedTool pfx sim e).toolGet sim.heap.length "name")
            (namedTool pfx sim e) pfx) sim.heap.length)) ∧
    (xmlHasAttribute e "action" = false ∨ xmlAttribute e "action" = "add" →
      placeTool env pfx (namedTool pfx sim e) e sim.heap.length =
        Flow.next { namedTool pfx sim e with tools := sim.tools ++ [sim.heap.length] }) ∧
    (namedTool pfx sim e).toolGet sim.heap.length "name" = pfx ++ xmlAttribute e "name" ∧
    (∀ i, i ∈ _toolsName env ((namedTool "" sim e).toolGet sim.heap.length "name")
        (namedTool "" sim e) "" ↔
      ∃ t, sim.tools[i]? = some t ∧
        env.fnmatch (xmlAttribute e "name") (sim.toolGet t "name") = true) := by
  refine ⟨mem_toolsName_namedTool env pfx sim e hwf, ?_, ?_, ?_,
    toolGet_namedTool_name pfx sim e, ?_⟩
  · intro h1 h2
    rw [placeTool_remove env pfx _ e _ h1 h2]
    rfl
  · intro h1 h2
    rw [placeTool_replace env pfx _ e _ h1 h2]
    rfl
  · intro h
    rw [placeTool_add env pfx _ e _ h, tools_namedTool]
  · intro i
    have h := mem_toolsName_namedTool env "" sim e hwf i
    rw [String.empty_append, String.empty_append] at h
    exact h

theorem c30_removal_pattern_witness :
    (∀ t ∈ setupPrefixed.tools, t < setupPrefixed.heap.length) ∧
    (namedTool "p_" setupPrefixed (dummyTool "A" [("action", "remove")])).toolGet
      setupPrefixed.heap.length "name" = "p_A" ∧
    ∀ i, i ∈ _toolsName exampleEnv
        ((namedTool "p_" setupPrefixed (dummyTool "A" [("action", "remove")])).toolGet
          setupPrefixed.heap.length "name")
        (namedTool "p_" setupPrefixed (dummyTool "A" [("action", "remove")])) "p_" ↔
      ∃ t, setupPrefixed.tools[i]? = some t ∧
        exampleEnv.fnmatch ("p_" ++ ("p_" ++
          xmlAttribute (dummyTool "A" [("action", "remove")]) "name"))
          (setupPrefixed.toolGet t "name") = true :=
  ⟨by decide,
    (c30_removal_pattern exampleEnv "p_" setupPrefixed (dummyTool "A" [("action", "remove")])
      (by decide)).2.2.2.2.1,
    (c30_removal_pattern exampleEnv "p_" setupPrefixed (dummyTool "A" [("action", "remove")])
      (by decide)).1⟩

/-- A document parsed with the prefix `p_` which adds the tool `A` stores it as `p_A`, and
its removal of `A`, which looks for `p_p_A`, does not find it; parsed without prefix the
same document empties the pipeline. -/
theorem prefixed_removal_example :
    toolNames setupPrefixed = ["p_A"] ∧
    (parseTools exampleEnv [[dummyTool "A" [], dummyTool "A" [("action", "remove")]]]
      emptySetup "p_").state?.map toolNames = some ["p_A"] ∧
    (parseTools exampleEnv [[dummyTool "A" [], dummyTool "A" [("action", "remove")]]]
      emptySetup "p_").failed = true ∧
    (parseTools exampleEnv [[dummyTool "A" [], dummyTool "A" [("action", "remove")]]]
      emptySetup "").failed = false ∧
    (parseTools exampleEnv [[dummyTool "A" [], dummyTool "A" [("action", "remove")]]]
      emptySetup "").state?.map toolNames = some [] := by
  decide

end InputOutput

end Aqua

namespace Aqua

namespace InputOutput

/-! ## Theorems on the type names -/

theorem isSameType_flagBuild (b : Build) (type_a type_b : String) (ignore_asterisk : Bool) :
    isSameType b type_a type_b ignore_asterisk =
      isSameType (flagBuild b.HAVE_3D) type_a type_b ignore_asterisk := rfl

theorem supportedTypes_eq : supportedTypes = plainTypes ++ plainTypes.map (fun t => t ++ "*") := by
  decide

set_option maxRecDepth 100000 in
theorem supportedTypes_table : ∀ have3D : Bool, ∀ t ∈ supportedTypes,
    typeToBytes (flagBuild have3D) t = typeToN (flagBuild have3D) t * 4 ∧
      typeToBytes (flagBuild have3D) t ≠ 0 := by
  decide

set_option maxRecDepth 100000 in
theorem plainTypes_table : ∀ have3D : Bool, ∀ t ∈ plainTypes,
    typeToN (flagBuild have3D) (t ++ "*") = typeToN (flagBuild have3D) t ∧
      typeToBytes (flagBuild have3D) (t ++ "*") = typeToBytes (flagBuild have3D) t := by
  decide

set_option maxRecDepth 100000 in
theorem isSameType_refl_table : ∀ have3D : Bool, ∀ t ∈ supportedTypes,
    ∀ ignore_asterisk : Bool,
      isSameType (flagBuild have3D) t t ignore_asterisk = some true := by
  decide

set_option maxRecDepth 100000 in
theorem isSameType_mark_table : ∀ have3D : Bool, ∀ t ∈ plainTypes,
    isSameType (flagBuild have3D) t (t ++ "*") false = some false ∧
    isSameType (flagBuild have3D) (t ++ "*") t false = some false ∧
    isSameType (flagBuild have3D) t (t ++ "*") true = some true ∧
    isSameType (flagBuild have3D) (t ++ "*") t true = some true := by
  decide

/-- C16: for every supported type name `t` (the base types, the vector types and
`matrix`, with or without the array mark), in every build, `typeToBytes(t)` is
`typeToN(t)` times 4, the size in bytes of the base type `int`, `unsigned int` or `float`,
and it is not the 0 returned for an invalid type. -/
theorem c16_bytes_of_type (b : Build) (t : String) (ht : t ∈ supportedTypes) :
    typeToBytes b t = typeToN b t * 4 ∧ typeToBytes b t ≠ 0 := by
  rw [typeToBytes_flagBuild, typeToN_flagBuild]
  exact supportedTypes_table b.HAVE_3D t ht

theorem c16_bytes_of_type_witness :
    typeToBytes exampleBuild "uivec3*" = typeToN exampleBuild "uivec3*" * 4 ∧
      typeToBytes exampleBuild "uivec3*" ≠ 0 :=
  c16_bytes_of_type exampleBuild "uivec3*" (by decide)

/-- C17: for every supported type name `t` without array mark, in every build,
`typeToN` and `typeToBytes` give the same result on `t` and on `t` followed by the array
mark. -/
theorem c17_array_mark_stable (b : Build) (t : String) (ht : t ∈ plainTypes) :
    typeToN b (t ++ "*") = typeToN b t ∧ typeToBytes b (t ++ "*") = typeToBytes b t := by
  rw [typeToBytes_flagBuild, typeToN_flagBuild, typeToBytes_flagBuild b t,
    typeToN_flagBuild b t]
  exact plainTypes_table b.HAVE_3D t ht

theorem c17_array_mark_stable_witness :
    typeToN exampleBuild ("matrix" ++ "*") = typeToN exampleBuild "matrix" ∧
      typeToBytes exampleBuild ("matrix" ++ "*") = typeToBytes exampleBuild "matrix" :=
  c17_array_mark_stable exampleBuild "matrix" (by decide)

/-- C18: `isSameType` is reflexive: for every supported type name `t`, with or without
the array mark, and both values of `ignore_asterisk`, `isSameType(t, t, ignore_asterisk)`
returns `true`. -/
theorem c18_same_type_reflexive (b : Build) (t : String) (ht : t ∈ supportedTypes)
    (ignore_asterisk : Bool) : isSameType b t t ignore_asterisk = some true := by
  rw [isSameType_flagBuild]
  exact isSameType_refl_table b.HAVE_3D t ht ignore_asterisk

theorem c18_same_type_reflexive_witness :
    isSameType exampleBuild "unsigned int*" "unsigned int*" false = some true :=
  c18_same_type_reflexive exampleBuild "unsigned int*" (by decide) false

/-- C19: for every supported type name `t` without array mark, `isSameType` on `t` and
`t` followed by the array mark, in both orders, returns `false` when `ignore_asterisk` is
`false` and `true` when it is `true`. -/
theorem c19_same_type_array_mark (b : Build) (t : String) (ht : t ∈ plainTypes) :
    isSameType b t (t ++ "*") false = some false ∧
    isSameType b (t ++ "*") t false = some false ∧
    isSameType b t (t ++ "*") true = some true ∧
    isSameType b (t ++ "*") t true = some true := by
  rw [isSameType_flagBuild b t, isSameType_flagBuild b (t ++ "*"),
    isSameType_flagBuild b t, isSameType_flagBuild b (t ++ "*")]
  exact isSameType_mark_table b.HAVE_3D t ht

theorem c19_same_type_array_mark_witness :
    isSameType exampleBuild "vec3" ("vec3" ++ "*") false = some false ∧
    isSameType exampleBuild ("vec3" ++ "*") "vec3" false = some false ∧
    isSameType exampleBuild "vec3" ("vec3" ++ "*") true = some true ∧
    isSameType exampleBuild ("vec3" ++ "*") "vec3" true = some true :=
  c19_same_type_array_mark exampleBuild "vec3" (by decide)

end InputOutput

end Aqua

namespace Aqua

namespace InputOutput

/-! ## Theorems on a failed registration -/

theorem filter_eraseIdx_of_false {α : Type} (p : α → Bool) :
    ∀ (l : List α) (i : Nat) (a : α), l[i]? = some a → p a = false →
      (l.eraseIdx i).filter p = l.filter p
  | [], _, _, h, _ => by simp at h
  | x :: l, 0, a, h, hp => by
    simp only [List.getElem?_cons_zero, Option.some.injEq] at h
    subst h
    simp [hp]
  | x :: l, i + 1, a, h, hp => by
    simp only [List.getElem?_cons_succ] at h
    simp only [List.eraseIdx_cons_succ, List.filter_cons]
    rw [filter_eraseIdx_of_false p l i a h hp]

theorem eraseNamed_filter {V : Type} (name : String) :
    ∀ (fuel i : Nat) (l : List (Variable V)),
      (Variables.eraseNamed name fuel i l).filter (fun v => v.name != name) =
        l.filter (fun v => v.name != name)
  | 0, _, _ => rfl
  | fuel + 1, i, l => by
    simp only [Variables.eraseNamed]
    cases hi : l[i]? with
    | none => rfl
    | some var =>
      simp only []
      by_cases hn : (var.name == name) = true
      · rw [if_pos hn, eraseNamed_filter name fuel (i + 1), dequeErase_eq_eraseIdx]
        exact filter_eraseIdx_of_false _ l i var hi (by simp [bne, hn])
      · rw [if_neg hn]
        exact eraseNamed_filter name fuel (i + 1) l

theorem eraseNamed_eq_filter {T V : Type} (vars : Variables T V) (name : String)
    (h : UniqueNames vars) :
    Variables.eraseNamed name vars._vars.length 0 vars._vars =
      vars._vars.filter (fun v => v.name != name) := by
  rw [← eraseNamed_filter name vars._vars.length 0 vars._vars]
  symm
  rw [List.filter_eq_self]
  intro v hv
  have := (eraseNamed_unique vars name h).1 v hv
  simpa [bne] using this

/-- C11, as stated, fails: the registration of `a` as a `vec3` with a value of two
components fails, and the variable `a` registered before is no more in the registry. -/
theorem c11_failed_registration_counterexample :
    exampleRegistry._vars.map (fun var => var.name) = ["a", "b"] ∧
    (Variables.registerVariable exampleBuild litTokenizer litFloatOps (fun _ => none)
      exampleRegistry "a" "vec3" "" "1,2").failed = true ∧
    (Variables.registerVariable exampleBuild litTokenizer litFloatOps (fun _ => none)
      exampleRegistry "a" "vec3" "" "1,2").state?.map
        (fun s => s._vars.map (fun var => var.name)) = some ["b"] := by
  decide

/-- C11, amended: a failed `registerVariable(name, type, length, value)`, on a registry
without two variables of the same name, adds no variable and leaves the variables
registered under another name than `name` in the registry, in the same order; the
variable registered under `name` before the call, if any, is no more in the registry. -/
theorem c11_failed_registration {T V : Type} (b : Build) (tk : Tokenizer T V)
    (fl : FloatOps V) (cl : Nat → Option Nat) (vars s : Variables T V)
    (name type length value : String) (hu : UniqueNames vars)
    (herr : Variables.registerVariable b tk fl cl vars name type length value = Res.err s) :
    s._vars = vars._vars.filter (fun v => v.name != name) ∧ s.get name = none := by
  have hv : s._vars = vars._vars.filter (fun v => v.name != name) := by
    rcases registerVariable_registers b tk fl cl vars name type length value with
      ⟨s1, hr, hv, -⟩ | ⟨tok, ty, val, hr⟩ | hr
    · rw [hr, Res.err.injEq] at herr
      subst herr
      rw [hv]
      exact eraseNamed_eq_filter vars name hu
    · rw [hr] at herr; exact Res.noConfusion herr
    · rw [hr] at herr; exact Res.noConfusion herr
  refine ⟨hv, ?_⟩
  show s._vars.find? (fun var => name == var.name) = none
  rw [hv, List.find?_eq_none]
  intro v hv1
  have hne : v.name ≠ name := by simpa [bne] using (List.mem_filter.1 hv1).2
  simpa using fun e : name = v.name => hne e.symm

theorem c11_failed_registration_witness :
    (Variables.registerVariable exampleBuild litTokenizer litFloatOps (fun _ => none)
      exampleRegistry "a" "vec3" "" "1,2" =
        Res.err ⟨[⟨1, "b", "vec2", Value.vec [1, 2]⟩], [("a_x", 1), ("b_y", 2), ("b_x", 1),
          ("a", 1)], 3⟩) ∧
    ((⟨[⟨1, "b", "vec2", Value.vec [1, 2]⟩], [("a_x", 1), ("b_y", 2), ("b_x", 1),
          ("a", 1)], 3⟩ : Variables (List (String × Int)) Int)._vars =
        exampleRegistry._vars.filter (fun v => v.name != "a") ∧
      (⟨[⟨1, "b", "vec2", Value.vec [1, 2]⟩], [("a_x", 1), ("b_y", 2), ("b_x", 1),
          ("a", 1)], 3⟩ : Variables (List (String × Int)) Int).get "a" = none) :=
  ⟨by decide, c11_failed_registration exampleBuild litTokenizer litFloatOps (fun _ => none)
    exampleRegistry _ "a" "vec3" "" "1,2"
    (uniqueNames_registerAll exampleBuild litTokenizer litFloatOps _ _
      ⟨List.nodup_nil, fun v hv => absurd hv (List.not_mem_nil _)⟩) (by decide)⟩

end InputOutput

end Aqua

namespace Aqua

namespace InputOutput

/-! ## Theorems on the publication of the components -/

theorem splitSemi_of_contains (r : List Char) (h : r.contains ';' = true) :
    splitSemi r = truncateAt ';' r :: splitSemi (afterFirst ';' r) := by
  cases hs : splitSemi r with
  | nil => exact absurd hs (splitSemi_ne_nil r)
  | cons s ss =>
    obtain ⟨h1, h2, h3⟩ := splitSemi_cons_spec r s ss hs
    by_cases hss : ss = []
    · rw [h2 hss] at h
      exact Bool.noConfusion h
    · rw [h1, (h3 hss).2]

theorem head_splitSemi (r : List Char) :
    ∃ ss, splitSemi r = truncateAt ';' r :: ss := by
  cases hs : splitSemi r with
  | nil => exact absurd hs (splitSemi_ne_nil r)
  | cons s ss =>
    obtain ⟨h1, -, -⟩ := splitSemi_cons_spec r s ss hs
    exact ⟨ss, by rw [h1]⟩

theorem readLast_evalSegments {T V : Type} (tk : Tokenizer T V) (name : String) (n : Nat)
    (hn : n ≤ 4) :
    ∀ (k i : Nat) (tok : T) (r : List Char) (v : List V) (tok1 : T) (w : List V),
      i + k + 1 = n →
      readLast tk name n (readLoop tk name k i tok r v) = Res.ok (tok1, w) →
      ∃ vs, w = v ++ vs ∧ vs.length = k + 1 ∧
        evalSegments tk name n (((splitSemi r).take (k + 1)).map String.mk) i tok =
          some (tok1, vs)
  | 0, i, tok, r, v, tok1, w, hi, h => by
    obtain ⟨ss, hss⟩ := head_splitSemi r
    simp only [readLoop, readLast] at h
    rw [hss]
    simp only [List.take_succ_cons, List.take_zero, List.map, evalSegments]
    cases hsol : tk.solve tok (String.mk (truncateAt ';' r)) with
    | mk val e =>
      rw [hsol] at h
      cases e with
      | true => exact Res.noConfusion h
      | false =>
        simp only [] at h ⊢
        by_cases hn1 : n = 1
        · rw [if_neg (not_not.2 hn1), Res.ok.injEq, Prod.mk.injEq] at h
          obtain ⟨rfl, rfl⟩ := h
          exact ⟨[val], rfl, rfl, by rw [compName, if_pos hn1]⟩
        · have hidx : (n + 2 ^ 32 - 1) % 2 ^ 32 = i := by omega
          rw [if_pos hn1, hidx, extensions_getElem? i (by omega)] at h
          simp only [Res.ok.injEq, Prod.mk.injEq] at h
          obtain ⟨rfl, rfl⟩ := h
          exact ⟨[val], rfl, rfl, by rw [compName, if_neg hn1]⟩
  | k + 1, i, tok, r, v, tok1, w, hi, h => by
    have hn1 : n ≠ 1 := by omega
    simp only [readLoop] at h
    by_cases hc : r.contains ';' = true
    · rw [hc] at h
      simp only [Bool.not_true, Bool.false_eq_true, if_false] at h
      rw [splitSemi_of_contains r hc]
      simp only [List.take_succ_cons, List.map, evalSegments]
      cases hsol : tk.solve tok (String.mk (truncateAt ';' r)) with
      | mk val e =>
        rw [hsol] at h
        cases e with
        | true => exact Res.noConfusion h
        | false =>
          simp only [] at h ⊢
          rw [extensions_getElem? i (by omega)] at h
          simp only [] at h
          obtain ⟨vs, hw, hl, hev⟩ := readLast_evalSegments tk name n hn k (i + 1) _ _ _ tok1 w
            (by omega) h
          have hname : compName name n i = name ++ extensions.getD i "" := by
            rw [compName, if_neg hn1]
          rw [hname, hev]
          exact ⟨val :: vs, by rw [hw, List.append_assoc]; rfl, by simp [hl], rfl⟩
    · have hc1 : r.contains ';' = false := by simpa using hc
      rw [hc1] at h
      simp only [Bool.not_false, if_true] at h
      exact Res.noConfusion h

theorem evalSegments_publish {T V : Type} (tk : Tokenizer T V) (name : String) (n : Nat) :
    ∀ (segs : List String) (i : Nat) (tok tok1 : T) (vs : List V),
      evalSegments tk name n segs i tok = some (tok1, vs) →
      tok1 = publish tk name n i vs tok ∧ vs.length = segs.length ∧
      ∀ (j : Nat) (x : V), vs[j]? = some x →
        ∃ s, segs[j]? = some s ∧
          tk.solve (publish tk name n i (vs.take j) tok) s = (x, false)
  | [], _, _, _, _, h => by
    simp only [evalSegments, Option.some.injEq, Prod.mk.injEq] at h
    obtain ⟨rfl, rfl⟩ := h
    exact ⟨rfl, rfl, fun j x hj => by simp at hj⟩
  | s0 :: ss, i, tok, tok1, vs, h => by
    simp only [evalSegments] at h
    cases hsol : tk.solve tok s0 with
    | mk val e =>
      rw [hsol] at h
      cases e with
      | true => exact Option.noConfusion h
      | false =>
        simp only [] at h
        cases hrec : evalSegments tk name n ss (i + 1)
            (tk.registerVariable tok (compName name n i) val) with
        | none => rw [hrec] at h; exact Option.noConfusion h
        | some p =>
          obtain ⟨t2, vs2⟩ := p
          rw [hrec] at h
          simp only [Option.some.injEq, Prod.mk.injEq] at h
          obtain ⟨rfl, rfl⟩ := h
          obtain ⟨ih1, ih2, ih3⟩ := evalSegments_publish tk name n ss (i + 1) _ _ _ hrec
          refine ⟨by rw [ih1]; rfl, by simp [ih2], ?_⟩
          intro j x hj
          cases j with
          | zero =>
            simp only [List.getElem?_cons_zero, Option.some.injEq] at hj
            subst hj
            exact ⟨s0, by simp, hsol⟩
          | succ j =>
            simp only [List.getElem?_cons_succ] at hj
            obtain ⟨s, hs, hx⟩ := ih3 j x hj
            exact ⟨s, by simpa using hs, hx⟩

/-- C28: after a successful `readComponents(name, value, n, v)` for 1 to 4 components,
`v` holds `n` values and the evaluator is the one where these values have been published
in order, and nothing else: for `n = 1` the name `name`, otherwise the names made of
`name` and of the first `n` extensions of `_x`, `_y`, `_z`, `_w`. The value of each
component is the one given by the evaluator for its segment of the text once the former
components have been published. -/
theorem c28_components_published {T V : Type} (tk : Tokenizer T V) (name value : String)
    (n : Nat) (tok tok1 : T) (vs : List V) (hn : 1 ≤ n ∧ n ≤ 4)
    (hok : readComponents tk name value n tok = Res.ok (tok1, vs)) :
    vs.length = n ∧ tok1 = publish tk name n 0 vs tok ∧
    (∀ (j : Nat) (x : V), vs[j]? = some x →
      ∃ s, (splitSemi (separatorPass value))[j]? = some s ∧
        tk.solve (publish tk name n 0 (vs.take j) tok) (String.mk s) = (x, false)) ∧
    (∀ i, compName name n i =
      if n = 1 then name else name ++ (["_x", "_y", "_z", "_w"].getD i "")) := by
  have hbound : (n + 2 ^ 32 - 1) % 2 ^ 32 = n - 1 := by omega
  rw [readComponents, hbound] at hok
  obtain ⟨ws, hw, hl, hev⟩ := readLast_evalSegments tk name n hn.2 (n - 1) 0 tok _ [] tok1 vs
    (by omega) hok
  rw [List.nil_append] at hw
  subst hw
  obtain ⟨h1, h2, h3⟩ := evalSegments_publish tk name n _ 0 tok tok1 vs hev
  refine ⟨by omega, h1, ?_, fun i => rfl⟩
  · intro j x hj
    obtain ⟨s, hs, hx⟩ := h3 j x hj
    rw [List.getElem?_map] at hs
    cases hj2 : ((splitSemi (separatorPass value)).take (n - 1 + 1))[j]? with
    | none => rw [hj2] at hs; exact Option.noConfusion hs
    | some s1 =>
      rw [hj2, Option.map_some', Option.some.injEq] at hs
      subst hs
      refine ⟨s1, ?_, hx⟩
      rw [List.getElem?_take] at hj2
      split at hj2
      · exact hj2
      · exact Option.noConfusion hj2

theorem c28_components_published_witness :
    ([1, 3] : List Int).length = 2 ∧
    [("v_y", 3), ("v_x", 1)] = publish litTokenizer "v" 2 0 [1, 3] [] ∧
    (∀ (j : Nat) (x : Int), ([1, 3] : List Int)[j]? = some x →
      ∃ s, (splitSemi (separatorPass "1,3"))[j]? = some s ∧
        litTokenizer.solve (publish litTokenizer "v" 2 0 (([1, 3] : List Int).take j) [])
          (String.mk s) = (x, false)) ∧
    (∀ i, compName "v" 2 i =
      if 2 = 1 then "v" else "v" ++ (["_x", "_y", "_z", "_w"].getD i "")) :=
  c28_components_published litTokenizer "v" "1,3" 2 [] [("v_y", 3), ("v_x", 1)] [1, 3]
    (by decide) (by decide)

end InputOutput

end Aqua

namespace Aqua

namespace CalcServer

/-! ## Theorems on the elapsed times -/

theorem n_iters_foldl (xs : List ℚ) : ∀ t : Tool,
    (xs.foldl addElapsedTime t)._n_iters = t._n_iters + xs.length := by
  induction xs with
  | nil => intro t; rfl
  | cons x xs ih =>
    intro t
    rw [List.foldl_cons, ih]
    simp only [addElapsedTime, List.length_cons]
    omega

theorem average_foldl (xs : List ℚ) : ∀ t : Tool,
    (xs.foldl addElapsedTime t)._average_elapsed_time * ((t._n_iters + xs.length : Nat) : ℚ) =
      t._average_elapsed_time * (t._n_iters : ℚ) + xs.sum := by
  induction xs with
  | nil => intro t; simp
  | cons x xs ih =>
    intro t
    rw [List.foldl_cons]
    have h := ih (addElapsedTime t x)
    have hn : ((t._n_iters + 1 : Nat) : ℚ) ≠ 0 :=
      Nat.cast_ne_zero.2 (Nat.succ_ne_zero t._n_iters)
    have e1 : (addElapsedTime t x)._n_iters + xs.length = t._n_iters + (x :: xs).length := by
      simp only [addElapsedTime, List.length_cons]; omega
    rw [e1] at h
    rw [h, List.sum_cons]
    simp only [addElapsedTime]
    rw [div_mul_cancel₀ _ hn]
    ring

theorem squared_foldl (xs : List ℚ) : ∀ t : Tool,
    (xs.foldl addElapsedTime t)._squared_elapsed_time * ((t._n_iters + xs.length : Nat) : ℚ) =
      t._squared_elapsed_time * (t._n_iters : ℚ) + (xs.map (fun x => x * x)).sum := by
  induction xs with
  | nil => intro t; simp
  | cons x xs ih =>
    intro t
    rw [List.foldl_cons]
    have h := ih (addElapsedTime t x)
    have hn : ((t._n_iters + 1 : Nat) : ℚ) ≠ 0 :=
      Nat.cast_ne_zero.2 (Nat.succ_ne_zero t._n_iters)
    have e1 : (addElapsedTime t x)._n_iters + xs.length = t._n_iters + (x :: xs).length := by
      simp only [addElapsedTime, List.length_cons]; omega
    rw [e1] at h
    rw [h, List.map_cons, List.sum_cons]
    simp only [addElapsedTime]
    rw [div_mul_cancel₀ _ hn]
    ring

theorem elapsed_foldl (xs : List ℚ) : ∀ t : Tool,
    (xs.foldl addElapsedTime t)._elapsed_time = xs.getLast?.getD t._elapsed_time := by
  induction xs with
  | nil => intro t; rfl
  | cons x xs ih =>
    intro t
    rw [List.foldl_cons, ih]
    cases xs with
    | nil => rfl
    | cons y ys =>
      rw [List.getLast?_cons_cons]
      cases h : (y :: ys).getLast? with
      | none => simp at h
      | some z => rfl

/-- C15: each call of `Tool::addElapsedTime` with the sample `x` turns the count `n`, the
mean and the mean of the squares into `n + 1`, `(mean * n + x) / (n + 1)` and
`(meanSq * n + x * x) / (n + 1)`, and stores `x` as the last elapsed time. So, in exact
arithmetic, after the calls with the samples `xs` on a tool just built the count is the
number of samples, the mean is their sum over their number, the mean of the squares is
the sum of their squares over their number, and the last elapsed time is the last
sample. -/
theorem c15_running_average (tool_name : String) (xs : List ℚ) :
    (∀ (t : Tool) (x : ℚ),
      (addElapsedTime t x)._n_iters = t._n_iters + 1 ∧
      (addElapsedTime t x)._average_elapsed_time =
        (t._average_elapsed_time * t._n_iters + x) / (t._n_iters + 1) ∧
      (addElapsedTime t x)._squared_elapsed_time =
        (t._squared_elapsed_time * t._n_iters + x * x) / (t._n_iters + 1) ∧
      (addElapsedTime t x)._elapsed_time = x) ∧
    (xs.foldl addElapsedTime (Tool.new tool_name))._n_iters = xs.length ∧
    (xs.foldl addElapsedTime (Tool.new tool_name))._average_elapsed_time =
      xs.sum / xs.length ∧
    (xs.foldl addElapsedTime (Tool.new tool_name))._squared_elapsed_time =
      (xs.map (fun x => x * x)).sum / xs.length ∧
    (xs.foldl addElapsedTime (Tool.new tool_name))._elapsed_time = xs.getLast?.getD 0 := by
  refine ⟨fun t x => ⟨rfl, by simp [addElapsedTime], by simp [addElapsedTime], rfl⟩, ?_, ?_, ?_,
    elapsed_foldl xs _⟩
  · rw [n_iters_foldl]; simp [Tool.new]
  · have h := average_foldl xs (Tool.new tool_name)
    simp only [Tool.new, Nat.zero_add, Nat.cast_zero, mul_zero, zero_add] at h
    by_cases hl : xs.length = 0
    · have : xs = [] := List.length_eq_zero.1 hl
      subst this
      simp [Tool.new]
    · rw [← h, mul_div_cancel_right₀ _ (Nat.cast_ne_zero.2 hl)]
      rfl
  · have h := squared_foldl xs (Tool.new tool_name)
    simp only [Tool.new, Nat.zero_add, Nat.cast_zero, mul_zero, zero_add] at h
    by_cases hl : xs.length = 0
    · have : xs = [] := List.length_eq_zero.1 hl
      subst this
      simp [Tool.new]
    · rw [← h, mul_div_cancel_right₀ _ (Nat.cast_ne_zero.2 hl)]
      rfl

/-- Three samples on a tool just built. -/
theorem running_average_example :
    [1, 2, 6].foldl addElapsedTime (Tool.new "t") = ⟨"t", 0, 3, 6, 3, 41 / 3⟩ := by
  simp only [List.foldl, addElapsedTime, Tool.new]
  norm_num

end CalcServer

end Aqua
namespace Aqua

namespace CalcServer

open InputOutput

/-! ## Theorems on the global work size -/

theorem roundUp_spec (x divisor : Nat) (hd : 0 < divisor)
    (hfit : (x + divisor - 1) / divisor * divisor < 2 ^ 32) :
    divisor ∣ roundUp x divisor ∧ x ≤ roundUp x divisor ∧ roundUp x divisor < x + divisor := by
  unfold roundUp
  rw [Nat.mod_eq_of_lt hfit]
  refine ⟨Nat.dvd_mul_left _ _, ?_, ?_⟩
  · have h1 := Nat.div_add_mod (x + divisor - 1) divisor
    have h2 := Nat.mod_lt (x + divisor - 1) hd
    rw [Nat.mul_comm] at h1
    omega
  · have h1 := Nat.div_mul_le_self (x + divisor - 1) divisor
    omega

theorem typeToBytes_unsigned_int (b : Build) : typeToBytes b "unsigned int" ≠ 0 := by
  rw [typeToBytes_flagBuild]
  cases b.HAVE_3D <;> decide

theorem solve_unsigned_int {T V : Type} (b : Build) (tk : Tokenizer T V) (fl : FloatOps V)
    (value name : String) (tok : T) (hvalue : (value == "") = false) :
    solve b tk fl "unsigned int" value name tok =
      storeValue (fun v => Value.uint (fl.toUInt (v.headD fl.zero)))
        (readComponents tk name value 1 tok) := by
  unfold solve
  rw [if_neg (typeToBytes_unsigned_int b), hvalue, if_neg (by decide : ¬ (false = true)),
    if_neg (by decide), if_pos (by decide)]
  rfl

theorem no_round_up_in_32_bits :
    ∀ G : Nat, G < 2 ^ 32 → ¬ (64 ∣ G ∧ 4294967295 ≤ G) := by
  intro G hG h
  omega

/-- C13, as stated, fails: the expression `-1` for the number of threads is evaluated to
the `float` -1, rounded to the `int` -1 and converted to `unsigned int`, so that the count
of threads is 4294967295; with a work group size of 64 the global work size stored is 0,
which is below the count of threads, and no value of 32 bits, as `roundUp` returns, is a
multiple of 64 not below the count of threads. -/
theorem c13_global_work_size_counterexample :
    solve exampleBuild litTokenizer litFloatOps "unsigned int" "-1" "NULL" [] =
      Res.ok ([("NULL", -1)], some (Value.uint 4294967295)) ∧
    exampleKernel._work_group_size = 64 ∧
    (computeGlobalWorkSize exampleBuild litTokenizer litFloatOps "NULL" 0 emptyVariables
      { exampleKernel with _n := "-1" }).state?.map
        (fun p => p.2._global_work_size) = some 0 ∧
    ¬ (4294967295 ≤ 0) ∧
    ∀ G : Nat, G < 2 ^ 32 → ¬ (64 ∣ G ∧ 4294967295 ≤ G ∧ G < 4294967295 + 64) := by
  refine ⟨by decide, by decide, by decide, by decide, ?_⟩
  intro G hG h
  omega

/-- The count of threads given by a text of digits goes through `float` and `int`: above
the range of `int` it is 2147483648, for which the global work size is right. -/
theorem thread_count_examples :
    solve exampleBuild litTokenizer litFloatOps "unsigned int" "4294967295" "NULL" [] =
      Res.ok ([("NULL", 4294967296)], some (Value.uint 2147483648)) ∧
    solve exampleBuild litTokenizer litFloatOps "unsigned int" "16777217" "NULL" [] =
      Res.ok ([("NULL", 16777216)], some (Value.uint 16777216)) ∧
    (computeGlobalWorkSize exampleBuild litTokenizer litFloatOps "NULL" 0 emptyVariables
      { exampleKernel with _n := "4294967295" }).state?.map
        (fun p => p.2._global_work_size) = some 2147483648 := by
  decide

/-- C13, amended: when the count of threads `N` given by `solve` and the work group size
`W`, which is not 0, are such that `W` and the least multiple of `W` not below `N` are
below 2^32, `Kernel::computeGlobalWorkSize` succeeds and stores a global work size `G`
which is a multiple of `W` with `N ≤ G < N + W`. -/
theorem c13_global_work_size {T V : Type} (b : Build) (tk : Tokenizer T V) (fl : FloatOps V)
    (name : String) (junk : Nat) (vars : Variables T V) (k : Kernel) (tok1 : T) (N : Nat)
    (hsolve : solve b tk fl "unsigned int" k._n name vars.tok =
      Res.ok (tok1, some (Value.uint N)))
    (hN : N < 2 ^ 32) (hW : 0 < k._work_group_size) (hW32 : k._work_group_size < 2 ^ 32)
    (hfit : (N + k._work_group_size - 1) / k._work_group_size * k._work_group_size < 2 ^ 32) :
    ∃ G, computeGlobalWorkSize b tk fl name junk vars k =
        Res.ok ({ vars with tok := tok1 }, { k with _global_work_size := G }) ∧
      k._work_group_size ∣ G ∧ N ≤ G ∧ G < N + k._work_group_size := by
  refine ⟨roundUp N k._work_group_size, ?_, roundUp_spec N k._work_group_size hW hfit⟩
  unfold computeGlobalWorkSize
  rw [if_neg (by omega), if_neg (by rw [Nat.mod_eq_of_lt hW32]; omega), hsolve]
  simp only [Nat.mod_eq_of_lt hN, Nat.mod_eq_of_lt hW32]

theorem c13_global_work_size_witness :
    ∃ G, computeGlobalWorkSize exampleBuild litTokenizer litFloatOps "NULL" 0 registryN100
        exampleKernel =
        Res.ok ({ registryN100 with tok := [("NULL", 100), ("N", 100)] },
          { exampleKernel with _global_work_size := G }) ∧
      exampleKernel._work_group_size ∣ G ∧ 100 ≤ G ∧ G < 100 + exampleKernel._work_group_size :=
  c13_global_work_size exampleBuild litTokenizer litFloatOps "NULL" 0 registryN100
    exampleKernel [("NULL", 100), ("N", 100)] 100 (by decide) (by decide) (by decide)
    (by decide) (by decide)

end CalcServer

end Aqua
namespace Aqua

namespace CalcServer

open InputOutput

/-! ## Theorems on what the binding of the arguments leaves as it is -/

theorem SameLaunch.same (k : Kernel) : SameLaunch k k := ⟨rfl, rfl, rfl, rfl, rfl, rfl⟩

theorem SameLaunch.step {a b c : Kernel} (h1 : SameLaunch a b) (h2 : SameLaunch b c) :
    SameLaunch a c :=
  ⟨h2.1.trans h1.1, h2.2.1.trans h1.2.1, h2.2.2.1.trans h1.2.2.1,
    h2.2.2.2.1.trans h1.2.2.2.1, h2.2.2.2.2.1.trans h1.2.2.2.2.1,
    h2.2.2.2.2.2.trans h1.2.2.2.2.2⟩

theorem sameLaunch_updateArg (dev : Device) (k : Kernel) (i : Nat) (value buffer : List Nat)
    (k1 : Kernel) (h : (updateArg dev k i value buffer).state? = some k1) :
    SameLaunch k k1 := by
  unfold updateArg at h
  by_cases hc : dev.clSetKernelArg i value = true
  · rw [if_pos hc] at h
    simp only [Res.state?, Option.some.injEq] at h
    subst h
    exact ⟨rfl, rfl, rfl, rfl, rfl, by simp⟩
  · rw [if_neg hc] at h
    simp only [Res.state?, Option.some.injEq] at h
    subst h
    exact ⟨rfl, rfl, rfl, rfl, rfl, by simp⟩

theorem sameLaunch_bindVariable {T V : Type} (dev : Device) (bytes : Variable V → List Nat)
    (vars : Variables T V) (k : Kernel) (i : Nat) (name : String) (k1 : Kernel)
    (h : (bindVariable dev bytes vars k i name).state? = some k1) : SameLaunch k k1 := by
  unfold bindVariable at h
  cases hg : vars.get name with
  | none =>
    rw [hg] at h
    simp only [Res.state?, Option.some.injEq] at h
    subst h
    exact SameLaunch.same k
  | some var =>
    rw [hg] at h
    simp only [] at h
    cases hv : k._var_values[i]? with
    | none => rw [hv] at h; exact Option.noConfusion h
    | some o =>
      rw [hv] at h
      cases o with
      | none => exact sameLaunch_updateArg dev k i _ _ k1 h
      | some snapshot =>
        simp only [] at h
        by_cases h1 : snapshot.length < (bytes var).length
        · rw [if_pos h1] at h; exact Option.noConfusion h
        · rw [if_neg h1] at h
          by_cases h2 : snapshot.take (bytes var).length = bytes var
          · rw [if_pos h2] at h
            simp only [Res.state?, Option.some.injEq] at h
            subst h
            exact SameLaunch.same k
          · rw [if_neg h2] at h
            exact sameLaunch_updateArg dev k i _ _ k1 h

theorem sameLaunch_setVariablesLoop {T V : Type} (dev : Device)
    (bytes : Variable V → List Nat) (vars : Variables T V) :
    ∀ (names : List String) (k : Kernel) (i : Nat) (k1 : Kernel),
      (setVariablesLoop dev bytes vars k i names).state? = some k1 → SameLaunch k k1
  | [], k, _, k1, h => by
    simp only [setVariablesLoop, Res.state?, Option.some.injEq] at h
    subst h
    exact SameLaunch.same k
  | name :: names, k, i, k1, h => by
    simp only [setVariablesLoop] at h
    cases hb : bindVariable dev bytes vars k i name with
    | ok k2 =>
      rw [hb] at h
      exact (sameLaunch_bindVariable dev bytes vars k i name k2 (by rw [hb]; rfl)).step
        (sameLaunch_setVariablesLoop dev bytes vars names k2 (i + 1) k1 h)
    | err k2 =>
      rw [hb] at h
      exact sameLaunch_bindVariable dev bytes vars k i name k1 (by rw [hb]; exact h)
    | undef => rw [hb] at h; exact Option.noConfusion h

theorem sameLaunch_setVariables {T V : Type} (dev : Device) (bytes : Variable V → List Nat)
    (vars : Variables T V) (k k1 : Kernel)
    (h : (setVariables dev bytes vars k).state? = some k1) : SameLaunch k k1 :=
  sameLaunch_setVariablesLoop dev bytes vars k._var_names k 0 k1 h

/-- C14, as stated, fails: the kernel is set up while `N` is 100, which gives a global
work size of 128 for the work group size 64; once `N` has become 1000 in the registry,
`_execute` launches the kernel with the global work size 128 again, not with the 1024
that `computeGlobalWorkSize` would give. -/
theorem c14_work_size_counterexample :
    exampleSetup._global_work_size = 128 ∧ exampleSetup._work_group_size = 64 ∧
    (registryN1000.get "N").map (fun var => var.value) = some (Value.uint 1000) ∧
    (_execute exampleDevice exampleBytes registryN1000 exampleSetup).state?.map
      (fun k => k.launches) = some [(128, 64)] ∧
    (_execute exampleDevice exampleBytes registryN1000 exampleSetup).failed = false ∧
    (computeGlobalWorkSize exampleBuild litTokenizer litFloatOps "NULL" 0 registryN1000
      exampleSetup).state?.map (fun p => p.2._global_work_size) = some 1024 := by
  decide

/-- C14, amended: `Kernel::_execute` does not evaluate the thread-count expression. It
leaves the global work size stored in the kernel as it is, and when the arguments are
bound it makes exactly one launch, with the stored global work size and the stored work
group size, whatever the registry holds at that time. -/
theorem c14_work_size {T V : Type} (dev : Device) (bytes : Variable V → List Nat)
    (vars : Variables T V) (k k1 : Kernel)
    (h : (_execute dev bytes vars k).state? = some k1) :
    k1._global_work_size = k._global_work_size ∧
    k1._work_group_size = k._work_group_size ∧
    ((setVariables dev bytes vars k).failed = true → k1.launches = k.launches) ∧
    ((setVariables dev bytes vars k).failed = false →
      k1.launches = k.launches ++ [(k._global_work_size, k._work_group_size)]) := by
  unfold _execute at h
  cases hs : setVariables dev bytes vars k with
  | ok k2 =>
    have hl := sameLaunch_setVariables dev bytes vars k k2 (by rw [hs]; rfl)
    rw [hs] at h
    simp only [] at h
    by_cases hc : dev.clEnqueueNDRangeKernel k2._global_work_size k2._work_group_size = true
    · rw [if_pos hc] at h
      simp only [Res.state?, Option.some.injEq] at h
      subst h
      refine ⟨hl.1, hl.2.1, fun hf => Bool.noConfusion hf, fun _ => ?_⟩
      show k2.launches ++ _ = _
      rw [hl.1, hl.2.1, hl.2.2.2.2.1]
    · rw [if_neg hc] at h
      simp only [Res.state?, Option.some.injEq] at h
      subst h
      refine ⟨hl.1, hl.2.1, fun hf => Bool.noConfusion hf, fun _ => ?_⟩
      show k2.launches ++ _ = _
      rw [hl.1, hl.2.1, hl.2.2.2.2.1]
  | err k2 =>
    have hl := sameLaunch_setVariables dev bytes vars k k2 (by rw [hs]; rfl)
    rw [hs] at h
    simp only [Res.state?, Option.some.injEq] at h
    subst h
    exact ⟨hl.1, hl.2.1, fun _ => hl.2.2.2.2.1, fun hf => Bool.noConfusion hf⟩
  | undef => rw [hs] at h; exact Option.noConfusion h

theorem c14_work_size_witness :
    ({ exampleSetup with launches := [(128, 64)] } : Kernel)._global_work_size =
      exampleSetup._global_work_size ∧
    ({ exampleSetup with launches := [(128, 64)] } : Kernel)._work_group_size =
      exampleSetup._work_group_size ∧
    ((setVariables exampleDevice exampleBytes registryN100 exampleSetup).failed = true →
      ({ exampleSetup with launches := [(128, 64)] } : Kernel).launches =
        exampleSetup.launches) ∧
    ((setVariables exampleDevice exampleBytes registryN100 exampleSetup).failed = false →
      ({ exampleSetup with launches := [(128, 64)] } : Kernel).launches =
        exampleSetup.launches ++
          [(exampleSetup._global_work_size, exampleSetup._work_group_size)]) :=
  c14_work_size exampleDevice exampleBytes registryN100 exampleSetup
    { exampleSetup with launches := [(128, 64)] } (by decide)

end CalcServer

end Aqua
namespace Aqua

namespace CalcServer

open InputOutput

/-! ## Theorems on the failures which are not reported -/

/-- C29, on the source: when `Variables::solve` signals an error for the thread-count
expression, `Kernel::computeGlobalWorkSize` with a work group size which is not 0 does not
report a failure: it returns `false` and the global work size stored is replaced by the
one computed from the value found in the variable `N`, which `solve` has not set. -/
theorem c29_solve_failure_dropped {T V : Type} (b : Build) (tk : Tokenizer T V)
    (fl : FloatOps V) (name : String) (junk : Nat) (vars : Variables T V) (k : Kernel)
    (tok1 : T) (data : Option (Value V))
    (herr : solve b tk fl "unsigned int" k._n name vars.tok = Res.err (tok1, data))
    (hW : k._work_group_size % 2 ^ 32 ≠ 0) :
    computeGlobalWorkSize b tk fl name junk vars k =
      Res.ok ({ vars with tok := tok1 },
        { k with _global_work_size :=
          roundUp (junk % 2 ^ 32) (k._work_group_size % 2 ^ 32) }) := by
  have h0 : k._work_group_size ≠ 0 := by
    intro h
    rw [h] at hW
    exact hW rfl
  unfold computeGlobalWorkSize
  rw [if_neg h0, if_neg hW, herr]

theorem c29_solve_failure_dropped_witness :
    solve exampleBuild litTokenizer litFloatOps "unsigned int" exampleNoCount._n "NULL"
        registryN100.tok = Res.err (registryN100.tok, none) ∧
    computeGlobalWorkSize exampleBuild litTokenizer litFloatOps "NULL" 1000 registryN100
        exampleNoCount =
      Res.ok ({ registryN100 with tok := registryN100.tok },
        { exampleNoCount with
          _global_work_size :=
            roundUp (1000 % 2 ^ 32) (exampleNoCount._work_group_size % 2 ^ 32) }) ∧
    exampleNoCount._global_work_size = 128 ∧
    roundUp (1000 % 2 ^ 32) (exampleNoCount._work_group_size % 2 ^ 32) = 1024 :=
  ⟨by decide,
    c29_solve_failure_dropped exampleBuild litTokenizer litFloatOps "NULL" 1000 registryN100
      exampleNoCount registryN100.tok none (by decide) (by decide),
    by decide, by decide⟩

/-- C22, on the source: `Tool::execute` returns nothing and does not read the flag
returned by `_execute`: a stage which fails and leaves the state `s1` has the same outcome
as a stage which succeeds and leaves the state `s1`, and the call is counted in the
running average like any other. So the kernel of the examples, which fails on a registry
without its argument `N`, is executed without any failure handed to the caller. -/
theorem c22_failure_not_reported :
    (∀ (S : Type) (tic tac : Int × Int) (t : Tool) (s s1 : S),
      execute (fun _ => Res.err s1) tic tac t s =
        execute (fun _ => Res.ok s1) tic tac t s) ∧
    (_execute exampleDevice exampleBytes emptyVariables exampleSetup).failed = true ∧
    (execute (_execute exampleDevice exampleBytes emptyVariables) (0, 0) (1, 0)
      (Tool.new "k") exampleSetup).map (fun p => (p.1._n_iters, p.2)) =
        some (1, exampleSetup) := by
  refine ⟨fun S tic tac t s s1 => rfl, by decide, by decide⟩

end CalcServer

end Aqua
namespace Aqua

namespace CalcServer

open InputOutput

/-! ## Theorems on the arguments of the entry point -/

theorem visitParameters_eq : ∀ (cs : CXCursors) (data : clientData),
    visitParameters cs data =
      { data with var_names := data.var_names ++ parameterNames cs }
  | CXCursors.nil, data => by simp [visitParameters, parameterNames]
  | CXCursors.cons (CXCursor.node kind name _) cs, data => by
    simp only [visitParameters, parameterNames]
    rw [visitParameters_eq cs]
    by_cases h : kind = CXCursorKind.ParmDecl
    · simp [h]
    · simp [h]

mutual
theorem visitCursor_eq (ep : String) : ∀ (c : CXCursor) (data : clientData),
    data.entry_points < 2 ^ 32 →
    visitCursor ep c data =
      ⟨(data.entry_points + ((declarationsOf c).filter (fun d => d.1 = ep)).length) % 2 ^ 32,
        data.var_names ++
          (((declarationsOf c).filter (fun d => d.1 = ep)).map (fun d => d.2)).flatten⟩
  | CXCursor.node kind name children, data, hd => by
    simp only [visitCursor, declarationsOf]
    by_cases hk : kind = CXCursorKind.FunctionDecl ∨ kind = CXCursorKind.ObjCInstanceMethodDecl
    · rw [if_pos hk, if_pos hk]
      by_cases hn : name = ep
      · rw [if_pos hn, visitParameters_eq]
        simp [hn]
      · rw [if_neg hn]
        have h32 : data.entry_points % 4294967296 = data.entry_points :=
          Nat.mod_eq_of_lt hd
        simp [hn, h32]
    · rw [if_neg hk, if_neg hk]
      exact visitChildren_eq ep children data hd
theorem visitChildren_eq (ep : String) : ∀ (cs : CXCursors) (data : clientData),
    data.entry_points < 2 ^ 32 →
    visitChildren ep cs data =
      ⟨(data.entry_points + ((declarationsIn cs).filter (fun d => d.1 = ep)).length) % 2 ^ 32,
        data.var_names ++
          (((declarationsIn cs).filter (fun d => d.1 = ep)).map (fun d => d.2)).flatten⟩
  | CXCursors.nil, data, hd => by
    have h32 : data.entry_points % 4294967296 = data.entry_points :=
      Nat.mod_eq_of_lt hd
    simp [visitChildren, declarationsIn, h32]
  | CXCursors.cons c cs, data, hd => by
    simp only [visitChildren, declarationsIn]
    rw [visitCursor_eq ep c data hd, visitChildren_eq ep cs _ (Nat.mod_lt _ (by decide))]
    simp only [List.filter_append, List.length_append, List.map_append, List.flatten_append,
      List.append_assoc, Nat.mod_add_mod, Nat.add_assoc]
end

theorem variables_eq (root : CXCursors) (entry_point : String) (k : Kernel)
    (hnames : k._var_names = []) (hvalues : k._var_values = [])
    (hcount : (entryPoints entry_point root).length < 2 ^ 32) :
    Kernel.variables (some root) entry_point k =
      if (entryPoints entry_point root).length = 0 then
        Res.err { k with
          _var_names := ((entryPoints entry_point root).map (fun d => d.2)).flatten }
      else if (entryPoints entry_point root).length ≠ 1 then
        Res.err { k with
          _var_names := ((entryPoints entry_point root).map (fun d => d.2)).flatten }
      else
        Res.ok { k with
          _var_names := ((entryPoints entry_point root).map (fun d => d.2)).flatten,
          _var_values := List.replicate
            ((entryPoints entry_point root).map (fun d => d.2)).flatten.length none } := by
  unfold Kernel.variables
  simp only []
  rw [visitChildren_eq entry_point root ⟨0, k._var_names⟩ (Nat.two_pow_pos 32)]
  simp only [Nat.zero_add, hnames, hvalues, List.nil_append]
  have h32 : ((declarationsIn root).filter (fun d => d.1 = entry_point)).length % 2 ^ 32 =
      (entryPoints entry_point root).length := Nat.mod_eq_of_lt hcount
  rw [h32]
  rfl

/-- C20: on a kernel just built, whose source has been parsed, `Kernel::variables`
succeeds if and only if the entry point is found exactly once among the function
declarations of the source: when it is found no times, or two times or more, the method
returns an error. On success the names of the arguments are the parameters of this
declaration in order, the list of the snapshots has the same length and every snapshot is
unset. The source is taken to hold less than 2^32 declarations of the entry point. -/
theorem c20_entry_point_once (root : CXCursors) (entry_point : String) (k : Kernel)
    (hnames : k._var_names = []) (hvalues : k._var_values = [])
    (hcount : (entryPoints entry_point root).length < 2 ^ 32) :
    ((∃ k1, Kernel.variables (some root) entry_point k = Res.ok k1) ↔
      (entryPoints entry_point root).length = 1) ∧
    ((entryPoints entry_point root).length ≠ 1 →
      ∃ k1, Kernel.variables (some root) entry_point k = Res.err k1) ∧
    ∀ k1, Kernel.variables (some root) entry_point k = Res.ok k1 →
      k1._var_names = ((entryPoints entry_point root).map (fun d => d.2)).flatten ∧
      k1._var_values.length = k1._var_names.length ∧ ∀ v ∈ k1._var_values, v = none := by
  have h := variables_eq root entry_point k hnames hvalues hcount
  by_cases h0 : (entryPoints entry_point root).length = 0
  · rw [if_pos h0] at h
    refine ⟨⟨?_, ?_⟩, fun _ => ⟨_, h⟩, ?_⟩
    · rintro ⟨k1, hk⟩
      rw [h] at hk
      exact Res.noConfusion hk
    · intro h1
      omega
    · intro k1 hk
      rw [h] at hk
      exact Res.noConfusion hk
  · rw [if_neg h0] at h
    by_cases h1 : (entryPoints entry_point root).length = 1
    · rw [if_neg (not_not.2 h1)] at h
      refine ⟨⟨fun _ => h1, fun _ => ⟨_, h⟩⟩, fun hne => absurd h1 hne, ?_⟩
      intro k1 hk
      rw [h, Res.ok.injEq] at hk
      subst hk
      refine ⟨rfl, by simp, ?_⟩
      intro v hv
      exact List.eq_of_mem_replicate hv
    · rw [if_pos h1] at h
      refine ⟨⟨?_, fun e => absurd e h1⟩, fun _ => ⟨_, h⟩, ?_⟩
      · rintro ⟨k1, hk⟩
        rw [h] at hk
        exact Res.noConfusion hk
      · intro k1 hk
        rw [h] at hk
        exact Res.noConfusion hk

theorem c20_entry_point_once_witness :
    ((∃ k1, Kernel.variables (some exampleUnit) "entry" (Kernel.new "k.cl" "entry" "N") =
        Res.ok k1) ↔ (entryPoints "entry" exampleUnit).length = 1) ∧
    ((entryPoints "entry" exampleUnit).length ≠ 1 →
      ∃ k1, Kernel.variables (some exampleUnit) "entry" (Kernel.new "k.cl" "entry" "N") =
        Res.err k1) ∧
    ∀ k1, Kernel.variables (some exampleUnit) "entry" (Kernel.new "k.cl" "entry" "N") =
        Res.ok k1 →
      k1._var_names = ((entryPoints "entry" exampleUnit).map (fun d => d.2)).flatten ∧
      k1._var_values.length = k1._var_names.length ∧ ∀ v ∈ k1._var_values, v = none :=
  c20_entry_point_once exampleUnit "entry" (Kernel.new "k.cl" "entry" "N") (by decide)
    (by decide) (by decide)

/-- The entry point found once, twice and not at all. -/
theorem entry_point_examples :
    Kernel.variables (some exampleUnit) "entry" (Kernel.new "k.cl" "entry" "N") =
      Res.ok { Kernel.new "k.cl" "entry" "N" with _var_names := ["N"], _var_values := [none] } ∧
    (Kernel.variables (some twiceUnit) "entry" (Kernel.new "k.cl" "entry" "N")).failed = true ∧
    (Kernel.variables (some exampleUnit) "main" (Kernel.new "k.cl" "main" "N")).failed = true := by
  decide

end CalcServer

end Aqua
namespace Aqua

namespace CalcServer

open InputOutput

/-! ## Theorems on the binding of the arguments -/

theorem values_updateArg (dev : Device) (k : Kernel) (i : Nat) (value buffer : List Nat)
    (k1 : Kernel) (h : (updateArg dev k i value buffer).state? = some k1) (m : Nat)
    (hm : m ≠ i) : k1._var_values[m]? = k._var_values[m]? := by
  unfold updateArg at h
  by_cases hc : dev.clSetKernelArg i value = true
  · rw [if_pos hc] at h
    simp only [Res.state?, Option.some.injEq] at h
    subst h
    exact List.getElem?_set_ne (Ne.symm hm)
  · rw [if_neg hc] at h
    simp only [Res.state?, Option.some.injEq] at h
    subst h
    exact List.getElem?_set_ne (Ne.symm hm)

theorem args_updateArg (dev : Device) (k : Kernel) (i : Nat) (value buffer : List Nat)
    (k1 : Kernel) (h : (updateArg dev k i value buffer).state? = some k1) :
    k1.args = k.args ++ [(i, value)] := by
  unfold updateArg at h
  by_cases hc : dev.clSetKernelArg i value = true
  · rw [if_pos hc] at h
    simp only [Res.state?, Option.some.injEq] at h
    subst h
    rfl
  · rw [if_neg hc] at h
    simp only [Res.state?, Option.some.injEq] at h
    subst h
    rfl

theorem values_bindVariable {T V : Type} (dev : Device) (bytes : Variable V → List Nat)
    (vars : Variables T V) (k : Kernel) (i : Nat) (name : String) (k1 : Kernel)
    (h : (bindVariable dev bytes vars k i name).state? = some k1) (m : Nat) (hm : m ≠ i) :
    k1._var_values[m]? = k._var_values[m]? := by
  unfold bindVariable at h
  cases hg : vars.get name with
  | none =>
    rw [hg] at h
    simp only [Res.state?, Option.some.injEq] at h
    subst h
    rfl
  | some var =>
    rw [hg] at h
    simp only [] at h
    cases hv : k._var_values[i]? with
    | none => rw [hv] at h; exact Option.noConfusion h
    | some o =>
      rw [hv] at h
      cases o with
      | none => exact values_updateArg dev k i _ _ k1 h m hm
      | some snapshot =>
        simp only [] at h
        by_cases h1 : snapshot.length < (bytes var).length
        · rw [if_pos h1] at h; exact Option.noConfusion h
        · rw [if_neg h1] at h
          by_cases h2 : snapshot.take (bytes var).length = bytes var
          · rw [if_pos h2] at h
            simp only [Res.state?, Option.some.injEq] at h
            subst h
            rfl
          · rw [if_neg h2] at h
            exact values_updateArg dev k i _ _ k1 h m hm

theorem args_bindVariable {T V : Type} (dev : Device) (bytes : Variable V → List Nat)
    (vars : Variables T V) (k : Kernel) (i : Nat) (name : String) (k1 : Kernel)
    (h : (bindVariable dev bytes vars k i name).state? = some k1) :
    k1.args = k.args ++
      (if stale bytes vars k i name then [(i, ((vars.get name).map bytes).getD [])]
        else []) := by
  unfold bindVariable at h
  unfold stale
  cases hg : vars.get name with
  | none =>
    rw [hg] at h
    simp only [Res.state?, Option.some.injEq] at h
    subst h
    simp
  | some var =>
    rw [hg] at h
    simp only [] at h
    cases hv : k._var_values[i]? with
    | none => rw [hv] at h; exact Option.noConfusion h
    | some o =>
      rw [hv] at h
      cases o with
      | none =>
        rw [args_updateArg dev k i _ _ k1 h]
        simp
      | some snapshot =>
        simp only [] at h
        by_cases h1 : snapshot.length < (bytes var).length
        · rw [if_pos h1] at h; exact Option.noConfusion h
        · rw [if_neg h1] at h
          by_cases h2 : snapshot.take (bytes var).length = bytes var
          · rw [if_pos h2] at h
            simp only [Res.state?, Option.some.injEq] at h
            subst h
            simp [h2]
          · rw [if_neg h2] at h
            rw [args_updateArg dev k i _ _ k1 h]
            simp [h2]

theorem snapshot_updateArg {T V : Type} (dev : Device) (bytes : Variable V → List Nat)
    (vars : Variables T V) (k : Kernel) (i : Nat) (name : String) (var : Variable V)
    (buffer : List Nat) (k1 : Kernel) (hg : vars.get name = some var)
    (hi : i < k._var_values.length)
    (h : updateArg dev k i (bytes var) buffer = Res.ok k1) :
    Snapshot bytes vars k1 i name := by
  unfold updateArg at h
  by_cases hc : dev.clSetKernelArg i (bytes var) = true
  · rw [if_pos hc, Res.ok.injEq] at h
    subst h
    refine ⟨var, bytes var ++ buffer.drop (bytes var).length, hg, ?_, ?_, ?_⟩
    · show (k._var_values.set i _)[i]? = _
      rw [List.getElem?_set_self hi]
    · simp
    · simp
  · rw [if_neg hc] at h
    exact Res.noConfusion h

theorem snapshot_bindVariable {T V : Type} (dev : Device) (bytes : Variable V → List Nat)
    (vars : Variables T V) (k : Kernel) (i : Nat) (name : String) (k1 : Kernel)
    (h : bindVariable dev bytes vars k i name = Res.ok k1) :
    Snapshot bytes vars k1 i name := by
  unfold bindVariable at h
  cases hg : vars.get name with
  | none => rw [hg] at h; exact Res.noConfusion h
  | some var =>
    rw [hg] at h
    simp only [] at h
    cases hv : k._var_values[i]? with
    | none => rw [hv] at h; exact Res.noConfusion h
    | some o =>
      have hi : i < k._var_values.length := by
        by_contra hge
        rw [List.getElem?_eq_none (by omega)] at hv
        exact Option.noConfusion hv
      rw [hv] at h
      cases o with
      | none => exact snapshot_updateArg dev bytes vars k i name var _ k1 hg hi h
      | some snapshot =>
        simp only [] at h
        by_cases h1 : snapshot.length < (bytes var).length
        · rw [if_pos h1] at h; exact Res.noConfusion h
        · rw [if_neg h1] at h
          by_cases h2 : snapshot.take (bytes var).length = bytes var
          · rw [if_pos h2, Res.ok.injEq] at h
            subst h
            exact ⟨var, snapshot, hg, hv, by omega, h2⟩
          · rw [if_neg h2] at h
            exact snapshot_updateArg dev bytes vars k i name var _ k1 hg hi h

theorem values_setVariablesLoop {T V : Type} (dev : Device) (bytes : Variable V → List Nat)
    (vars : Variables T V) :
    ∀ (names : List String) (k : Kernel) (i : Nat) (k1 : Kernel),
      (setVariablesLoop dev bytes vars k i names).state? = some k1 →
      ∀ m, m < i → k1._var_values[m]? = k._var_values[m]?
  | [], k, _, k1, h, m, _ => by
    simp only [setVariablesLoop, Res.state?, Option.some.injEq] at h
    subst h
    rfl
  | name :: names, k, i, k1, h, m, hm => by
    simp only [setVariablesLoop] at h
    cases hb : bindVariable dev bytes vars k i name with
    | ok k2 =>
      rw [hb] at h
      rw [values_setVariablesLoop dev bytes vars names k2 (i + 1) k1 h m (by omega)]
      exact values_bindVariable dev bytes vars k i name k2 (by rw [hb]; rfl) m (by omega)
    | err k2 =>
      rw [hb] at h
      exact values_bindVariable dev bytes vars k i name k1 (by rw [hb]; exact h) m (by omega)
    | undef => rw [hb] at h; exact Option.noConfusion h

theorem snapshot_congr {T V : Type} (bytes : Variable V → List Nat) (vars : Variables T V)
    (k k1 : Kernel) (i : Nat) (name : String) (h : k1._var_values[i]? = k._var_values[i]?)
    (hs : Snapshot bytes vars k i name) : Snapshot bytes vars k1 i name := by
  obtain ⟨var, s, h1, h2, h3, h4⟩ := hs
  exact ⟨var, s, h1, h.trans h2, h3, h4⟩

theorem snapshot_setVariablesLoop {T V : Type} (dev : Device)
    (bytes : Variable V → List Nat) (vars : Variables T V) :
    ∀ (names : List String) (k : Kernel) (i : Nat) (k1 : Kernel),
      setVariablesLoop dev bytes vars k i names = Res.ok k1 →
      ∀ j name, names[j]? = some name → Snapshot bytes vars k1 (i + j) name
  | [], _, _, _, _, j, name, hj => by simp at hj
  | n0 :: names, k, i, k1, h, j, name, hj => by
    simp only [setVariablesLoop] at h
    cases hb : bindVariable dev bytes vars k i n0 with
    | ok k2 =>
      rw [hb] at h
      simp only [] at h
      cases j with
      | zero =>
        simp only [List.getElem?_cons_zero, Option.some.injEq] at hj
        subst hj
        have h2 := snapshot_bindVariable dev bytes vars k i n0 k2 hb
        exact snapshot_congr bytes vars k2 k1 i n0
          (values_setVariablesLoop dev bytes vars names k2 (i + 1) k1 (by rw [h]; rfl) i
            (by omega)) h2
      | succ j =>
        simp only [List.getElem?_cons_succ] at hj
        have := snapshot_setVariablesLoop dev bytes vars names k2 (i + 1) k1 h j name hj
        rw [Nat.add_assoc, Nat.add_comm 1 j] at this
        exact this
    | err k2 => rw [hb] at h; exact Res.noConfusion h
    | undef => rw [hb] at h; exact Res.noConfusion h

theorem bindVariable_of_snapshot {T V : Type} (dev : Device) (bytes : Variable V → List Nat)
    (vars : Variables T V) (k : Kernel) (i : Nat) (name : String)
    (h : Snapshot bytes vars k i name) : bindVariable dev bytes vars k i name = Res.ok k := by
  obtain ⟨var, s, h1, h2, h3, h4⟩ := h
  unfold bindVariable
  rw [h1]
  simp only []
  rw [h2]
  simp only []
  rw [if_neg (by omega), if_pos h4]

theorem setVariablesLoop_of_snapshot {T V : Type} (dev : Device)
    (bytes : Variable V → List Nat) (vars : Variables T V) (k : Kernel) :
    ∀ (names : List String) (i : Nat),
      (∀ j name, names[j]? = some name → Snapshot bytes vars k (i + j) name) →
      setVariablesLoop dev bytes vars k i names = Res.ok k
  | [], _, _ => rfl
  | n0 :: names, i, h => by
    simp only [setVariablesLoop]
    rw [bindVariable_of_snapshot dev bytes vars k i n0 (h 0 n0 (by simp))]
    simp only []
    apply setVariablesLoop_of_snapshot dev bytes vars k names (i + 1)
    intro j name hj
    have := h (j + 1) name (by simpa using hj)
    rw [Nat.add_assoc, Nat.add_comm 1 j]
    exact this

theorem stale_congr {T V : Type} (bytes : Variable V → List Nat) (vars : Variables T V)
    (k k1 : Kernel) (i : Nat) (name : String) (h : k1._var_values[i]? = k._var_values[i]?) :
    stale bytes vars k1 i name = stale bytes vars k i name := by
  unfold stale
  rw [h]

theorem staleArgs_congr {T V : Type} (bytes : Variable V → List Nat) (vars : Variables T V)
    (k k1 : Kernel) :
    ∀ (names : List String) (i : Nat),
      (∀ m, i ≤ m → k1._var_values[m]? = k._var_values[m]?) →
      staleArgs bytes vars k1 i names = staleArgs bytes vars k i names
  | [], _, _ => rfl
  | n0 :: names, i, h => by
    simp only [staleArgs]
    rw [stale_congr bytes vars k k1 i n0 (h i (Nat.le_refl i)),
      staleArgs_congr bytes vars k k1 names (i + 1) (fun m hm => h m (by omega))]

theorem args_setVariablesLoop {T V : Type} (dev : Device) (bytes : Variable V → List Nat)
    (vars : Variables T V) :
    ∀ (names : List String) (k : Kernel) (i : Nat) (k1 : Kernel),
      (setVariablesLoop dev bytes vars k i names).state? = some k1 →
      ∃ m, m ≤ names.length ∧
        k1.args = k.args ++ staleArgs bytes vars k i (names.take m) ∧
        (setVariablesLoop dev bytes vars k i names = Res.ok k1 → m = names.length)
  | [], k, _, k1, h => by
    simp only [setVariablesLoop, Res.state?, Option.some.injEq] at h
    subst h
    exact ⟨0, Nat.le_refl 0, by simp [staleArgs], fun _ => rfl⟩
  | n0 :: names, k, i, k1, h => by
    simp only [setVariablesLoop] at h ⊢
    cases hb : bindVariable dev bytes vars k i n0 with
    | ok k2 =>
      rw [hb] at h
      simp only [] at h ⊢
      have ha := args_bindVariable dev bytes vars k i n0 k2 (by rw [hb]; rfl)
      have hv := values_bindVariable dev bytes vars k i n0 k2 (by rw [hb]; rfl)
      obtain ⟨m, hm, hargs, hok⟩ := args_setVariablesLoop dev bytes vars names k2 (i + 1) k1 h
      refine ⟨m + 1, by simp only [List.length_cons]; omega, ?_, fun e => by
        rw [hok e]; rfl⟩
      rw [hargs, ha, List.take_succ_cons]
      simp only [staleArgs]
      rw [staleArgs_congr bytes vars k k2 _ (i + 1) (fun m hm => hv m (by omega)),
        List.append_assoc]
    | err k2 =>
      rw [hb] at h
      simp only [Res.state?, Option.some.injEq] at h
      subst h
      have ha := args_bindVariable dev bytes vars k i n0 k2 (by rw [hb]; rfl)
      refine ⟨1, by simp, ?_, fun e => Res.noConfusion e⟩
      rw [ha]
      simp [staleArgs]
    | undef => rw [hb] at h; exact Option.noConfusion h

theorem failing_updateArg (dev : Device) (k : Kernel) (i : Nat) (value buffer : List Nat) :
    (updateArg dev k i value buffer).failed = !dev.clSetKernelArg i value := by
  unfold updateArg
  by_cases hc : dev.clSetKernelArg i value = true
  · rw [if_pos hc, hc]; rfl
  · rw [if_neg hc]
    simp only [Bool.not_eq_true] at hc
    rw [hc]; rfl

theorem failing_bindVariable {T V : Type} (dev : Device) (bytes : Variable V → List Nat)
    (vars : Variables T V) (k : Kernel) (i : Nat) (name : String) (k1 : Kernel)
    (h : (bindVariable dev bytes vars k i name).state? = some k1) :
    (bindVariable dev bytes vars k i name).failed = failing dev bytes vars k i name := by
  unfold bindVariable at h ⊢
  unfold failing stale
  cases hg : vars.get name with
  | none => rfl
  | some var =>
    rw [hg] at h
    simp only [] at h ⊢
    cases hv : k._var_values[i]? with
    | none => rw [hv] at h; exact Option.noConfusion h
    | some o =>
      rw [hv] at h
      cases o with
      | none =>
        simp only [Bool.true_and]
        exact failing_updateArg dev k i _ _
      | some snapshot =>
        simp only [] at h ⊢
        by_cases h1 : snapshot.length < (bytes var).length
        · rw [if_pos h1] at h; exact Option.noConfusion h
        · rw [if_neg h1]
          by_cases h2 : snapshot.take (bytes var).length = bytes var
          · rw [if_pos h2]
            simp [h2, Res.failed]
          · rw [if_neg h2]
            simp only [ne_eq, h2, not_false_eq_true, decide_True, Bool.true_and]
            exact failing_updateArg dev k i _ _

theorem failing_congr {T V : Type} (dev : Device) (bytes : Variable V → List Nat)
    (vars : Variables T V) (k k1 : Kernel) (i : Nat) (name : String)
    (h : k1._var_values[i]? = k._var_values[i]?) :
    failing dev bytes vars k1 i name = failing dev bytes vars k i name := by
  unfold failing
  rw [stale_congr bytes vars k k1 i name h]

theorem visited_congr {T V : Type} (dev : Device) (bytes : Variable V → List Nat)
    (vars : Variables T V) (k k1 : Kernel) :
    ∀ (names : List String) (i : Nat),
      (∀ m, i ≤ m → k1._var_values[m]? = k._var_values[m]?) →
      visited dev bytes vars k1 i names = visited dev bytes vars k i names
  | [], _, _ => rfl
  | n0 :: names, i, h => by
    simp only [visited]
    rw [failing_congr dev bytes vars k k1 i n0 (h i (Nat.le_refl i)),
      visited_congr dev bytes vars k k1 names (i + 1) (fun m hm => h m (by omega))]

theorem visited_spec {T V : Type} (dev : Device) (bytes : Variable V → List Nat)
    (vars : Variables T V) (k : Kernel) :
    ∀ (names : List String) (i : Nat),
      visited dev bytes vars k i names ≤ names.length ∧
      (∀ j name, names[j]? = some name → j + 1 < visited dev bytes vars k i names →
        failing dev bytes vars k (i + j) name = false) ∧
      ((∀ j name, names[j]? = some name → failing dev bytes vars k (i + j) name = false) →
        visited dev bytes vars k i names = names.length) ∧
      ((∃ j name, names[j]? = some name ∧ failing dev bytes vars k (i + j) name = true) →
        ∃ j name, visited dev bytes vars k i names = j + 1 ∧ names[j]? = some name ∧
          failing dev bytes vars k (i + j) name = true)
  | [], _ => by
    refine ⟨Nat.le_refl 0, ?_, fun _ => rfl, ?_⟩
    · intro j name hj; simp at hj
    · rintro ⟨j, name, hj, -⟩; simp at hj
  | n0 :: names, i => by
    obtain ⟨h1, h2, h3, h4⟩ := visited_spec dev bytes vars k names (i + 1)
    simp only [visited]
    by_cases hf : failing dev bytes vars k i n0 = true
    · rw [if_pos hf]
      refine ⟨by simp, ?_, ?_, ?_⟩
      · intro j name _ hlt; omega
      · intro hall
        have := hall 0 n0 (by simp)
        rw [Nat.add_zero, hf] at this
        exact Bool.noConfusion this
      · intro _
        exact ⟨0, n0, rfl, by simp, hf⟩
    · rw [if_neg hf]
      simp only [Bool.not_eq_true] at hf
      refine ⟨by simp only [List.length_cons]; omega, ?_, ?_, ?_⟩
      · intro j name hj hlt
        cases j with
        | zero =>
          simp only [List.getElem?_cons_zero, Option.some.injEq] at hj
          subst hj
          exact hf
        | succ j =>
          simp only [List.getElem?_cons_succ] at hj
          have := h2 j name hj (by omega)
          rw [Nat.add_assoc, Nat.add_comm 1 j] at this
          exact this
      · intro hall
        rw [h3 (fun j name hj => by
          have := hall (j + 1) name (by simpa using hj)
          rw [Nat.add_assoc, Nat.add_comm 1 j]
          exact this)]
        rfl
      · rintro ⟨j, name, hj, hfj⟩
        cases j with
        | zero =>
          simp only [List.getElem?_cons_zero, Option.some.injEq] at hj
          subst hj
          rw [Nat.add_zero, hf] at hfj
          exact Bool.noConfusion hfj
        | succ j =>
          simp only [List.getElem?_cons_succ] at hj
          obtain ⟨j1, name1, e1, e2, e3⟩ := h4 ⟨j, name, hj, by
            rw [Nat.add_assoc, Nat.add_comm 1 j]; exact hfj⟩
          refine ⟨j1 + 1, name1, by rw [e1], by simpa using e2, ?_⟩
          rw [Nat.add_assoc, Nat.add_comm 1 j1] at e3
          exact e3

theorem visited_setVariablesLoop {T V : Type} (dev : Device) (bytes : Variable V → List Nat)
    (vars : Variables T V) :
    ∀ (names : List String) (k : Kernel) (i : Nat) (k1 : Kernel),
      (setVariablesLoop dev bytes vars k i names).state? = some k1 →
      k1.args = k.args ++
        staleArgs bytes vars k i (names.take (visited dev bytes vars k i names)) ∧
      (setVariablesLoop dev bytes vars k i names = Res.ok k1 ↔
        ∀ j name, names[j]? = some name → failing dev bytes vars k (i + j) name = false)
  | [], k, _, k1, h => by
    simp only [setVariablesLoop, Res.state?, Option.some.injEq] at h
    subst h
    refine ⟨by simp [staleArgs, visited], fun _ j name hj => by simp at hj, fun _ => rfl⟩
  | n0 :: names, k, i, k1, h => by
    have hfail := failing_bindVariable dev bytes vars k i n0
    simp only [setVariablesLoop] at h ⊢
    cases hb : bindVariable dev bytes vars k i n0 with
    | ok k2 =>
      rw [hb] at h hfail
      simp only [] at h ⊢
      have hf : failing dev bytes vars k i n0 = false := (hfail k2 rfl).symm
      have ha := args_bindVariable dev bytes vars k i n0 k2 (by rw [hb]; rfl)
      have hv := values_bindVariable dev bytes vars k i n0 k2 (by rw [hb]; rfl)
      obtain ⟨hargs, hok⟩ := visited_setVariablesLoop dev bytes vars names k2 (i + 1) k1 h
      refine ⟨?_, ?_⟩
      · simp only [visited]
        rw [if_neg (by rw [hf]; exact Bool.false_ne_true), hargs, ha, List.take_succ_cons]
        simp only [staleArgs]
        rw [staleArgs_congr bytes vars k k2 _ (i + 1) (fun m hm => hv m (by omega)),
          visited_congr dev bytes vars k k2 _ (i + 1) (fun m hm => hv m (by omega)),
          List.append_assoc]
      · rw [hok]
        constructor
        · intro hall j name hj
          cases j with
          | zero =>
            simp only [List.getElem?_cons_zero, Option.some.injEq] at hj
            subst hj
            exact hf
          | succ j =>
            simp only [List.getElem?_cons_succ] at hj
            have := hall j name hj
            rw [failing_congr dev bytes vars k k2 _ name (hv _ (by omega)),
              Nat.add_assoc, Nat.add_comm 1 j] at this
            exact this
        · intro hall j name hj
          have := hall (j + 1) name (by simpa using hj)
          rw [failing_congr dev bytes vars k k2 _ name (hv _ (by omega)),
            Nat.add_assoc, Nat.add_comm 1 j]
          exact this
    | err k2 =>
      rw [hb] at h hfail
      simp only [Res.state?, Option.some.injEq] at h
      subst h
      have hf : failing dev bytes vars k i n0 = true := (hfail k2 rfl).symm
      have ha := args_bindVariable dev bytes vars k i n0 k2 (by rw [hb]; rfl)
      refine ⟨?_, ?_⟩
      · simp only [visited]
        rw [if_pos hf, ha]
        simp [staleArgs]
      · constructor
        · intro e; exact Res.noConfusion e
        · intro hall
          have := hall 0 n0 (by simp)
          rw [Nat.add_zero, hf] at this
          exact Bool.noConfusion this
    | undef => rw [hb] at h; exact Option.noConfusion h

theorem mem_staleArgs {T V : Type} (bytes : Variable V → List Nat) (vars : Variables T V)
    (k : Kernel) :
    ∀ (names : List String) (i j : Nat) (v : List Nat),
      (j, v) ∈ staleArgs bytes vars k i names ↔
        ∃ name var, i ≤ j ∧ names[j - i]? = some name ∧ vars.get name = some var ∧
          stale bytes vars k j name = true ∧ v = bytes var
  | [], _, _, _ => by simp [staleArgs]
  | n0 :: names, i, j, v => by
    simp only [staleArgs, List.mem_append]
    rw [mem_staleArgs bytes vars k names (i + 1) j v]
    constructor
    · rintro (h | ⟨name, var, h1, h2, h3, h4, h5⟩)
      · by_cases hs : stale bytes vars k i n0 = true
        · rw [if_pos hs, List.mem_singleton, Prod.mk.injEq] at h
          obtain ⟨e1, e2⟩ := h
          subst e1
          cases hg : vars.get n0 with
          | none =>
            unfold stale at hs
            rw [hg] at hs
            exact Bool.noConfusion hs
          | some var =>
            rw [hg] at e2
            exact ⟨n0, var, Nat.le_refl _, by simp, hg, hs, e2⟩
        · rw [if_neg hs] at h
          exact absurd h (List.not_mem_nil _)
      · refine ⟨name, var, by omega, ?_, h3, h4, h5⟩
        have : j - i = (j - (i + 1)) + 1 := by omega
        rw [this, List.getElem?_cons_succ]
        exact h2
    · rintro ⟨name, var, h1, h2, h3, h4, h5⟩
      by_cases hij : j = i
      · subst hij
        left
        rw [Nat.sub_self, List.getElem?_cons_zero, Option.some.injEq] at h2
        subst h2
        rw [if_pos h4, h3]
        simp [h5]
      · right
        refine ⟨name, var, by omega, ?_, h3, h4, h5⟩
        have : j - i = (j - (i + 1)) + 1 := by omega
        rw [this, List.getElem?_cons_succ] at h2
        exact h2

theorem state_cases {σ : Type} (r : Res σ) (s : σ) (h : r.state? = some s) :
    r = Res.ok s ∨ r = Res.err s := by
  cases r with
  | ok t => simp only [Res.state?, Option.some.injEq] at h; subst h; exact Or.inl rfl
  | err t => simp only [Res.state?, Option.some.injEq] at h; subst h; exact Or.inr rfl
  | undef => exact Option.noConfusion h

theorem getElem?_take_iff {α : Type} (l : List α) (m j : Nat) (a : α) :
    (l.take m)[j]? = some a ↔ j < m ∧ l[j]? = some a := by
  by_cases hj : j < m
  · rw [List.getElem?_take_of_lt hj]
    exact ⟨fun h => ⟨hj, h⟩, fun h => h.2⟩
  · rw [List.getElem?_eq_none (by rw [List.length_take]; omega)]
    exact ⟨fun h => Option.noConfusion h, fun h => absurd h.1 hj⟩

end CalcServer

end Aqua
namespace Aqua

namespace CalcServer

open InputOutput

/-- C12, as stated, fails: on a registry which holds `N` but not `x`, the call of
`setVariables` for the arguments `x` and `N` returns an error at `x`; the argument `N`,
which has no snapshot yet, is not set. -/
theorem c12_rebinding_counterexample :
    (setVariables exampleDevice exampleBytes registryN100 exampleTwoArgs).failed = true ∧
    (setVariables exampleDevice exampleBytes registryN100 exampleTwoArgs).state?.map
      (fun k => k.args) = some [] ∧
    exampleTwoArgs._var_names[1]? = some "N" ∧ exampleTwoArgs._var_values[1]? = some none ∧
    (registryN100.get "N").isSome = true ∧
    stale exampleBytes registryN100 exampleTwoArgs 1 "N" = true := by
  decide

/-- C12, amended: in every call of `Kernel::setVariables` the arguments are visited in
order up to the first one whose binding fails (its name is not in the registry, or the
call of `clSetKernelArg` made for it fails), this one included, and all of them when no
binding fails. The calls of `clSetKernelArg` made are those for the arguments visited
which are stale (the variable is in the registry, and the argument has no snapshot yet or
the bytes of its snapshot differ from the bytes of the variable), in order; no argument
before the last visited one fails, and the call succeeds if and only if no binding fails,
otherwise it returns an error and the last argument visited is a failing one. A call
which succeeds visits every argument, every snapshot holds the bytes of its variable
after it, and the next call on the same registry succeeds and sets no argument: it leaves
the kernel and the record of the calls of `clSetKernelArg` as they are. -/
theorem c12_rebinding {T V : Type} (dev : Device) (bytes : Variable V → List Nat)
    (vars : Variables T V) (k k1 : Kernel)
    (h : (setVariables dev bytes vars k).state? = some k1) :
    (k1.args = k.args ++ staleArgs bytes vars k 0
        (k._var_names.take (visited dev bytes vars k 0 k._var_names)) ∧
      (∀ j v, (j, v) ∈ staleArgs bytes vars k 0
          (k._var_names.take (visited dev bytes vars k 0 k._var_names)) ↔
        j < visited dev bytes vars k 0 k._var_names ∧
          ∃ name var, k._var_names[j]? = some name ∧ vars.get name = some var ∧
            stale bytes vars k j name = true ∧ v = bytes var) ∧
      (∀ j name, k._var_names[j]? = some name →
        j + 1 < visited dev bytes vars k 0 k._var_names →
        failing dev bytes vars k j name = false) ∧
      (setVariables dev bytes vars k = Res.ok k1 ↔
        ∀ j name, k._var_names[j]? = some name → failing dev bytes vars k j name = false) ∧
      (setVariables dev bytes vars k ≠ Res.ok k1 →
        setVariables dev bytes vars k = Res.err k1 ∧
        ∃ j name, visited dev bytes vars k 0 k._var_names = j + 1 ∧
          k._var_names[j]? = some name ∧ failing dev bytes vars k j name = true)) ∧
    (setVariables dev bytes vars k = Res.ok k1 →
      visited dev bytes vars k 0 k._var_names = k._var_names.length ∧
      k1.args = k.args ++ staleArgs bytes vars k 0 k._var_names ∧
      (∀ j name, k._var_names[j]? = some name → Snapshot bytes vars k1 j name) ∧
      setVariables dev bytes vars k1 = Res.ok k1 ∧
      staleArgs bytes vars k1 0 k1._var_names = []) := by
  obtain ⟨hargs, hok⟩ := visited_setVariablesLoop dev bytes vars k._var_names k 0 k1 h
  obtain ⟨-, hbefore, hall, hfirst⟩ := visited_spec dev bytes vars k k._var_names 0
  simp only [Nat.zero_add] at hok hbefore hall hfirst
  have hok1 : setVariables dev bytes vars k = Res.ok k1 ↔
      ∀ j name, k._var_names[j]? = some name → failing dev bytes vars k j name = false := hok
  refine ⟨⟨hargs, ?_, hbefore, hok1, ?_⟩, ?_⟩
  · intro j v
    rw [mem_staleArgs]
    constructor
    · rintro ⟨name, var, -, h2, h3, h4, h5⟩
      rw [Nat.sub_zero, getElem?_take_iff] at h2
      exact ⟨h2.1, name, var, h2.2, h3, h4, h5⟩
    · rintro ⟨hj, name, var, h2, h3, h4, h5⟩
      refine ⟨name, var, Nat.zero_le j, ?_, h3, h4, h5⟩
      rw [Nat.sub_zero, getElem?_take_iff]
      exact ⟨hj, h2⟩
  · intro hne
    refine ⟨(state_cases _ k1 h).resolve_left hne, hfirst ?_⟩
    by_contra hnone
    apply hne
    apply hok1.2
    intro j name hj
    by_contra hf
    exact hnone ⟨j, name, hj, by simpa using hf⟩
  intro hs
  have hm1 := hall (hok1.1 hs)
  have hsnap : ∀ j name, k._var_names[j]? = some name → Snapshot bytes vars k1 j name := by
    intro j name hj
    have := snapshot_setVariablesLoop dev bytes vars k._var_names k 0 k1 hs j name hj
    rw [Nat.zero_add] at this
    exact this
  have hnames : k1._var_names = k._var_names :=
    (sameLaunch_setVariables dev bytes vars k k1 h).2.2.2.1
  have hfix : setVariables dev bytes vars k1 = Res.ok k1 := by
    unfold setVariables
    rw [hnames]
    apply setVariablesLoop_of_snapshot
    intro j name hj
    rw [Nat.zero_add]
    exact hsnap j name hj
  refine ⟨hm1, ?_, hsnap, hfix, ?_⟩
  · rw [hargs, hm1, List.take_length]
  · obtain ⟨m2, -, hargs2, hok2⟩ :=
      args_setVariablesLoop dev bytes vars k1._var_names k1 0 k1 (by
        show (setVariables dev bytes vars k1).state? = some k1
        rw [hfix]; rfl)
    have hm2 := hok2 hfix
    rw [hm2, List.take_length] at hargs2
    exact List.append_right_eq_self.1 hargs2.symm

theorem c12_rebinding_witness :
    (setVariables exampleDevice exampleBytes registryN100 exampleTwoArgs).state? =
      some exampleTwoArgs ∧
    ((exampleTwoArgs.args = exampleTwoArgs.args ++ staleArgs exampleBytes registryN100 exampleTwoArgs 0
        (exampleTwoArgs._var_names.take (visited exampleDevice exampleBytes registryN100 exampleTwoArgs 0 exampleTwoArgs._var_names)) ∧
      (∀ j v, (j, v) ∈ staleArgs exampleBytes registryN100 exampleTwoArgs 0
          (exampleTwoArgs._var_names.take (visited exampleDevice exampleBytes registryN100 exampleTwoArgs 0 exampleTwoArgs._var_names)) ↔
        j < visited exampleDevice exampleBytes registryN100 exampleTwoArgs 0 exampleTwoArgs._var_names ∧
          ∃ name var, exampleTwoArgs._var_names[j]? = some name ∧ registryN100.get name = some var ∧
            stale exampleBytes registryN100 exampleTwoArgs j name = true ∧ v = exampleBytes var) ∧
      (∀ j name, exampleTwoArgs._var_names[j]? = some name →
        j + 1 < visited exampleDevice exampleBytes registryN100 exampleTwoArgs 0 exampleTwoArgs._var_names →
        failing exampleDevice exampleBytes registryN100 exampleTwoArgs j name = false) ∧
      (setVariables exampleDevice exampleBytes registryN100 exampleTwoArgs = Res.ok exampleTwoArgs ↔
        ∀ j name, exampleTwoArgs._var_names[j]? = some name → failing exampleDevice exampleBytes registryN100 exampleTwoArgs j name = false) ∧
      (setVariables exampleDevice exampleBytes registryN100 exampleTwoArgs ≠ Res.ok exampleTwoArgs →
        setVariables exampleDevice exampleBytes registryN100 exampleTwoArgs = Res.err exampleTwoArgs ∧
        ∃ j name, visited exampleDevice exampleBytes registryN100 exampleTwoArgs 0 exampleTwoArgs._var_names = j + 1 ∧
          exampleTwoArgs._var_names[j]? = some name ∧ failing exampleDevice exampleBytes registryN100 exampleTwoArgs j name = true)) ∧
    (setVariables exampleDevice exampleBytes registryN100 exampleTwoArgs = Res.ok exampleTwoArgs →
      visited exampleDevice exampleBytes registryN100 exampleTwoArgs 0 exampleTwoArgs._var_names = exampleTwoArgs._var_names.length ∧
      exampleTwoArgs.args = exampleTwoArgs.args ++ staleArgs exampleBytes registryN100 exampleTwoArgs 0 exampleTwoArgs._var_names ∧
      (∀ j name, exampleTwoArgs._var_names[j]? = some name → Snapshot exampleBytes registryN100 exampleTwoArgs j name) ∧
      setVariables exampleDevice exampleBytes registryN100 exampleTwoArgs = Res.ok exampleTwoArgs ∧
      staleArgs exampleBytes registryN100 exampleTwoArgs 0 exampleTwoArgs._var_names = [])) :=
  ⟨by decide, c12_rebinding exampleDevice exampleBytes registryN100 exampleTwoArgs
    exampleTwoArgs (by decide)⟩

/-- The binding of the argument `N` by the `setup` of the kernel of the examples, and the
next call on the same registry, which sets nothing. -/
theorem rebinding_example :
    exampleSetup.args = [(0, [100, 0, 0, 0])] ∧
    exampleSetup._var_values = [some [100, 0, 0, 0]] ∧
    setVariables exampleDevice exampleBytes registryN100 exampleSetup = Res.ok exampleSetup ∧
    (setVariables exampleDevice exampleBytes registryN1000 exampleSetup).state?.map
      (fun k => k.args) = some [(0, [100, 0, 0, 0]), (0, [232, 3, 0, 0])] := by
  decide

end CalcServer

end Aqua
namespace Aqua

namespace CalcServer

open InputOutput

/-! ## Theorems on the arguments which are not in the registry -/

theorem setVariablesLoop_unresolved {T V : Type} (dev : Device)
    (bytes : Variable V → List Nat) (vars : Variables T V) :
    ∀ (names : List String) (k : Kernel) (i : Nat),
      (∃ name ∈ names, vars.get name = none) →
      ∀ k1, setVariablesLoop dev bytes vars k i names ≠ Res.ok k1
  | [], _, _, h, _ => by
    obtain ⟨name, hn, -⟩ := h
    exact absurd hn (List.not_mem_nil _)
  | n0 :: names, k, i, h, k1 => by
    simp only [setVariablesLoop]
    cases hb : bindVariable dev bytes vars k i n0 with
    | ok k2 =>
      simp only []
      apply setVariablesLoop_unresolved dev bytes vars names k2 (i + 1)
      obtain ⟨name, hn, hg⟩ := h
      rcases List.mem_cons.1 hn with e | hn1
      · subst e
        unfold bindVariable at hb
        rw [hg] at hb
        exact Res.noConfusion hb
      · exact ⟨name, hn1, hg⟩
    | err k2 => exact fun e => Res.noConfusion e
    | undef => exact fun e => Res.noConfusion e

theorem sized_tail {T V : Type} (dev : Device) (bytes : Variable V → List Nat)
    (vars : Variables T V) (k k2 : Kernel) (i : Nat) (n0 : String) (names : List String)
    (hs : Sized bytes vars k i (n0 :: names))
    (hb : (bindVariable dev bytes vars k i n0).state? = some k2) :
    Sized bytes vars k2 (i + 1) names := by
  intro j name hj
  obtain ⟨o, ho, hlen⟩ := hs (j + 1) name (by simpa using hj)
  refine ⟨o, ?_, hlen⟩
  rw [values_bindVariable dev bytes vars k i n0 k2 hb (i + 1 + j) (by omega)]
  rw [Nat.add_assoc, Nat.add_comm 1 j]
  exact ho

theorem bindVariable_defined {T V : Type} (dev : Device) (bytes : Variable V → List Nat)
    (vars : Variables T V) (k : Kernel) (i : Nat) (n0 : String) (names : List String)
    (hs : Sized bytes vars k i (n0 :: names)) :
    bindVariable dev bytes vars k i n0 ≠ Res.undef ∧
    (vars.get n0 ≠ none → (∀ j value, dev.clSetKernelArg j value = true) →
      ∃ k2, bindVariable dev bytes vars k i n0 = Res.ok k2) := by
  obtain ⟨o, ho, hlen⟩ := hs 0 n0 (by simp)
  rw [Nat.add_zero] at ho
  unfold bindVariable
  cases hg : vars.get n0 with
  | none => exact ⟨fun e => Res.noConfusion e, fun hne => absurd rfl hne⟩
  | some var =>
    simp only []
    rw [ho]
    cases o with
    | none =>
      simp only [updateArg]
      refine ⟨?_, fun _ hset => ?_⟩
      · by_cases hc : dev.clSetKernelArg i (bytes var) = true
        · rw [if_pos hc]; exact fun e => Res.noConfusion e
        · rw [if_neg hc]; exact fun e => Res.noConfusion e
      · rw [if_pos (hset i _)]
        exact ⟨_, rfl⟩
    | some snapshot =>
      simp only []
      rw [if_neg (by have := hlen var snapshot hg rfl; omega)]
      by_cases h2 : snapshot.take (bytes var).length = bytes var
      · rw [if_pos h2]
        exact ⟨fun e => Res.noConfusion e, fun _ _ => ⟨_, rfl⟩⟩
      · rw [if_neg h2]
        simp only [updateArg]
        refine ⟨?_, fun _ hset => ?_⟩
        · by_cases hc : dev.clSetKernelArg i (bytes var) = true
          · rw [if_pos hc]; exact fun e => Res.noConfusion e
          · rw [if_neg hc]; exact fun e => Res.noConfusion e
        · rw [if_pos (hset i _)]
          exact ⟨_, rfl⟩

theorem setVariablesLoop_defined {T V : Type} (dev : Device)
    (bytes : Variable V → List Nat) (vars : Variables T V) :
    ∀ (names : List String) (k : Kernel) (i : Nat), Sized bytes vars k i names →
      setVariablesLoop dev bytes vars k i names ≠ Res.undef
  | [], _, _, _ => fun e => Res.noConfusion e
  | n0 :: names, k, i, hs => by
    simp only [setVariablesLoop]
    cases hb : bindVariable dev bytes vars k i n0 with
    | ok k2 =>
      simp only []
      exact setVariablesLoop_defined dev bytes vars names k2 (i + 1)
        (sized_tail dev bytes vars k k2 i n0 names hs (by rw [hb]; rfl))
    | err k2 => exact fun e => Res.noConfusion e
    | undef => exact absurd hb (bindVariable_defined dev bytes vars k i n0 names hs).1

theorem setVariablesLoop_resolved {T V : Type} (dev : Device)
    (bytes : Variable V → List Nat) (vars : Variables T V)
    (hset : ∀ j value, dev.clSetKernelArg j value = true) :
    ∀ (names : List String) (k : Kernel) (i : Nat), Sized bytes vars k i names →
      (∀ name ∈ names, vars.get name ≠ none) →
      ∃ k1, setVariablesLoop dev bytes vars k i names = Res.ok k1
  | [], k, _, _, _ => ⟨k, rfl⟩
  | n0 :: names, k, i, hs, hall => by
    obtain ⟨k2, hb⟩ := (bindVariable_defined dev bytes vars k i n0 names hs).2
      (hall n0 (List.mem_cons_self _ _)) hset
    simp only [setVariablesLoop]
    rw [hb]
    exact setVariablesLoop_resolved dev bytes vars hset names k2 (i + 1)
      (sized_tail dev bytes vars k k2 i n0 names hs (by rw [hb]; rfl))
      (fun name hn => hall name (List.mem_cons_of_mem _ hn))

theorem sized_of_unset {T V : Type} (bytes : Variable V → List Nat) (vars : Variables T V)
    (k : Kernel) (h : k._var_values = List.replicate k._var_names.length none) :
    Sized bytes vars k 0 k._var_names := by
  intro j name hj
  have hlt : j < k._var_names.length := by
    by_contra hge
    rw [List.getElem?_eq_none (by omega)] at hj
    exact Option.noConfusion hj
  refine ⟨none, ?_, fun var s _ e => Option.noConfusion e⟩
  rw [h, Nat.zero_add, List.getElem?_replicate, if_pos hlt]

/-- C21: `Kernel::setVariables` does not report a success when the name of some argument
is not the name of a variable of the registry, and it returns the error as soon as every
argument has a snapshot which can be compared (unset, or as long as its variable), as
after `Kernel::variables`; when every name is the name of a variable and every call of
`clSetKernelArg` succeeds, it reports a success. `Kernel::setup` returns the error of
`setVariables`. -/
theorem c21_unresolved_argument {T V : Type} (b : Build) (tk : Tokenizer T V)
    (fl : FloatOps V) (dev : Device) (bytes : Variable V → List Nat)
    (vars : Variables T V) (k : Kernel) :
    ((∃ name ∈ k._var_names, vars.get name = none) →
      (∀ k1, setVariables dev bytes vars k ≠ Res.ok k1) ∧
      (Sized bytes vars k 0 k._var_names → ∃ k1, setVariables dev bytes vars k = Res.err k1)) ∧
    ((∀ name ∈ k._var_names, vars.get name ≠ none) →
      (∀ j value, dev.clSetKernelArg j value = true) → Sized bytes vars k 0 k._var_names →
      ∃ k1, setVariables dev bytes vars k = Res.ok k1) ∧
    (∀ (unit : Option CXCursors) (name : String) (junk : Nat) (k0 k1 k2 : Kernel),
      compile dev k0._entry_point k0 = Res.ok k1 →
      Kernel.variables unit k1._entry_point k1 = Res.ok k2 →
      (∀ k3, setVariables dev bytes vars k2 = Res.err k3 →
        setup b tk fl dev bytes unit name junk vars k0 = Res.err (vars, k3)) ∧
      (k0._var_names = [] → k0._var_values = [] →
        (∃ name ∈ k2._var_names, vars.get name = none) →
        ∃ s, setup b tk fl dev bytes unit name junk vars k0 = Res.err s)) := by
  have herr : ∀ k : Kernel, (∃ name ∈ k._var_names, vars.get name = none) →
      Sized bytes vars k 0 k._var_names → ∃ k1, setVariables dev bytes vars k = Res.err k1 := by
    intro k hun hs
    have h1 := setVariablesLoop_unresolved dev bytes vars k._var_names k 0 hun
    have h2 := setVariablesLoop_defined dev bytes vars k._var_names k 0 hs
    unfold setVariables
    cases hl : setVariablesLoop dev bytes vars k 0 k._var_names with
    | ok k1 => exact absurd hl (h1 k1)
    | err k1 => exact ⟨k1, rfl⟩
    | undef => exact absurd hl h2
  have hsetup : ∀ (unit : Option CXCursors) (name : String) (junk : Nat) (k0 k1 k2 : Kernel),
      compile dev k0._entry_point k0 = Res.ok k1 →
      Kernel.variables unit k1._entry_point k1 = Res.ok k2 →
      ∀ k3, setVariables dev bytes vars k2 = Res.err k3 →
        setup b tk fl dev bytes unit name junk vars k0 = Res.err (vars, k3) := by
    intro unit name junk k0 k1 k2 hc hv k3 hs
    unfold setup
    rw [hc]
    simp only []
    rw [hv]
    simp only []
    rw [hs]
  refine ⟨fun hun => ⟨setVariablesLoop_unresolved dev bytes vars k._var_names k 0 hun,
    herr k hun⟩, ?_, ?_⟩
  · intro hall hset hs
    exact setVariablesLoop_resolved dev bytes vars hset k._var_names k 0 hs hall
  · intro unit name junk k0 k1 k2 hc hv
    refine ⟨hsetup unit name junk k0 k1 k2 hc hv, ?_⟩
    intro hn0 hv0 hun
    have hk1 : k1._var_names = [] ∧ k1._var_values = [] := by
      unfold compile at hc
      cases hd : dev.compile k0._path k0._entry_point with
      | none => rw [hd] at hc; exact Res.noConfusion hc
      | some w =>
        rw [hd] at hc
        simp only [Res.ok.injEq] at hc
        subst hc
        exact ⟨hn0, hv0⟩
    have hk2 : k2._var_values = List.replicate k2._var_names.length none := by
      cases unit with
      | none => exact Res.noConfusion hv
      | some root =>
        unfold Kernel.variables at hv
        simp only [] at hv
        split at hv
        · exact Res.noConfusion hv
        · split at hv
          · exact Res.noConfusion hv
          · rw [Res.ok.injEq] at hv
            subst hv
            simp [hk1.2]
    obtain ⟨k3, hk3⟩ := herr k2 hun (sized_of_unset bytes vars k2 hk2)
    exact ⟨_, hsetup unit name junk k0 k1 k2 hc hv k3 hk3⟩

theorem c21_unresolved_argument_witness :
    (∀ k1, setVariables exampleDevice exampleBytes registryN100 exampleTwoArgs ≠ Res.ok k1) ∧
    (∃ k1, setVariables exampleDevice exampleBytes registryN100 exampleTwoArgs = Res.err k1) ∧
    ∃ k1, setVariables exampleDevice exampleBytes registryN100
      { exampleKernel with _var_names := ["N"], _var_values := [none] } = Res.ok k1 :=
  ⟨((c21_unresolved_argument exampleBuild litTokenizer litFloatOps exampleDevice exampleBytes
      registryN100 exampleTwoArgs).1 ⟨"x", by decide, by decide⟩).1,
    ((c21_unresolved_argument exampleBuild litTokenizer litFloatOps exampleDevice exampleBytes
      registryN100 exampleTwoArgs).1 ⟨"x", by decide, by decide⟩).2
      (sized_of_unset exampleBytes registryN100 exampleTwoArgs (by decide)),
    (c21_unresolved_argument exampleBuild litTokenizer litFloatOps exampleDevice exampleBytes
      registryN100 { exampleKernel with _var_names := ["N"], _var_values := [none] }).2.1
      (by decide) (fun _ _ => rfl)
      (sized_of_unset exampleBytes registryN100
        { exampleKernel with _var_names := ["N"], _var_values := [none] } (by decide))⟩

end CalcServer

end Aqua

namespace Aqua

namespace InputOutput

/-! ## Theorems on the publication of the variables -/

theorem populateVariable_not_scalar {T V : Type} (b : Build) (tk : Tokenizer T V)
    (fl : FloatOps V) (tok : T) (var : Variable V) (h : var.type ∉ scalarTypes) :
    populateVariable b tk fl tok var = Res.err tok := by
  have hne : ∀ t ∈ scalarTypes, (var.type == t) = false := by
    intro t ht
    rw [beq_eq_false_iff_ne]
    intro e
    exact h (e ▸ ht)
  unfold populateVariable
  rw [hne "int" (by decide), hne "unsigned int" (by decide), hne "float" (by decide),
    hne "vec" (by decide), hne "vec2" (by decide), hne "vec3" (by decide),
    hne "vec4" (by decide), hne "ivec" (by decide), hne "ivec2" (by decide),
    hne "ivec3" (by decide), hne "ivec4" (by decide), hne "uivec" (by decide),
    hne "uivec2" (by decide), hne "uivec3" (by decide), hne "uivec4" (by decide)]
  rfl

theorem populateFields_one {T V : Type} (tk : Tokenizer T V) (name : String) (x : V)
    (tok : T) :
    populateFields tk name [""] (some [x]) tok = Res.ok (publish tk name 1 0 [x] tok) := by
  simp [populateFields, registerFields, publish, compName]

theorem populateFields_two {T V : Type} (tk : Tokenizer T V) (name : String) (tok : T) :
    ∀ xs : List V, 2 ≤ xs.length →
      populateFields tk name ["_x", "_y"] (some xs) tok =
        Res.ok (publish tk name 2 0 (xs.take 2) tok)
  | [], h => by simp at h
  | [_], h => by simp at h
  | _ :: _ :: _, _ => rfl

theorem populateFields_three {T V : Type} (tk : Tokenizer T V) (name : String) (tok : T) :
    ∀ xs : List V, 3 ≤ xs.length →
      populateFields tk name ["_x", "_y", "_z"] (some xs) tok =
        Res.ok (publish tk name 3 0 (xs.take 3) tok)
  | [], h => by simp at h
  | [_], h => by simp at h
  | [_, _], h => by simp at h
  | _ :: _ :: _ :: _, _ => rfl

theorem populateFields_four {T V : Type} (tk : Tokenizer T V) (name : String) (tok : T) :
    ∀ xs : List V, 4 ≤ xs.length →
      populateFields tk name ["_x", "_y", "_z", "_w"] (some xs) tok =
        Res.ok (publish tk name 4 0 (xs.take 4) tok)
  | [], h => by simp at h
  | [_], h => by simp at h
  | [_, _], h => by simp at h
  | [_, _, _], h => by simp at h
  | _ :: _ :: _ :: _ :: _, _ => rfl

theorem populateFields_native {T V : Type} (b : Build) (tk : Tokenizer T V) (name : String)
    (tok : T) (xs : List V) (h : (if b.HAVE_3D then 4 else 2) ≤ xs.length) :
    populateFields tk name (if b.HAVE_3D then ["_x", "_y", "_z", "_w"] else ["_x", "_y"])
        (some xs) tok =
      Res.ok (publish tk name (if b.HAVE_3D then 4 else 2) 0
        (xs.take (if b.HAVE_3D then 4 else 2)) tok) := by
  cases h3 : b.HAVE_3D with
  | true =>
    rw [h3] at h
    exact populateFields_four tk name tok xs h
  | false =>
    rw [h3] at h
    exact populateFields_two tk name tok xs h

theorem populateVariable_vec {T V : Type} (b : Build) (tk : Tokenizer T V) (fl : FloatOps V)
    (tok : T) (var : Variable V) (xs : List V)
    (ht : var.type ∈ ["vec", "vec2", "vec3", "vec4"]) (hv : asVec var.value = some xs)
    (hx : solveCount b var.type ≤ xs.length) :
    populateVariable b tk fl tok var =
      Res.ok (publish tk var.name (solveCount b var.type) 0
        (xs.take (solveCount b var.type)) tok) := by
  unfold populateVariable
  simp only [List.mem_cons, List.mem_singleton, List.not_mem_nil, or_false] at ht
  rcases ht with h | h | h | h
  · rw [h] at hx ⊢
    simp only [String.reduceBEq, Bool.false_eq_true, if_false, if_true]
    rw [hv]
    exact populateFields_native b tk var.name tok xs hx
  · rw [h] at hx ⊢
    simp only [String.reduceBEq, Bool.false_eq_true, if_false, if_true]
    rw [hv]
    exact populateFields_two tk var.name tok xs hx
  · rw [h] at hx ⊢
    simp only [String.reduceBEq, Bool.false_eq_true, if_false, if_true]
    rw [hv]
    exact populateFields_three tk var.name tok xs hx
  · rw [h] at hx ⊢
    simp only [String.reduceBEq, Bool.false_eq_true, if_false, if_true]
    rw [hv]
    exact populateFields_four tk var.name tok xs hx

theorem populateVariable_ivec {T V : Type} (b : Build) (tk : Tokenizer T V)
    (fl : FloatOps V) (tok : T) (var : Variable V) (xs : List V)
    (ht : var.type ∈ ["ivec", "ivec2", "ivec3", "ivec4"])
    (hv : asIVec fl var.value = some xs) (hx : solveCount b var.type ≤ xs.length) :
    populateVariable b tk fl tok var =
      Res.ok (publish tk var.name (solveCount b var.type) 0
        (xs.take (solveCount b var.type)) tok) := by
  unfold populateVariable
  simp only [List.mem_cons, List.mem_singleton, List.not_mem_nil, or_false] at ht
  rcases ht with h | h | h | h
  · rw [h] at hx ⊢
    simp only [String.reduceBEq, Bool.false_eq_true, if_false, if_true]
    rw [hv]
    exact populateFields_native b tk var.name tok xs hx
  · rw [h] at hx ⊢
    simp only [String.reduceBEq, Bool.false_eq_true, if_false, if_true]
    rw [hv]
    exact populateFields_two tk var.name tok xs hx
  · rw [h] at hx ⊢
    simp only [String.reduceBEq, Bool.false_eq_true, if_false, if_true]
    rw [hv]
    exact populateFields_three tk var.name tok xs hx
  · rw [h] at hx ⊢
    simp only [String.reduceBEq, Bool.false_eq_true, if_false, if_true]
    rw [hv]
    exact populateFields_four tk var.name tok xs hx

theorem populateVariable_uivec {T V : Type} (b : Build) (tk : Tokenizer T V)
    (fl : FloatOps V) (tok : T) (var : Variable V) (xs : List V)
    (ht : var.type ∈ ["uivec", "uivec2", "uivec3", "uivec4"])
    (hv : asUIVec fl var.value = some xs) (hx : solveCount b var.type ≤ xs.length) :
    populateVariable b tk fl tok var =
      Res.ok (publish tk var.name (solveCount b var.type) 0
        (xs.take (solveCount b var.type)) tok) := by
  unfold populateVariable
  simp only [List.mem_cons, List.mem_singleton, List.not_mem_nil, or_false] at ht
  rcases ht with h | h | h | h
  · rw [h] at hx ⊢
    simp only [String.reduceBEq, Bool.false_eq_true, if_false, if_true]
    rw [hv]
    exact populateFields_native b tk var.name tok xs hx
  · rw [h] at hx ⊢
    simp only [String.reduceBEq, Bool.false_eq_true, if_false, if_true]
    rw [hv]
    exact populateFields_two tk var.name tok xs hx
  · rw [h] at hx ⊢
    simp only [String.reduceBEq, Bool.false_eq_true, if_false, if_true]
    rw [hv]
    exact populateFields_three tk var.name tok xs hx
  · rw [h] at hx ⊢
    simp only [String.reduceBEq, Bool.false_eq_true, if_false, if_true]
    rw [hv]
    exact populateFields_four tk var.name tok xs hx

theorem populateVariable_components {T V : Type} (b : Build) (tk : Tokenizer T V)
    (fl : FloatOps V) (tok : T) (var : Variable V) (comps : List V)
    (h : componentsOf b fl var = some comps) :
    populateVariable b tk fl tok var =
      Res.ok (publish tk var.name comps.length 0 comps tok) := by
  unfold componentsOf at h
  cases hv : var.value with
  | int x =>
    rw [hv] at h
    simp only [] at h
    by_cases ht : var.type = "int"
    · rw [if_pos ht, Option.some.injEq] at h
      subst h
      unfold populateVariable
      rw [ht, hv]
      simp only [String.reduceBEq, Bool.false_eq_true, if_false, if_true]
      exact populateFields_one tk var.name _ tok
    · rw [if_neg ht] at h; exact Option.noConfusion h
  | uint x =>
    rw [hv] at h
    simp only [] at h
    by_cases ht : var.type = "unsigned int"
    · rw [if_pos ht, Option.some.injEq] at h
      subst h
      unfold populateVariable
      rw [ht, hv]
      simp only [String.reduceBEq, Bool.false_eq_true, if_false, if_true]
      exact populateFields_one tk var.name _ tok
    · rw [if_neg ht] at h; exact Option.noConfusion h
  | float x =>
    rw [hv] at h
    simp only [] at h
    by_cases ht : var.type = "float"
    · rw [if_pos ht, Option.some.injEq] at h
      subst h
      unfold populateVariable
      rw [ht, hv]
      simp only [String.reduceBEq, Bool.false_eq_true, if_false, if_true]
      exact populateFields_one tk var.name _ tok
    · rw [if_neg ht] at h; exact Option.noConfusion h
  | vec xs =>
    rw [hv] at h
    simp only [] at h
    by_cases ht : var.type ∈ ["vec", "vec2", "vec3", "vec4"] ∧
        solveCount b var.type ≤ xs.length
    · rw [if_pos ht, Option.some.injEq] at h
      subst h
      rw [List.length_take, Nat.min_eq_left ht.2]
      exact populateVariable_vec b tk fl tok var xs ht.1 (by rw [hv]; rfl) ht.2
    · rw [if_neg ht] at h; exact Option.noConfusion h
  | ivec xs =>
    rw [hv] at h
    simp only [] at h
    by_cases ht : var.type ∈ ["ivec", "ivec2", "ivec3", "ivec4"] ∧
        solveCount b var.type ≤ xs.length
    · rw [if_pos ht, Option.some.injEq] at h
      subst h
      rw [List.length_map, List.length_take, Nat.min_eq_left ht.2, List.map_take]
      exact populateVariable_ivec b tk fl tok var (xs.map fl.ofInt) ht.1 (by rw [hv]; rfl)
        (by rw [List.length_map]; exact ht.2)
    · rw [if_neg ht] at h; exact Option.noConfusion h
  | uivec xs =>
    rw [hv] at h
    simp only [] at h
    by_cases ht : var.type ∈ ["uivec", "uivec2", "uivec3", "uivec4"] ∧
        solveCount b var.type ≤ xs.length
    · rw [if_pos ht, Option.some.injEq] at h
      subst h
      rw [List.length_map, List.length_take, Nat.min_eq_left ht.2, List.map_take]
      exact populateVariable_uivec b tk fl tok var (xs.map fl.ofUInt) ht.1 (by rw [hv]; rfl)
        (by rw [List.length_map]; exact ht.2)
    · rw [if_neg ht] at h; exact Option.noConfusion h
  | mem m =>
    rw [hv] at h
    exact Option.noConfusion h

theorem populateLoop_scalars {T V : Type} (b : Build) (tk : Tokenizer T V) (fl : FloatOps V) :
    ∀ (_vars : List (Variable V)) (tok : T),
      (∀ v ∈ _vars, (componentsOf b fl v).isSome = true) →
      populateLoop b tk fl tok _vars = Res.ok (published b tk fl tok _vars)
  | [], _, _ => rfl
  | var :: _vars, tok, h => by
    have hv := h var (List.mem_cons_self _ _)
    cases hc : componentsOf b fl var with
    | none => rw [hc] at hv; exact Bool.noConfusion hv
    | some comps =>
      simp only [populateLoop, published]
      rw [populateVariable_components b tk fl tok var comps hc, hc]
      exact populateLoop_scalars b tk fl _vars _ (fun v hm => h v (List.mem_cons_of_mem _ hm))

theorem populateLoop_stops {T V : Type} (b : Build) (tk : Tokenizer T V) (fl : FloatOps V)
    (var : Variable V) (post : List (Variable V)) (hvar : var.type ∉ scalarTypes) :
    ∀ (pre : List (Variable V)) (tok : T),
      (∀ v ∈ pre, (componentsOf b fl v).isSome = true) →
      populateLoop b tk fl tok (pre ++ var :: post) = Res.err (published b tk fl tok pre)
  | [], tok, _ => by
    simp only [List.nil_append, populateLoop, published]
    rw [populateVariable_not_scalar b tk fl tok var hvar]
  | v0 :: pre, tok, h => by
    have hv := h v0 (List.mem_cons_self _ _)
    cases hc : componentsOf b fl v0 with
    | none => rw [hc] at hv; exact Bool.noConfusion hv
    | some comps =>
      simp only [List.cons_append, populateLoop, published]
      rw [populateVariable_components b tk fl tok v0 comps hc, hc]
      exact populateLoop_stops b tk fl var post hvar pre _
        (fun v hm => h v (List.mem_cons_of_mem _ hm))

/-- C26, as stated, fails: on the registry of the scalar `a`, the array `b` and the
scalar `c`, `populate` without a name returns an error at `b`, and the components of `c`
are not published. -/
theorem c26_populate_counterexample :
    mixedRegistry._vars.map (fun var => (var.name, var.type)) =
      [("a", "int"), ("b", "float*"), ("c", "ivec2")] ∧
    populate exampleBuild litTokenizer litFloatOps mixedRegistry none = Res.err [("a", 1)] ∧
    populate exampleBuild litTokenizer litFloatOps mixedRegistry (some "c") =
      Res.ok [("c_y", 4), ("c_x", 3)] := by
  decide

/-- C26, amended: on a registry which holds scalar variables only, `Variables::populate`
called without a name succeeds and publishes the components of every variable, in the
order of the registry: a variable of one component under its name, a vector under its
name followed by `_x`, `_y`, `_z`, `_w`. On a registry which holds a variable whose type is
not one of the scalar types, as an array, it returns an error at the first such variable:
the scalar variables before it are published and the ones after it are not. -/
theorem c26_populate {T V : Type} (b : Build) (tk : Tokenizer T V) (fl : FloatOps V)
    (vars : Variables T V) :
    ((∀ v ∈ vars._vars, (componentsOf b fl v).isSome = true) →
      populate b tk fl vars none = Res.ok (published b tk fl vars.tok vars._vars)) ∧
    (∀ (pre post : List (Variable V)) (var : Variable V), vars._vars = pre ++ var :: post →
      (∀ v ∈ pre, (componentsOf b fl v).isSome = true) → var.type ∉ scalarTypes →
      populate b tk fl vars none = Res.err (published b tk fl vars.tok pre)) := by
  refine ⟨fun h => populateLoop_scalars b tk fl vars._vars vars.tok h, ?_⟩
  intro pre post var hsplit hpre hvar
  show populateLoop b tk fl vars.tok vars._vars = _
  rw [hsplit]
  exact populateLoop_stops b tk fl var post hvar pre vars.tok hpre

theorem c26_populate_witness :
    populate exampleBuild litTokenizer litFloatOps exampleRegistry none =
      Res.ok (published exampleBuild litTokenizer litFloatOps exampleRegistry.tok
        exampleRegistry._vars) ∧
    published exampleBuild litTokenizer litFloatOps [] exampleRegistry._vars =
      [("b_y", 2), ("b_x", 1), ("a", 1)] ∧
    populate exampleBuild litTokenizer litFloatOps mixedRegistry none =
      Res.err (published exampleBuild litTokenizer litFloatOps mixedRegistry.tok
        [⟨0, "a", "int", Value.int 1⟩]) :=
  ⟨(c26_populate exampleBuild litTokenizer litFloatOps exampleRegistry).1 (by decide),
    by decide,
    (c26_populate exampleBuild litTokenizer litFloatOps mixedRegistry).2
      [⟨0, "a", "int", Value.int 1⟩] [⟨2, "c", "ivec2", Value.ivec [3, 4]⟩]
      ⟨1, "b", "float*", Value.mem (some 7)⟩ (by decide) (by decide) (by decide)⟩

end InputOutput

end Aqua
namespace Aqua

namespace InputOutput

/-! ## Theorems on the size of the arrays -/

theorem elementSize_base (b : Build) (t : String) (ht : t ∈ ["int", "unsigned int", "float"]) :
    Variables.elementSize b t = some (typeToBytes b (t ++ "*")) := by
  simp only [List.mem_cons, List.mem_singleton, List.not_mem_nil, or_false] at ht
  rw [typeToBytes_flagBuild]
  have h4 : ∀ have3D : Bool, ∀ u ∈ ["int", "unsigned int", "float"],
      typeToBytes (flagBuild have3D) (u ++ "*") = 4 := by decide
  rw [h4 b.HAVE_3D t (by simpa using ht)]
  unfold Variables.elementSize
  rcases ht with h | h | h <;> subst h <;>
    simp only [String.reduceBEq, Bool.false_eq_true, if_false, if_true]

theorem elementSize_vector (b : Build) (t : String)
    (ht : t ∈ ["vec", "vec2", "vec3", "vec4", "ivec", "ivec2", "ivec3", "ivec4", "uivec",
      "uivec2", "uivec3", "uivec4", "matrix"]) :
    Variables.elementSize b t = some (b.sizeofType t) := by
  have h1 : (t == "int") = false := by
    rw [beq_eq_false_iff_ne]; intro e; subst e; revert ht; decide
  have h2 : (t == "unsigned int") = false := by
    rw [beq_eq_false_iff_ne]; intro e; subst e; revert ht; decide
  have h3 : (t == "float") = false := by
    rw [beq_eq_false_iff_ne]; intro e; subst e; revert ht; decide
  have h4 : ["vec", "vec2", "vec3", "vec4", "ivec", "ivec2", "ivec3", "ivec4", "uivec",
      "uivec2", "uivec3", "uivec4", "matrix"].contains t = true := by
    simpa using ht
  unfold Variables.elementSize
  rw [h1, h2, h3, h4]
  rfl

theorem truncateAt_mark (t : String) (ht : t ∈ plainTypes) :
    String.mk (truncateAt '*' (t ++ "*").toList) = t := by
  revert t
  decide

theorem registerClMem_size {T V : Type} (b : Build) (tk : Tokenizer T V) (fl : FloatOps V)
    (cl : Nat → Option Nat) (vars : Variables T V) (name type length : String) (s mem : Nat)
    (hs : Variables.elementSize b (String.mk (truncateAt '*' type.toList)) = some s)
    (hlen : (length != "") = true)
    (hn : fl.toUInt (tk.solve vars.tok length).1 % 2 ^ 32 ≠ 0)
    (hcl : cl (fl.toUInt (tk.solve vars.tok length).1 % 2 ^ 32 * s) = some mem) :
    Variables.registerClMem b tk fl cl vars name type length =
      Res.ok (vars.push vars.tok name type (Value.mem (some mem))) := by
  unfold Variables.registerClMem
  rw [hs]
  simp only []
  rw [if_pos hlen, if_pos hn, hcl]

theorem strstr_mark (t : String) (ht : t ∈ plainTypes) : strstr (t ++ "*") "*" = true := by
  revert t
  decide

/-- For an array type `t*` and a length expression which evaluates to a
count `n` which is not 0, `registerVariable` allocates a buffer of `n` times the size of
an element, which is 4 for `int*`, `unsigned int*` and `float*`, and the `sizeof` of the C
type `t` of the build for the vectors and the matrix. This size is `typeToBytes(t*)` for
the three base types; for a vector or a matrix it is `typeToBytes(t*)` exactly when the
`sizeof` of the C type is 4 times `typeToN(t*)`. -/
theorem element_size_of_array {T V : Type} (b : Build) (tk : Tokenizer T V) (fl : FloatOps V)
    (cl : Nat → Option Nat) (vars : Variables T V) (name t length value : String)
    (mem : Nat) (ht : t ∈ plainTypes) (hlen : (length != "") = true)
    (hn : fl.toUInt (tk.solve vars.tok length).1 % 2 ^ 32 ≠ 0)
    (hcl : cl (fl.toUInt (tk.solve vars.tok length).1 % 2 ^ 32 *
      (if t ∈ ["int", "unsigned int", "float"] then 4 else b.sizeofType t)) = some mem) :
    Variables.registerVariable b tk fl cl vars name (t ++ "*") length value =
      Res.ok (Variables.push
        { vars with _vars := Variables.eraseNamed name vars._vars.length 0 vars._vars }
        vars.tok name (t ++ "*") (Value.mem (some mem))) ∧
    (t ∈ ["int", "unsigned int", "float"] → typeToBytes b (t ++ "*") = 4) ∧
    (t ∉ ["int", "unsigned int", "float"] →
      (b.sizeofType t = typeToBytes b (t ++ "*") ↔
        b.sizeofType t = 4 * typeToN b (t ++ "*"))) := by
  have htab := supportedTypes_table b.HAVE_3D (t ++ "*") (by
    rw [supportedTypes_eq]
    exact List.mem_append_right _ (List.mem_map_of_mem _ ht))
  rw [← typeToBytes_flagBuild, ← typeToN_flagBuild] at htab
  have hsize : Variables.elementSize b (String.mk (truncateAt '*' (t ++ "*").toList)) =
      some (if t ∈ ["int", "unsigned int", "float"] then 4 else b.sizeofType t) := by
    rw [truncateAt_mark t ht]
    by_cases hb : t ∈ ["int", "unsigned int", "float"]
    · rw [if_pos hb, elementSize_base b t hb]
      have h4 : ∀ have3D : Bool, ∀ u ∈ ["int", "unsigned int", "float"],
          typeToBytes (flagBuild have3D) (u ++ "*") = 4 := by decide
      rw [typeToBytes_flagBuild, h4 b.HAVE_3D t hb]
    · rw [if_neg hb]
      have hv : ∀ u ∈ plainTypes, u ∉ ["int", "unsigned int", "float"] →
          u ∈ ["vec", "vec2", "vec3", "vec4", "ivec", "ivec2", "ivec3", "ivec4", "uivec",
            "uivec2", "uivec3", "uivec4", "matrix"] := by decide
      exact elementSize_vector b t (hv t ht hb)
  refine ⟨?_, ?_, ?_⟩
  · unfold Variables.registerVariable
    rw [strstr_mark t ht, if_pos rfl]
    exact registerClMem_size b tk fl cl _ name (t ++ "*") length _ mem hsize hlen hn hcl
  · intro hb
    have h4 : ∀ have3D : Bool, ∀ u ∈ ["int", "unsigned int", "float"],
        typeToBytes (flagBuild have3D) (u ++ "*") = 4 := by decide
    rw [typeToBytes_flagBuild, h4 b.HAVE_3D t hb]
  · intro _
    rw [htab.1, Nat.mul_comm]

theorem array_vec2_example :
    Variables.registerVariable exampleBuild litTokenizer litFloatOps (fun size => some size)
        emptyVariables "v" ("vec2" ++ "*") "10" "" =
      Res.ok (Variables.push
        { emptyVariables with
          _vars := Variables.eraseNamed "v" emptyVariables._vars.length 0 emptyVariables._vars }
        emptyVariables.tok "v" ("vec2" ++ "*") (Value.mem (some 80))) ∧
    ("vec2" ∈ ["int", "unsigned int", "float"] → typeToBytes exampleBuild ("vec2" ++ "*") = 4) ∧
    ("vec2" ∉ ["int", "unsigned int", "float"] →
      (exampleBuild.sizeofType "vec2" = typeToBytes exampleBuild ("vec2" ++ "*") ↔
        exampleBuild.sizeofType "vec2" = 4 * typeToN exampleBuild ("vec2" ++ "*"))) :=
  element_size_of_array exampleBuild litTokenizer litFloatOps (fun size => some size)
    emptyVariables "v" "vec2" "10" "" 80 (by decide) (by decide) (by decide) (by decide)

/-- On a build where a vector of three components takes 16 bytes,
the registration of an array of 10 elements of type `vec3*` allocates 160 bytes, while
`typeToBytes` gives 12 bytes by element, that is 120 bytes; 160 over 12 is not 10. -/
theorem array_vec3_example :
    exampleBuild.sizeofType "vec3" = 16 ∧
    (Variables.registerVariable exampleBuild litTokenizer litFloatOps (fun size => some size)
      emptyVariables "v" "vec3*" "10" "").state?.bind
        (fun s => (s.get "v").map (fun var => var.value)) = some (Value.mem (some 160)) ∧
    typeToBytes exampleBuild "vec3*" = 12 ∧ 10 * typeToBytes exampleBuild "vec3*" = 120 ∧
    arrayLength exampleBuild 160 "vec3*" = 13 := by
  decide

/-- C27 does not hold: on a build where the C types `vec3`, `ivec3` and `uivec3` take 16
bytes, as the OpenCL vectors of three components do, the registration of an array of one
of these types with a length `n` of 3 or more allocates `n * 16` bytes, the element size
of `registerClMem`, while `typeToBytes` gives 12 bytes by element: the two mappings
disagree, the buffer is not of `n * typeToBytes(type)` bytes, and the length computed as
`size() / typeToBytes(type)` is not `n`. -/
theorem c27_element_size {T V : Type} (b : Build) (tk : Tokenizer T V) (fl : FloatOps V)
    (cl : Nat → Option Nat) (vars : Variables T V) (name t length value : String)
    (mem : Nat) (ht : t ∈ ["vec3", "ivec3", "uivec3"]) (hsize : b.sizeofType t = 16)
    (hlen : (length != "") = true)
    (hn : 3 ≤ fl.toUInt (tk.solve vars.tok length).1 % 2 ^ 32)
    (hcl : cl (fl.toUInt (tk.solve vars.tok length).1 % 2 ^ 32 * 16) = some mem) :
    Variables.registerVariable b tk fl cl vars name (t ++ "*") length value =
      Res.ok (Variables.push
        { vars with _vars := Variables.eraseNamed name vars._vars.length 0 vars._vars }
        vars.tok name (t ++ "*") (Value.mem (some mem))) ∧
    typeToBytes b (t ++ "*") = 12 ∧
    fl.toUInt (tk.solve vars.tok length).1 % 2 ^ 32 * 16 ≠
      fl.toUInt (tk.solve vars.tok length).1 % 2 ^ 32 * typeToBytes b (t ++ "*") ∧
    arrayLength b (fl.toUInt (tk.solve vars.tok length).1 % 2 ^ 32 * 16) (t ++ "*") ≠
      fl.toUInt (tk.solve vars.tok length).1 % 2 ^ 32 := by
  have hp : ∀ u ∈ ["vec3", "ivec3", "uivec3"],
      u ∈ plainTypes ∧ u ∉ ["int", "unsigned int", "float"] := by decide
  have h12 : ∀ have3D : Bool, ∀ u ∈ ["vec3", "ivec3", "uivec3"],
      typeToBytes (flagBuild have3D) (u ++ "*") = 12 := by decide
  have hb : typeToBytes b (t ++ "*") = 12 := by
    rw [typeToBytes_flagBuild, h12 b.HAVE_3D t ht]
  refine ⟨?_, hb, ?_, ?_⟩
  · refine (element_size_of_array b tk fl cl vars name t length value mem (hp t ht).1 hlen
      (by omega) ?_).1
    rw [if_neg (hp t ht).2, hsize]
    exact hcl
  · rw [hb]
    omega
  · unfold arrayLength
    rw [hb]
    omega

theorem c27_element_size_witness :
    Variables.registerVariable exampleBuild litTokenizer litFloatOps (fun size => some size)
        emptyVariables "v" ("vec3" ++ "*") "10" "" =
      Res.ok (Variables.push
        { emptyVariables with
          _vars := Variables.eraseNamed "v" emptyVariables._vars.length 0 emptyVariables._vars }
        emptyVariables.tok "v" ("vec3" ++ "*") (Value.mem (some 160))) ∧
    typeToBytes exampleBuild ("vec3" ++ "*") = 12 ∧
    litFloatOps.toUInt (litTokenizer.solve emptyVariables.tok "10").1 % 2 ^ 32 * 16 ≠
      litFloatOps.toUInt (litTokenizer.solve emptyVariables.tok "10").1 % 2 ^ 32 *
        typeToBytes exampleBuild ("vec3" ++ "*") ∧
    arrayLength exampleBuild
        (litFloatOps.toUInt (litTokenizer.solve emptyVariables.tok "10").1 % 2 ^ 32 * 16)
        ("vec3" ++ "*") ≠
      litFloatOps.toUInt (litTokenizer.solve emptyVariables.tok "10").1 % 2 ^ 32 :=
  c27_element_size exampleBuild litTokenizer litFloatOps (fun size => some size)
    emptyVariables "v" "vec3" "10" "" 160 (by decide) (by decide) (by decide) (by decide)
    (by decide)

end InputOutput

end Aqua

namespace Aqua

namespace InputOutput

/-! ## Theorems on the parser of a document and on the settings -/

/-- C23, on the source: on a document without `Include` element whose settings are parsed
and whose other sections are parsed without exception, `State::parse` returns to its
caller when `parseTools` has returned the error flag `true`: the flag is not read, the
sections after the tools are parsed on the setup left by `parseTools`, and no exception is
thrown. -/
theorem c23_tools_error_dropped {D : Type} (env : Env) (sec : Sections D)
    (files : String → Option (Option (Document D))) (fuel : Nat) (filepath pfx : String)
    (sim_data : SimData) (root : Document D) (settings : sphSettings)
    (sim1 sim2 sim3 sim4 sim5 sim6 : ProblemSetup)
    (hfile : files filepath = some (some root)) (hinclude : root.Include = [])
    (hsettings : parseSettings env root.Settings sim_data.settings = Thrown.done settings)
    (hvariables : sec.parseVariables root.others sim_data.sim pfx = Thrown.done sim1)
    (hdefinitions : sec.parseDefinitions root.others sim1 pfx = Thrown.done sim2)
    (htools : parseTools env root.Tools sim2 pfx = Res.err sim3)
    (hreports : sec.parseReports root.others sim3 pfx = Thrown.done sim4)
    (htiming : sec.parseTiming root.others sim4 pfx = Thrown.done sim5)
    (hsets : sec.parseSets root.others sim5 pfx = Thrown.done sim6) :
    parse env sec files (fuel + 1) filepath sim_data pfx =
      some (Thrown.done ⟨settings, sim6⟩) := by
  have hsec : parseSections env sec root sim_data pfx = Thrown.done ⟨settings, sim6⟩ := by
    simp only [parseSections, hsettings, hvariables, hdefinitions, htools, hreports, htiming,
      hsets, Thrown.andThen, Res.dropFlag]
  simp only [parse, hfile, hinclude, parseIncludes, hsec]

theorem c23_tools_error_dropped_witness :
    parseTools exampleEnv unknownTypeDocument.Tools emptySetup "" =
      Res.err ⟨[⟨[("type", "bogus"), ("name", "t")]⟩], [], [0], []⟩ ∧
    parse exampleEnv plainSections exampleFiles (0 + 1) "bad.xml"
        ⟨defaultSettings, emptySetup⟩ "" =
      some (Thrown.done ⟨defaultSettings,
        ⟨[⟨[("type", "bogus"), ("name", "t")]⟩], [], [0], []⟩⟩) :=
  ⟨by decide,
    c23_tools_error_dropped exampleEnv plainSections exampleFiles 0 "bad.xml" ""
      ⟨defaultSettings, emptySetup⟩ unknownTypeDocument defaultSettings emptySetup emptySetup
      ⟨[⟨[("type", "bogus"), ("name", "t")]⟩], [], [0], []⟩
      ⟨[⟨[("type", "bogus"), ("name", "t")]⟩], [], [0], []⟩
      ⟨[⟨[("type", "bogus"), ("name", "t")]⟩], [], [0], []⟩
      ⟨[⟨[("type", "bogus"), ("name", "t")]⟩], [], [0], []⟩
      rfl rfl (by decide) (by decide) (by decide) (by decide) (by decide) (by decide)
      (by decide)⟩

/-- Documents with a tool of an unknown type, with a kernel without `path` and with an
unknown action: `parseTools` returns the error flag and `State::parse` returns. -/
theorem parse_examples :
    (parseTools exampleEnv unknownTypeDocument.Tools emptySetup "").failed = true ∧
    (parse exampleEnv plainSections exampleFiles 1 "bad.xml"
      ⟨defaultSettings, emptySetup⟩ "").map Thrown.returned = some true ∧
    (parseTools exampleEnv missingPathDocument.Tools emptySetup "").failed = true ∧
    (parseTools exampleEnv [missingPathDocument.Tools.flatten.drop 1] emptySetup "").failed =
      true ∧
    (parse exampleEnv plainSections (fun _ => some (some missingPathDocument)) 1 "k.xml"
      ⟨defaultSettings, emptySetup⟩ "").map Thrown.returned = some true ∧
    (parse exampleEnv plainSections exampleFiles 1 "none.xml"
      ⟨defaultSettings, emptySetup⟩ "").map Thrown.returned = some false := by
  decide

theorem parseDevice_frame (env : Env) (settings result : sphSettings) (s_elem : DOMElement)
    (h : parseDevice env settings s_elem = Thrown.done result) :
    result.base_path = settings.base_path ∧ result.save_on_fail = settings.save_on_fail := by
  unfold parseDevice at h
  cases hp : env.stoi (xmlAttribute s_elem "platform") with
  | none => rw [hp] at h; exact Thrown.noConfusion h
  | some platform =>
    rw [hp] at h
    simp only [] at h
    cases hd : env.stoi (xmlAttribute s_elem "device") with
    | none => rw [hd] at h; exact Thrown.noConfusion h
    | some device =>
      rw [hd] at h
      simp only [] at h
      by_cases h1 : (xmlAttribute s_elem "type" == "ALL") = true
      · rw [if_pos h1, Thrown.done.injEq] at h; subst h; exact ⟨rfl, rfl⟩
      rw [if_neg h1] at h
      by_cases h2 : (xmlAttribute s_elem "type" == "CPU") = true
      · rw [if_pos h2, Thrown.done.injEq] at h; subst h; exact ⟨rfl, rfl⟩
      rw [if_neg h2] at h
      by_cases h3 : (xmlAttribute s_elem "type" == "GPU") = true
      · rw [if_pos h3, Thrown.done.injEq] at h; subst h; exact ⟨rfl, rfl⟩
      rw [if_neg h3] at h
      by_cases h4 : (xmlAttribute s_elem "type" == "ACCELERATOR") = true
      · rw [if_pos h4, Thrown.done.injEq] at h; subst h; exact ⟨rfl, rfl⟩
      rw [if_neg h4] at h
      by_cases h5 : (xmlAttribute s_elem "type" == "DEFAULT") = true
      · rw [if_pos h5, Thrown.done.injEq] at h; subst h; exact ⟨rfl, rfl⟩
      rw [if_neg h5] at h
      exact Thrown.noConfusion h

/-- C25, on the source: the document written by `State::write` holds the device of the
settings only, so the settings given back by its parsing have the root path and the
save-on-fail flag which the reading setup had before, whatever the ones written. -/
theorem c25_settings_not_written (env : Env) (written before result : sphSettings)
    (h : parseSettings env [writeSettings written] before = Thrown.done result) :
    result.base_path = before.base_path ∧ result.save_on_fail = before.save_on_fail := by
  simp only [parseSettings, parseSettingsElement, writeSettings, List.foldl, parseDevices] at h
  cases hd : parseDevice env before
      ⟨[("platform", toString written.platform_id), ("device", toString written.device_id),
        ("type", deviceTypeText written)], ""⟩ with
  | done r =>
    rw [hd] at h
    simp only [Thrown.done.injEq] at h
    subst h
    exact parseDevice_frame env before r _ hd
  | thrown what => rw [hd] at h; exact Thrown.noConfusion h
  | undef => rw [hd] at h; exact Thrown.noConfusion h

theorem c25_settings_not_written_witness :
    parseSettings decimalEnv [writeSettings exampleSettings] defaultSettings =
      Thrown.done ⟨false, 1, 1, cl_device_type.CL_DEVICE_TYPE_GPU, ""⟩ ∧
    exampleSettings = ⟨true, 1, 1, cl_device_type.CL_DEVICE_TYPE_GPU,
      "/home/user/simulation"⟩ ∧
    ((⟨false, 1, 1, cl_device_type.CL_DEVICE_TYPE_GPU, ""⟩ : sphSettings).base_path =
        defaultSettings.base_path ∧
      (⟨false, 1, 1, cl_device_type.CL_DEVICE_TYPE_GPU, ""⟩ : sphSettings).save_on_fail =
        defaultSettings.save_on_fail) :=
  ⟨by decide, by decide,
    c25_settings_not_written decimalEnv exampleSettings defaultSettings
      ⟨false, 1, 1, cl_device_type.CL_DEVICE_TYPE_GPU, ""⟩ (by decide)⟩

end InputOutput

end Aqua
